import Mathlib

/-!
# monsterwm: client rings, desktops and the tiling arithmetic

A shallow embedding of `monsterwm.c`.

* Client records live in a heap `Nat → client`; address `0` is `NULL`, and
  `calloc` hands out the addresses `1, 2, 3, ...` (`State.brk` is the last
  address handed out).  `free` leaves the cell where it is.
* The global variables of the C file are the fields of `State`; the calls
  made to Xlib and the writes to `stdout`/`stderr` are appended to
  `State.out`.
* Every function returns `Option State`: `none` stands for a run that does
  not return normally (a `NULL` dereference, an access outside `desktops[]`,
  or a `for (c = head; c; c = c->next)` loop on a chain that never reaches
  `NULL`).  Such a loop is given `brk` steps of fuel, which is enough for
  every chain of distinct allocated cells.
* `int` is modelled by `Int`; `/` and `%` are the truncating `Int.tdiv` and
  `Int.tmod` of C.
-/

namespace Monsterwm

/-! ## Data model -/

/-- The `client` struct.  A pointer to a client is a natural number (its
address, `0` for `NULL`), and so is an X window handle. -/
structure client where
  next : Nat
  prev : Nat
  isurgent : Bool
  win : Nat
deriving DecidableEq, Repr

/-- The `desktop` struct. -/
structure desktop where
  master_size : Int
  mode : Int
  growth : Int
  head : Nat
  current : Nat
  showpanel : Bool
deriving DecidableEq, Repr

/-- The `AppRule` struct. -/
structure AppRule where
  «class» : String
  desktop : Int
  follow : Bool
deriving DecidableEq, Repr

/-- Layout mode `TILE` of the anonymous enum. -/
def TILE : Int := 0
/-- Layout mode `MONOCLE`. -/
def MONOCLE : Int := 1
/-- Layout mode `BSTACK`. -/
def BSTACK : Int := 2
/-- Layout mode `GRID`. -/
def GRID : Int := 3

/-- The compile-time settings of `config.h` that the modelled functions read. -/
structure Config where
  DESKTOPS : Nat
  ATTACH_ASIDE : Bool
  FOLLOW_WINDOW : Bool
  FOLLOW_MOUSE : Bool
  CLICK_TO_FOCUS : Bool
  TOP_PANEL : Bool
  SHOW_PANEL : Bool
  PANEL_HEIGHT : Int
  BORDER_WIDTH : Int
  MINWSZ : Int
  DEFAULT_MODE : Int
  DEFAULT_DESKTOP : Int
  rules : List AppRule

/-- The values of `config.def.h`. -/
def defaultConfig : Config where
  DESKTOPS := 4
  ATTACH_ASIDE := true
  FOLLOW_WINDOW := false
  FOLLOW_MOUSE := false
  CLICK_TO_FOCUS := true
  TOP_PANEL := true
  SHOW_PANEL := true
  PANEL_HEIGHT := 18
  BORDER_WIDTH := 2
  MINWSZ := 50
  DEFAULT_MODE := TILE
  DEFAULT_DESKTOP := 0
  rules := [⟨"MPlayer", 3, true⟩, ⟨"Gimp", 0, false⟩]

/-- One observable call: an Xlib request or a write to `stdout`/`stderr`. -/
inductive XCall where
  | XSelectInput (w : Nat) (enterMask : Bool)
  | XUnmapWindow (w : Nat)
  | XMapWindow (w : Nat)
  | XMoveResizeWindow (w : Nat) (x y width height : Int)
  | XSetWindowBorderWidth (w : Nat) (width : Int)
  | XSetWindowBorder (w : Nat) (color : Nat)
  | XGrabButton (w : Nat)
  | XUngrabButton (w : Nat)
  | XSetInputFocus (w : Nat)
  | XRaiseWindow (w : Nat)
  | XSync
  | printf (d n mode active urgent : Int) (newline : Bool)
  | fflush
  | noSuchLayout (mode : Int)
  | XConfigureWindow (w value_mask : Nat) (x y width height border_width : Int)
      (sibling : Nat) (stack_mode : Int)
deriving DecidableEq, Repr

/-- The value that an `int` argument has as a parameter of type
`unsigned int` (32 bits): C converts it modulo `2^32` at the call. -/
def toUnsigned (v : Int) : Int := v % 4294967296

/-- The value of an `int` (32 bits, two's complement) that an arithmetic
result `v` is stored as. -/
def toInt32 (v : Int) : Int := (v + 2147483648) % 4294967296 - 2147483648

/-- The call `XMoveResizeWindow(dis, w, x, y, width, height)` with `int`
arguments: Xlib declares `x` and `y` as `int` and `width` and `height` as
`unsigned int`, so the server receives the two sizes converted. -/
def xMoveResizeWindow (w : Nat) (x y width height : Int) : XCall :=
  XCall.XMoveResizeWindow w x y (toUnsigned width) (toUnsigned height)

/-- The heap of `client` records. -/
abbrev Heap := Nat → client

/-- The global variables of `monsterwm.c`, the heap and the output so far. -/
structure State where
  heap : Heap
  brk : Nat
  showpanel : Bool
  current_desktop : Int
  previous_desktop : Int
  growth : Int
  mode : Int
  master_size : Int
  wh : Int
  ww : Int
  win_focus : Nat
  win_unfocus : Nat
  head : Nat
  current : Nat
  desktops : Nat → desktop
  out : List XCall

/-- Assignment `p->next = v`. -/
def setNext (h : Heap) (p v : Nat) : Heap :=
  fun a => if a = p then { h a with next := v } else h a

/-- Assignment `p->prev = v`. -/
def setPrev (h : Heap) (p v : Nat) : Heap :=
  fun a => if a = p then { h a with prev := v } else h a

/-- Assignment `p->win = w`. -/
def setWin (h : Heap) (p : Nat) (w : Nat) : Heap :=
  fun a => if a = p then { h a with win := w } else h a

/-- The zeroed cell that `calloc` returns at address `p`. -/
def calloc (h : Heap) (p : Nat) : Heap :=
  fun a => if a = p then { next := 0, prev := 0, isurgent := false, win := 0 } else h a

/-- Append calls to the output. -/
def emit (s : State) (cs : List XCall) : State :=
  { s with out := s.out ++ cs }

/-- The pointers that `for (c = p; c; c = c->next)` visits, in order; `none`
when `NULL` is not reached within the fuel. -/
def walk (h : Heap) : Nat → Nat → Option (List Nat)
  | 0, p => if p = 0 then some [] else none
  | fuel + 1, p =>
    if p = 0 then some []
    else match walk h fuel (h p).next with
      | none => none
      | some L => some (p :: L)

/-- The loop `for (c = p; c; c = c->next) if ((found = (w == c->win))) break;`:
the value of `c` when it ends (`0` when the window is not found). -/
def findWin (h : Heap) (w : Nat) : Nat → Nat → Option Nat
  | 0, p => if p = 0 then some 0 else none
  | fuel + 1, p =>
    if p = 0 then some 0
    else if w = (h p).win then some p
    else findWin h w fuel (h p).next

/-! ## Saving and loading a desktop -/

/-- The live working set as a `desktop` record (the right-hand sides of `save_desktop`). -/
def snapshot (s : State) : desktop :=
  { master_size := s.master_size, mode := s.mode, growth := s.growth,
    head := s.head, current := s.current, showpanel := s.showpanel }

/-- Assignment of the fields of `desktops[i]`. -/
def setDesktop (ds : Nat → desktop) (i : Nat) (v : desktop) : Nat → desktop :=
  fun j => if j = i then v else ds j

/-- The function `save_desktop`. -/
def save_desktop (cfg : Config) (i : Int) (s : State) : Option State :=
  if i ≥ (cfg.DESKTOPS : Int) then some s
  else if i < 0 then none
  else some { s with desktops := setDesktop s.desktops i.toNat (snapshot s) }

/-- The function `select_desktop`. -/
def select_desktop (cfg : Config) (i : Int) (s : State) : Option State :=
  if i ≥ (cfg.DESKTOPS : Int) ∨ i = s.current_desktop then some s
  else if i < 0 then none
  else some { s with
    master_size := (s.desktops i.toNat).master_size,
    mode := (s.desktops i.toNat).mode,
    growth := (s.desktops i.toNat).growth,
    head := (s.desktops i.toNat).head,
    current := (s.desktops i.toNat).current,
    showpanel := (s.desktops i.toNat).showpanel,
    current_desktop := i }

/-! ## Layout -/

/-- The stack loop of `tile`:
`for (...; c; c = c->next, pos += z) XMoveResizeWindow(...)`, where `pos` is
`cy` in `TILE` (`vertical`) and `cx` in `BSTACK`. -/
def tileStack (h : Heap) (vertical : Bool) (fixed cw ch z : Int) : Int → List Nat → List XCall
  | _, [] => []
  | pos, c :: cs =>
    (if vertical then xMoveResizeWindow (h c).win fixed pos cw ch
     else xMoveResizeWindow (h c).win pos fixed cw ch)
      :: tileStack h vertical fixed cw ch z (pos + z) cs

/-- The column count of the `GRID` branch:
`for (cols = 0; cols <= n/2; cols++) if (cols*cols >= n) break;`. -/
def gridCols (n : Int) : Nat → Int → Int
  | 0, cols => cols
  | fuel + 1, cols =>
    if cols ≤ n.tdiv 2 then
      if cols * cols ≥ n then cols else gridCols n fuel (cols + 1)
    else cols

/-- The client loop of the `GRID` branch of `tile`. -/
def tileGrid (cfg : Config) (h : Heap) (panel hh n cols cw : Int) :
    Int → Int → Int → Int → List Nat → Option (List XCall)
  | _, _, _, _, [] => some []
  | rows, cn, rn, i, c :: cs =>
    if rows = 0 then none
    else
      let rows1 := if i.tdiv rows + 1 > cols - n.tmod cols then n.tdiv cols + 1 else rows
      if rows1 = 0 then none
      else
        let ch := hh.tdiv rows1
        let cx := 0 + cn * cw
        let cy := panel + rn * ch
        let call := xMoveResizeWindow (h c).win cx cy
          (cw - 2 * cfg.BORDER_WIDTH) (ch - 2 * cfg.BORDER_WIDTH)
        let rn1 := rn + 1
        match (if rn1 ≥ rows1 then tileGrid cfg h panel hh n cols cw rows1 (cn + 1) 0 (i + 1) cs
               else tileGrid cfg h panel hh n cols cw rows1 cn rn1 (i + 1) cs) with
        | none => none
        | some r => some (call :: r)

/-- The function `tile`. -/
def tile (cfg : Config) (s : State) : Option State :=
  if s.head = 0 then some s
  else
    let h := s.wh + (if s.showpanel then 0 else cfg.PANEL_HEIGHT)
    let z0 := if s.mode = BSTACK then s.ww else h
    let cy := if cfg.TOP_PANEL && s.showpanel then cfg.PANEL_HEIGHT else 0
    let bw := cfg.BORDER_WIDTH
    let hn := (s.heap s.head).next
    match walk s.heap s.brk hn with
    | none => none
    | some stack =>
      let n : Int := stack.length
      let adjust : Bool := (s.mode = TILE ∨ s.mode = BSTACK) ∧ n > 1
      let d := if adjust then (z0 - s.growth).tmod n + s.growth else 0
      let z := if adjust then (z0 - s.growth).tdiv n else z0
      if hn = 0 ∨ s.mode = MONOCLE then
        match walk s.heap s.brk s.head with
        | none => none
        | some all => some (emit s (all.map fun c =>
            xMoveResizeWindow (s.heap c).win 0 cy (s.ww + 2 * bw) (h + 2 * bw)))
      else if s.mode = TILE then
        let cx := s.master_size + bw
        let cw := s.ww - s.master_size - 2 * bw
        let ch := z - bw
        match walk s.heap s.brk (s.heap hn).next with
        | none => none
        | some rest => some (emit s (
            xMoveResizeWindow (s.heap s.head).win 0 cy (s.master_size - bw) (h - bw)
            :: xMoveResizeWindow (s.heap hn).win cx cy cw (ch + d)
            :: tileStack s.heap true cx cw ch z (cy + (z + d)) rest))
      else if s.mode = BSTACK then
        let cy1 := cy + (s.master_size + bw)
        let cw := z - bw
        let ch := h - s.master_size - 2 * bw
        match walk s.heap s.brk (s.heap hn).next with
        | none => none
        | some rest => some (emit s (
            xMoveResizeWindow (s.heap s.head).win 0 cy (s.ww - bw) (s.master_size - bw)
            :: xMoveResizeWindow (s.heap hn).win 0 cy1 (cw + d) ch
            :: tileStack s.heap false cy1 cw ch z (0 + (z + d)) rest))
      else if s.mode = GRID then
        let n1 := n + 1
        let cols0 := gridCols n1 (n1.tdiv 2).toNat.succ 0
        let cols := if n1 = 5 then 2 else cols0
        if cols = 0 then none
        else
          let rows := n1.tdiv cols
          let cw := if cols ≠ 0 then s.ww.tdiv cols else s.ww
          match walk s.heap s.brk s.head with
          | none => none
          | some all =>
            match tileGrid cfg s.heap cy h n1 cols cw rows 0 0 0 all with
            | none => none
            | some calls => some (emit s calls)
      else some (emit s [XCall.noSuchLayout s.mode])

/-- The function `update_current`. -/
def update_current (cfg : Config) (s : State) : Option State :=
  if s.current = 0 then some s
  else if s.head = 0 then none
  else
    let border_width := if (s.heap s.head).next = 0 ∨ s.mode = MONOCLE then 0 else cfg.BORDER_WIDTH
    match walk s.heap s.brk s.head with
    | none => none
    | some all =>
      let w := (s.heap s.current).win
      some (emit s (
        (all.map fun c =>
          [XCall.XSetWindowBorderWidth (s.heap c).win border_width,
           XCall.XSetWindowBorder (s.heap c).win s.win_unfocus]
          ++ (if cfg.CLICK_TO_FOCUS then [XCall.XGrabButton (s.heap c).win] else [])).flatten
        ++ [XCall.XSetWindowBorder w s.win_focus, XCall.XSetInputFocus w, XCall.XRaiseWindow w]
        ++ (if cfg.CLICK_TO_FOCUS then [XCall.XUngrabButton w] else [])
        ++ [XCall.XSync]))

/-! ## The status line -/

/-- The loop of `desktopinfo`, from desktop `d` on, with `k` desktops to go. -/
def desktopinfoLoop (cfg : Config) (cd : Int) : Nat → Nat → State → Option State
  | 0, _, s => some s
  | k + 1, d, s =>
    match select_desktop cfg d s with
    | none => none
    | some s1 =>
      match walk s1.heap s1.brk s1.head with
      | none => none
      | some L =>
        let urgent := L.any fun c => (s1.heap c).isurgent
        desktopinfoLoop cfg cd k (d + 1)
          (emit s1 [XCall.printf d L.length s1.mode
            (if s1.current_desktop = cd then 1 else 0) (if urgent then 1 else 0)
            (decide (d + 1 = cfg.DESKTOPS))])

/-- The function `desktopinfo`. -/
def desktopinfo (cfg : Config) (s : State) : Option State :=
  let cd := s.current_desktop
  match save_desktop cfg cd s with
  | none => none
  | some s1 =>
    match desktopinfoLoop cfg cd cfg.DESKTOPS 0 s1 with
    | none => none
    | some s2 => select_desktop cfg cd (emit s2 [XCall.fflush])

/-! ## Ring operations -/

/-- The pointer surgery of `add_window`, from `calloc` (taken to succeed) up
to and including `current = c`. -/
def link (cfg : Config) (w : Nat) (s : State) : Option State :=
  let c : Nat := s.brk + 1
  let h0 := calloc s.heap c
  if s.head = 0 then
    some { s with heap := setWin (setPrev h0 c c) c w, brk := c, head := c, current := c }
  else if cfg.ATTACH_ASIDE then
    if (h0 s.head).prev = 0 then none
    else
      let h1 := setNext h0 (h0 s.head).prev c
      let h2 := setPrev h1 c (h1 s.head).prev
      some { s with heap := setWin (setPrev h2 s.head c) c w, brk := c, current := c }
  else
    let h1 := setPrev h0 c (h0 s.head).prev
    let h2 := setPrev h1 s.head c
    some { s with heap := setWin (setNext h2 c s.head) c w, brk := c, head := c, current := c }

/-- The function `add_window`. -/
def add_window (cfg : Config) (w : Nat) (s : State) : Option State :=
  match link cfg w s with
  | none => none
  | some s1 =>
    match save_desktop cfg s1.current_desktop s1 with
    | none => none
    | some s2 =>
      some (emit s2 (XCall.XSelectInput w false ::
        (if cfg.FOLLOW_MOUSE then [XCall.XSelectInput w true] else [])))

/-- The pointer surgery of `removeclient`, up to and including the
assignments to `current`. -/
def unlink (c : Nat) (s : State) : Option State :=
  if c = 0 then none
  else if c = s.head then
    if (s.heap s.head).next ≠ 0 then
      let h1 := setPrev s.heap (s.heap s.head).next (s.heap s.head).prev
      some { s with heap := h1, head := (h1 s.head).next, current := (h1 s.head).next }
    else
      some { s with heap := setPrev s.heap s.head 0, head := 0, current := 0 }
  else
    if (s.heap c).next ≠ 0 then
      let h1 := setPrev s.heap (s.heap c).next (s.heap c).prev
      if (h1 c).prev = 0 then none
      else
        let h2 := setNext h1 (h1 c).prev (h1 c).next
        some { s with heap := h2, current := (h2 c).prev }
    else
      if s.head = 0 then none
      else
        let h1 := setPrev s.heap s.head (s.heap c).prev
        if (h1 c).prev = 0 then none
        else
          let h2 := setNext h1 (h1 c).prev 0
          some { s with heap := h2, current := (h2 c).prev }

/-- The function `removeclient`. -/
def removeclient (cfg : Config) (c : Nat) (s : State) : Option State :=
  match unlink c s with
  | none => none
  | some s1 =>
    match save_desktop cfg s1.current_desktop s1 with
    | none => none
    | some s2 =>
      match tile cfg s2 with
      | none => none
      | some s3 =>
        update_current cfg
          (if s3.mode = MONOCLE ∧ s3.current ≠ 0 then
            emit s3 [XCall.XMapWindow (s3.heap s3.current).win]
           else s3)

/-! ## Focus -/

/-- The function `prev_win`. -/
def prev_win (cfg : Config) (s : State) : Option State :=
  if s.current = 0 then some s
  else if s.head = 0 then none
  else if (s.heap s.head).prev = s.head then some s
  else
    let s1 := if s.mode = MONOCLE then emit s [XCall.XUnmapWindow (s.heap s.current).win] else s
    let s2 := { s1 with current := (s1.heap s1.current).prev }
    if s2.mode = MONOCLE then
      if s2.current = 0 then none
      else update_current cfg (emit s2 [XCall.XMapWindow (s2.heap s2.current).win])
    else update_current cfg s2

/-! ## Master and stack size -/

/-- The function `resize_master`. -/
def resize_master (cfg : Config) (i : Int) (s : State) : Option State :=
  let msz := s.master_size + i
  if (if s.mode = BSTACK then s.wh else s.ww) - msz ≤ cfg.MINWSZ ∨ msz ≤ cfg.MINWSZ then some s
  else tile cfg { s with master_size := msz }

/-- The function `resize_stack`; `growth += arg->i` is stored in an `int`. -/
def resize_stack (cfg : Config) (i : Int) (s : State) : Option State :=
  tile cfg { s with growth := toInt32 (s.growth + i) }

/-! ## Switching desktops -/

/-- The function `change_desktop`. -/
def change_desktop (cfg : Config) (i : Int) (s : State) : Option State :=
  if i = s.current_desktop then some s
  else
    match save_desktop cfg s.current_desktop { s with previous_desktop := s.current_desktop } with
    | none => none
    | some s1 =>
      match walk s1.heap s1.brk s1.head with
      | none => none
      | some L =>
        match select_desktop cfg i (emit s1 (L.map fun c => XCall.XUnmapWindow (s1.heap c).win)) with
        | none => none
        | some s2 =>
          match tile cfg s2 with
          | none => none
          | some s3 =>
            match (if s3.mode = MONOCLE ∧ s3.current ≠ 0 then
                     some (emit s3 [XCall.XMapWindow (s3.heap s3.current).win])
                   else match walk s3.heap s3.brk s3.head with
                     | none => none
                     | some M => some (emit s3 (M.map fun c => XCall.XMapWindow (s3.heap c).win))) with
            | none => none
            | some s4 =>
              match update_current cfg s4 with
              | none => none
              | some s5 => desktopinfo cfg s5

/-! ## Looking a window up -/

/-- The outer loop of `wintoclient` from its condition on: desktop `d` is
selected, `k` desktops are left, `c` is the pointer held so far. -/
def wintoclientLoop (cfg : Config) (w : Nat) : Nat → Nat → Nat → State → Option (Nat × State)
  | 0, _, c, s => some (c, s)
  | k + 1, d, _, s =>
    match findWin s.heap w s.brk s.head with
    | none => none
    | some c1 =>
      match select_desktop cfg ((d : Int) + 1) s with
      | none => none
      | some s1 =>
        if c1 ≠ 0 then some (c1, s1)
        else wintoclientLoop cfg w k (d + 1) c1 s1

/-- The function `wintoclient`: the client found (`0` for `NULL`) and the
state it leaves. -/
def wintoclient (cfg : Config) (w : Nat) (s : State) : Option (Nat × State) :=
  let cd := s.current_desktop
  match save_desktop cfg cd s with
  | none => none
  | some s1 =>
    match select_desktop cfg 0 s1 with
    | none => none
    | some s2 =>
      match wintoclientLoop cfg w cfg.DESKTOPS 0 0 s2 with
      | none => none
      | some (c, s3) =>
        match select_desktop cfg cd s3 with
        | none => none
        | some s4 => some (c, s4)

/-! ## Events -/

/-- The function `destroynotify`, for the window of the event. -/
def destroynotify (cfg : Config) (w : Nat) (s : State) : Option State :=
  match wintoclient cfg w s with
  | none => none
  | some (c, s1) =>
    match (if c ≠ 0 then removeclient cfg c s1 else some s1) with
    | none => none
    | some s2 => desktopinfo cfg s2

/-- What `maprequest` reads from the event and from the X server about the
window: `override_redirect` is `XGetWindowAttributes(..) && wa.override_redirect`,
`winistrans` is `XGetTransientForHint(..) && trans`, and `classHint` is
`(res_class, res_name)` when `XGetClassHint` succeeds. -/
structure XMapRequestEvent where
  window : Nat
  override_redirect : Bool
  winistrans : Bool
  classHint : Option (String × String)

/-- The first rule whose class equals `res_class` or `res_name` (the rule
loop of `maprequest`). -/
def matchRule (rules : List AppRule) (res_class res_name : String) : Option AppRule :=
  rules.find? fun r => res_class == r.class || res_name == r.class

/-- The desktop `newdsk` that `maprequest` resolves for the window when
`cd` is active. -/
def newdsk (cfg : Config) (ev : XMapRequestEvent) (cd : Int) : Int :=
  match (if ev.winistrans then none
         else match ev.classHint with
           | none => none
           | some ch => matchRule cfg.rules ch.1 ch.2) with
  | none => cd
  | some r => r.desktop

/-- The flag `follow` that `maprequest` resolves for the window. -/
def followOf (cfg : Config) (ev : XMapRequestEvent) : Bool :=
  match (if ev.winistrans then none
         else match ev.classHint with
           | none => none
           | some ch => matchRule cfg.rules ch.1 ch.2) with
  | none => false
  | some r => r.follow

/-- The function `maprequest`. -/
def maprequest (cfg : Config) (ev : XMapRequestEvent) (s : State) : Option State :=
  if ev.override_redirect then some s
  else
    match wintoclient cfg ev.window s with
    | none => none
    | some (c, s0) =>
      if c ≠ 0 then some s0
      else
        let cd := s0.current_desktop
        let nd := newdsk cfg ev cd
        match save_desktop cfg cd s0 with
        | none => none
        | some s1 =>
          match select_desktop cfg nd s1 with
          | none => none
          | some s2 =>
            match add_window cfg ev.window s2 with
            | none => none
            | some s3 =>
              match select_desktop cfg cd s3 with
              | none => none
              | some s4 =>
                match (if cd = nd then
                         match (if ev.winistrans then some s4 else tile cfg s4) with
                         | none => none
                         | some s5 => update_current cfg (emit s5 [XCall.XMapWindow ev.window])
                       else if followOf cfg ev then change_desktop cfg nd s4
                       else some s4) with
                | none => none
                | some s6 => desktopinfo cfg s6

/-! ## More focus and desktop operations -/

/-- The function `next_win`. -/
def next_win (cfg : Config) (s : State) : Option State :=
  if s.current = 0 then some s
  else if s.head = 0 then none
  else if (s.heap s.head).prev = s.head then some s
  else
    let s1 := if s.mode = MONOCLE then emit s [XCall.XUnmapWindow (s.heap s.current).win] else s
    let s2 := { s1 with current :=
      if (s1.heap s1.current).next ≠ 0 then (s1.heap s1.current).next else s1.head }
    if s2.mode = MONOCLE then
      if s2.current = 0 then none
      else update_current cfg (emit s2 [XCall.XMapWindow (s2.heap s2.current).win])
    else update_current cfg s2

/-- The value of `current` after the loop of `focusurgent` over the cells `L`:
`for (c = head; c; c = c->next) if (c->isurgent) current = c;`. -/
def lastUrgent (h : Heap) : Nat → List Nat → Nat
  | cur, [] => cur
  | cur, c :: L => lastUrgent h (if (h c).isurgent then c else cur) L

/-- The function `focusurgent`. -/
def focusurgent (cfg : Config) (s : State) : Option State :=
  match walk s.heap s.brk s.head with
  | none => none
  | some L => update_current cfg { s with current := lastUrgent s.heap s.current L }

/-- The function `client_to_desktop`. -/
def client_to_desktop (cfg : Config) (i : Int) (s : State) : Option State :=
  if i = s.current_desktop ∨ s.current = 0 then some s
  else
    let c := s.current
    let cd := s.current_desktop
    match select_desktop cfg i s with
    | none => none
    | some s1 =>
      match add_window cfg (s1.heap c).win s1 with
      | none => none
      | some s2 =>
        match save_desktop cfg i s2 with
        | none => none
        | some s3 =>
          match select_desktop cfg cd s3 with
          | none => none
          | some s4 =>
            match removeclient cfg c (emit s4 [XCall.XUnmapWindow (s4.heap c).win]) with
            | none => none
            | some s5 =>
              match save_desktop cfg cd s5 with
              | none => none
              | some s6 =>
                match tile cfg s6 with
                | none => none
                | some s7 =>
                  match update_current cfg s7 with
                  | none => none
                  | some s8 =>
                    match (if cfg.FOLLOW_WINDOW then change_desktop cfg i s8 else some s8) with
                    | none => none
                    | some s9 => desktopinfo cfg s9

/-- Assignment `p->isurgent = v`. -/
def setUrgent (h : Heap) (p : Nat) (v : Bool) : Heap :=
  fun a => if a = p then { h a with isurgent := v } else h a

/-- The function `propertynotify` for window `w`: `isHints` is
`ev->atom == XA_WM_HINTS` and `urgent` is `wmh && (wmh->flags & XUrgencyHint)`. -/
def propertynotify (cfg : Config) (w : Nat) (isHints urgent : Bool) (s : State) : Option State :=
  match wintoclient cfg w s with
  | none => none
  | some (c, s1) =>
    if c ≠ 0 ∧ isHints = true then desktopinfo cfg { s1 with heap := setUrgent s1.heap c urgent }
    else some s1

/-- The fields of `XConfigureRequestEvent` that `configurerequest` reads. -/
structure XConfigureRequestEvent where
  window : Nat
  x : Int
  y : Int
  width : Int
  height : Int
  border_width : Int
  above : Nat
  detail : Int
  value_mask : Nat

/-- The function `configurerequest`.  In C the line
`wc.y = ev->y + (showpanel && TOP_PANEL) ? PANEL_HEIGHT : 0;` is parsed as
`wc.y = (ev->y + (showpanel && TOP_PANEL)) ? PANEL_HEIGHT : 0;`. -/
def configurerequest (cfg : Config) (ev : XConfigureRequestEvent) (s : State) : Option State :=
  let y := if ev.y + (if s.showpanel && cfg.TOP_PANEL then 1 else 0) ≠ 0
    then cfg.PANEL_HEIGHT else 0
  let width := if ev.width < s.ww - cfg.BORDER_WIDTH then ev.width else s.ww + cfg.BORDER_WIDTH
  let height := if ev.height < s.wh - cfg.BORDER_WIDTH then ev.height
    else s.wh + cfg.BORDER_WIDTH
  tile cfg (emit s [XCall.XConfigureWindow ev.window ev.value_mask ev.x y width height
    ev.border_width ev.above ev.detail, XCall.XSync])

/-- The function `move_down`. -/
def move_down (cfg : Config) (s : State) : Option State :=
  if s.current = 0 then some s
  else if s.head = 0 then none
  else if (s.heap s.head).prev = s.head then some s
  else
    let next := if (s.heap s.current).next ≠ 0 then (s.heap s.current).next else s.head
    let tmpwin := (s.heap s.current).win
    let h1 := setWin s.heap s.current (s.heap next).win
    let h2 := setWin h1 next tmpwin
    match save_desktop cfg s.current_desktop { s with heap := h2, current := next } with
    | none => none
    | some s1 =>
      match tile cfg s1 with
      | none => none
      | some s2 => update_current cfg s2

/-- The function `move_up`. -/
def move_up (cfg : Config) (s : State) : Option State :=
  if s.current = 0 then some s
  else if s.head = 0 then none
  else if (s.heap s.head).prev = s.head then some s
  else
    let tmpwin := (s.heap s.current).win
    if (s.heap s.current).prev = 0 then none
    else
      let h1 := setWin s.heap s.current (s.heap (s.heap s.current).prev).win
      let h2 := setWin h1 (h1 s.current).prev tmpwin
      match save_desktop cfg s.current_desktop
          { s with heap := h2, current := (h2 s.current).prev } with
      | none => none
      | some s1 =>
        match tile cfg s1 with
        | none => none
        | some s2 => update_current cfg s2

/-- The function `swap_master`. -/
def swap_master (cfg : Config) (s : State) : Option State :=
  if s.current = 0 then some s
  else if s.head = 0 then none
  else if (s.heap s.head).next = 0 ∨ s.mode = MONOCLE then some s
  else
    let tmpwin := (s.heap s.head).win
    let cur := if s.current = s.head then (s.heap s.head).next else s.current
    let h1 := setWin s.heap s.head (s.heap cur).win
    let h2 := setWin h1 cur tmpwin
    match save_desktop cfg s.current_desktop { s with heap := h2, current := s.head } with
    | none => none
    | some s1 =>
      match tile cfg s1 with
      | none => none
      | some s2 => update_current cfg s2

/-! ## Well-formed rings -/

/-- A path along `next`: starting at `p`, the cells of `L` in order, arriving at `q`. -/
def Seg (h : Heap) : Nat → List Nat → Nat → Prop
  | p, [], q => p = q
  | p, a :: L, q => p = a ∧ a ≠ 0 ∧ Seg h (h a).next L q

/-- The forward chain from `p` is exactly `L` and ends in `NULL`. -/
def Chain (h : Heap) (p : Nat) (L : List Nat) : Prop := Seg h p L 0

/-- Each cell of `L` has as `prev` the cell before it; the first one has `q`. -/
def PrevLinks (h : Heap) : Nat → List Nat → Prop
  | _, [] => True
  | q, a :: L => (h a).prev = q ∧ PrevLinks h a L

/-- The last cell of `L`, or `d` when `L` is empty. -/
def lastOr (d : Nat) : List Nat → Nat
  | [] => d
  | a :: L => lastOr a L

/-- The ring with head `hd` is well formed with forward order `L`: the chain
of `next` from `hd` is `L` and ends in `NULL`, the first cell's `prev` is the
last cell, every other cell's `prev` is its predecessor, and every cell was
handed out by `calloc`. -/
def RingOK (h : Heap) (brk : Nat) (hd : Nat) (L : List Nat) : Prop :=
  Chain h hd L ∧ PrevLinks h (lastOr 0 L) L ∧ ∀ a ∈ L, a ≤ brk

/-- The window handles of the cells `L`, in order. -/
def wins (h : Heap) (L : List Nat) : List Nat := L.map fun c => (h c).win

/-- The forward order of the active ring, as the loops of the program see it. -/
def ring (s : State) : Option (List Nat) := walk s.heap s.brk s.head

/-- Desktop `d` as the program holds it: the live working set when `d` is
active, the stored slot otherwise. -/
def view (s : State) (d : Nat) : desktop :=
  if (d : Int) = s.current_desktop then snapshot s else s.desktops d

/-- The forward order of the ring of desktop `d`. -/
def ringOf (s : State) (d : Nat) : Option (List Nat) := walk s.heap s.brk (view s d).head

/-- `current` is `NULL` exactly on the empty ring and is otherwise one of its cells. -/
def CurOK (cur : Nat) (L : List Nat) : Prop :=
  (cur = 0 ↔ L = []) ∧ (cur ≠ 0 → cur ∈ L)

/-- The whole state is well formed, with `R d` the forward order of desktop
`d`: the active index is a valid one, every desktop's ring is well formed and
its `current` is one of its cells, and no cell is on two rings. -/
structure StateOK (cfg : Config) (s : State) (R : Nat → List Nat) : Prop where
  cd_lo : 0 ≤ s.current_desktop
  cd_hi : s.current_desktop < cfg.DESKTOPS
  rings : ∀ d, d < cfg.DESKTOPS → RingOK s.heap s.brk (view s d).head (R d)
  curs : ∀ d, d < cfg.DESKTOPS → CurOK (view s d).current (R d)
  disj : ∀ d, d < cfg.DESKTOPS → ∀ e, e < cfg.DESKTOPS → d ≠ e → ∀ a ∈ R d, a ∉ R e

/-- The states that `add_window` and `removeclient` lead to from an empty ring. -/
inductive Reach (cfg : Config) : State → Prop
  | empty (s : State) : s.head = 0 → s.current = 0 → 0 ≤ s.current_desktop → Reach cfg s
  | add (s s1 : State) (w : Nat) : Reach cfg s → add_window cfg w s = some s1 → Reach cfg s1
  | remove (s s1 : State) (c : Nat) (L : List Nat) : Reach cfg s → Chain s.heap s.head L →
      c ∈ L → removeclient cfg c s = some s1 → Reach cfg s1

/-! ## Concrete states -/

/-- A heap of zeroed cells. -/
def heap0 : Heap := fun _ => { next := 0, prev := 0, isurgent := false, win := 0 }

/-- The state after `setup` on a 1000 x 618 screen with the settings of
`config.def.h`: no client, every desktop slot holding the defaults. -/
def state0 : State where
  heap := heap0
  brk := 0
  showpanel := true
  current_desktop := 0
  previous_desktop := 0
  growth := 0
  mode := TILE
  master_size := 518
  wh := 598
  ww := 998
  win_focus := 1
  win_unfocus := 2
  head := 0
  current := 0
  desktops := fun _ => { master_size := 518, mode := TILE, growth := 0, head := 0, current := 0,
                         showpanel := true }
  out := []

/-- State `t` holds the same heap as `s` and shows every desktop as `s` does. -/
def SameViews (s t : State) : Prop :=
  t.heap = s.heap ∧ t.brk = s.brk ∧ ∀ d, view t d = view s d

/-- The slot of the active desktop holds the live working set. -/
def Saved (s : State) : Prop :=
  s.desktops s.current_desktop.toNat = snapshot s

/-- The active index is a valid one, the loops over every desktop's ring end,
and a desktop with a `current` has a `head`. -/
def Walkable (cfg : Config) (s : State) : Prop :=
  0 ≤ s.current_desktop ∧ s.current_desktop < (cfg.DESKTOPS : Int) ∧
  ∀ d, d < cfg.DESKTOPS →
    (walk s.heap s.brk (view s d).head).isSome = true ∧
    ((view s d).current ≠ 0 → (view s d).head ≠ 0)

/-- Deciding `Walkable`. -/
instance decWalkable (cfg : Config) (s : State) : Decidable (Walkable cfg s) :=
  inferInstanceAs (Decidable (0 ≤ s.current_desktop ∧ s.current_desktop < (cfg.DESKTOPS : Int) ∧
    ∀ d, d < cfg.DESKTOPS →
      (walk s.heap s.brk (view s d).head).isSome = true ∧
      ((view s d).current ≠ 0 → (view s d).head ≠ 0)))

/-- The local `h` of `tile`: the height available to the layout. -/
def layoutH (cfg : Config) (s : State) : Int :=
  s.wh + (if s.showpanel then 0 else cfg.PANEL_HEIGHT)

/-- The initial `cy` of `tile`: the panel offset. -/
def panelY (cfg : Config) (s : State) : Int :=
  if cfg.TOP_PANEL && s.showpanel then cfg.PANEL_HEIGHT else 0

/-- The local `z` of `tile` in `TILE` and `BSTACK` once `n` stack clients are
counted, `z0` being its initial value. -/
def stackZ (z0 growth : Int) (n : Nat) : Int :=
  if (n : Int) > 1 then (z0 - growth).tdiv n else z0

/-- The local `d` of `tile` in `TILE` and `BSTACK` once `n` stack clients are counted. -/
def stackD (z0 growth : Int) (n : Nat) : Int :=
  if (n : Int) > 1 then (z0 - growth).tmod n + growth else 0

/-- Where a move-resize call puts the window along the stack dimension: `x`
in `BSTACK`, `y` otherwise. -/
def slotStart (mode : Int) : XCall → Int
  | XCall.XMoveResizeWindow _ x y _ _ => if mode = BSTACK then x else y
  | _ => 0

/-- The allotment of a move-resize call along the stack dimension: the window
size that X receives (`width` in `BSTACK`, `height` otherwise) plus
`BORDER_WIDTH`. -/
def slotAllot (cfg : Config) (mode : Int) : XCall → Int
  | XCall.XMoveResizeWindow _ _ _ width height =>
    (if mode = BSTACK then width else height) + cfg.BORDER_WIDTH
  | _ => 0

/-- The window of a move-resize call. -/
def movedWindow : XCall → Option Nat
  | XCall.XMoveResizeWindow w _ _ _ _ => some w
  | _ => none

/-- The slots `rs` follow one another without gap or overlap from `p` on:
each has an allotment that is not negative and starts where the allotment of
the one before it ends. -/
def Abut (start allot : XCall → Int) : Int → List XCall → Prop
  | _, [] => True
  | p, r :: rs => start r = p ∧ 0 ≤ allot r ∧ Abut start allot (p + allot r) rs

/-- Deciding `Abut`. -/
instance decAbut (start allot : XCall → Int) :
    (rs : List XCall) → (p : Int) → Decidable (Abut start allot p rs)
  | [], _ => inferInstanceAs (Decidable True)
  | r :: rs, p =>
    have := decAbut start allot rs (p + allot r)
    inferInstanceAs (Decidable (start r = p ∧ 0 ≤ allot r ∧ Abut start allot (p + allot r) rs))

/-- The sizes that `tile` computes for the stack windows along the stack
dimension when it splits the space `z0` among `n` stack clients under
`growth` (`z - BORDER_WIDTH + d` for the first, `z - BORDER_WIDTH` for the
others) are values of `unsigned int`: not negative and below `2^32`. -/
def StackSizesOK (cfg : Config) (z0 growth : Int) (n : Nat) : Prop :=
  0 ≤ stackZ z0 growth n - cfg.BORDER_WIDTH + stackD z0 growth n ∧
  stackZ z0 growth n - cfg.BORDER_WIDTH + stackD z0 growth n < 4294967296 ∧
  0 ≤ stackZ z0 growth n - cfg.BORDER_WIDTH ∧
  stackZ z0 growth n - cfg.BORDER_WIDTH < 4294967296

/-- Deciding `StackSizesOK`. -/
instance decStackSizesOK (cfg : Config) (z0 growth : Int) (n : Nat) :
    Decidable (StackSizesOK cfg z0 growth n) :=
  inferInstanceAs (Decidable (
    0 ≤ stackZ z0 growth n - cfg.BORDER_WIDTH + stackD z0 growth n ∧
    stackZ z0 growth n - cfg.BORDER_WIDTH + stackD z0 growth n < 4294967296 ∧
    0 ≤ stackZ z0 growth n - cfg.BORDER_WIDTH ∧
    stackZ z0 growth n - cfg.BORDER_WIDTH < 4294967296))

/-- The move-resize calls with `x` exchanged with `y - panel` and `width`
exchanged with `height`. -/
def swapAxes (panel : Int) : XCall → XCall
  | XCall.XMoveResizeWindow w x y width height =>
    XCall.XMoveResizeWindow w (y - panel) (x + panel) height width
  | c => c

/-- The allotments along the stack dimension that `tile` gives the stack
slots: of the move-resize calls it emits, all but the first (the master's). -/
def stackAllotments (cfg : Config) (s : State) : Option (List Int) :=
  match tile cfg { s with out := [] } with
  | none => none
  | some t => some ((t.out.drop 1).map (slotAllot cfg s.mode))

/-- The move-resize calls that `tile` emits for the stack slots: all but the
first (the master's). -/
def stackSlots (cfg : Config) (s : State) : Option (List XCall) :=
  match tile cfg { s with out := [] } with
  | none => none
  | some t => some (t.out.drop 1)

/-- The claim on the stack slots in the words of the specification, at the
growth of state `s` whatever its value: in `TILE` and `BSTACK` mode, with a
master and at least one stack client, the allotments of the stack slots sum
to the whole space being split and the slots follow one another without gap
or overlap. -/
def SpecStackTiles (cfg : Config) (s : State) : Prop :=
  ∀ a b T, ring s = some (a :: b :: T) → (s.mode = TILE ∨ s.mode = BSTACK) →
    (stackAllotments cfg s).map List.sum
      = some (if s.mode = BSTACK then s.ww else layoutH cfg s) ∧
    ∃ rs, stackSlots cfg s = some rs ∧
      Abut (slotStart s.mode) (slotAllot cfg s.mode)
        (if s.mode = BSTACK then 0 else panelY cfg s) rs

/-- The `TILE` stack formula in the words of the specification: with `n ≥ 2`
stack clients the space split is `z_total = ww - master_size`, every stack
slot but the first is allotted `z = z_total / n`, and the first is allotted
`z + z_total % n`, plus `growth`. -/
def SpecTileFormula (cfg : Config) (s : State) : Prop :=
  ∀ a b c T, ring s = some (a :: b :: c :: T) → s.mode = TILE →
    stackAllotments cfg s = some (
      ((s.ww - s.master_size).tdiv ((T.length + 2 : Nat) : Int)
        + (s.ww - s.master_size).tmod ((T.length + 2 : Nat) : Int) + s.growth)
      :: List.replicate (T.length + 1)
          ((s.ww - s.master_size).tdiv ((T.length + 2 : Nat) : Int)))

/-- The state `s` put in the given mode on a work area of width `W` and
layout height `H` (the local `h` of `tile`), with an empty output. -/
def withArea (cfg : Config) (s : State) (mode W H : Int) : State :=
  { s with mode := mode, ww := W, wh := H - (if s.showpanel then 0 else cfg.PANEL_HEIGHT),
           out := [] }

/-- The value of `cols` in the `GRID` branch of `tile` for `n` clients: the
result of the loop bounded by `n/2`, then `if (n == 5) cols = 2;`. -/
def gridColumns (n : Int) : Int :=
  if n = 5 then 2 else gridCols n (n.tdiv 2).toNat.succ 0

/-- The call by which `tile` gives a client on a one-client ring or in
`MONOCLE` the whole work area (the two sizes are passed as `unsigned int`). -/
def fullRect (cfg : Config) (s : State) (c : Nat) : XCall :=
  xMoveResizeWindow (s.heap c).win 0 (panelY cfg s) (s.ww + 2 * cfg.BORDER_WIDTH)
    (layoutH cfg s + 2 * cfg.BORDER_WIDTH)

/-- The specification's rule for an unrecognized layout mode, in its words:
on every non-empty ring (a ring of one client included) and under every mode
outside `TILE`, `MONOCLE`, `BSTACK`, `GRID`, `tile` returns and emits no
move-resize call. -/
def SpecNoGeometry (cfg : Config) (s : State) : Prop :=
  ∀ L, ring s = some L → L ≠ [] →
    s.mode ≠ TILE → s.mode ≠ MONOCLE → s.mode ≠ BSTACK → s.mode ≠ GRID →
    ∃ cs, tile cfg s = some (emit s cs) ∧ ∀ c ∈ cs, movedWindow c = none

/-- The status group of desktop `d` in the words of the specification: the
index, the number of clients on the ring of desktop `d`, its mode, whether it
is the active desktop, whether one of its clients is urgent; the last field
tells whether a newline (after the last desktop) or a space follows. -/
def statusGroup (cfg : Config) (s : State) (d : Nat) : XCall :=
  XCall.printf d ((ringOf s d).getD []).length (view s d).mode
    (if (d : Int) = s.current_desktop then 1 else 0)
    (if ((ringOf s d).getD []).any (fun c => (s.heap c).isurgent) then 1 else 0)
    (decide (d + 1 = cfg.DESKTOPS))

/-- The clamping of a configure request in the words of the specification:
the applied `width` and `height` are not larger than the requested ones and
not larger than the bounds `ww + BORDER_WIDTH` and `wh + BORDER_WIDTH`, and a
request within the bounds is applied as requested. -/
def SpecConfigureClamp (cfg : Config) (ev : XConfigureRequestEvent) (s : State)
    (width height : Int) : Prop :=
  width ≤ ev.width ∧ width ≤ s.ww + cfg.BORDER_WIDTH ∧
  height ≤ ev.height ∧ height ≤ s.wh + cfg.BORDER_WIDTH ∧
  (ev.width ≤ s.ww + cfg.BORDER_WIDTH → ev.height ≤ s.wh + cfg.BORDER_WIDTH →
    width = ev.width ∧ height = ev.height)

/-- The `y` coordinate of a configure request in the words of the
specification: the requested `y` plus `PANEL_HEIGHT` when the panel is shown
and on top, the requested `y` otherwise. -/
def SpecConfigureY (cfg : Config) (ev : XConfigureRequestEvent) (s : State) : Int :=
  if s.showpanel && cfg.TOP_PANEL then ev.y + cfg.PANEL_HEIGHT else ev.y

/-- The `y` coordinate that an `XConfigureWindow` call applies. -/
def configuredY : XCall → Option Int
  | XCall.XConfigureWindow _ _ _ y _ _ _ _ _ => some y
  | _ => none

/-- The window handles on the ring of desktop `d`, in ring order, each with
the urgency flag of the client that holds it. -/
def urgencyOf (s : State) (d : Nat) : Option (List (Nat × Bool)) :=
  (ringOf s d).map fun L => L.map fun c => ((s.heap c).win, (s.heap c).isurgent)

/-- The heap after the `win` fields of the cells `a` and `b` are exchanged:
`tmpwin = a->win; a->win = b->win; b->win = tmpwin;`. -/
def swapWin (h : Heap) (a b : Nat) : Heap := setWin (setWin h a (h b).win) b (h a).win

/-- State `t` is `s` with the window handles of the cells `s.current` and
`t.current` exchanged: no `next` or `prev` link differs, the ring `L` is the
same ring of cells, its handles are the same handles in another order, the
handle of `current` is the one it was, the cell that was `current` holds the
handle of the cell that now is, and every other cell keeps its handle. -/
def ContentSwap (s t : State) (L : List Nat) : Prop :=
  (∀ x, (t.heap x).next = (s.heap x).next ∧ (t.heap x).prev = (s.heap x).prev) ∧
  t.head = s.head ∧ RingOK t.heap t.brk t.head L ∧
  (wins t.heap L).Perm (wins s.heap L) ∧
  (t.heap t.current).win = (s.heap s.current).win ∧
  (t.heap s.current).win = (s.heap t.current).win ∧
  (∀ x, x ≠ s.current → x ≠ t.current → (t.heap x).win = (s.heap x).win)

/-- The grid cell of the client at ring index `i` in the words of the
specification, as (column, row, number of rows of that column): the clients
fill the columns one after the other, the first `m` columns hold `q` clients
each and the columns after them hold `q + 1` each (`m` is `cols - r`). -/
def gridCell (m q i : Nat) : Nat × Nat × Nat :=
  if i < m * q then (i / q, i % q, q)
  else (m + (i - m * q) / (q + 1), (i - m * q) % (q + 1), q + 1)

/-- The geometry call for a window in grid cell `cell` (column, row, rows of
the column) with column width `cw`, layout height `hh` and panel offset
`panel`: `x = column * cw`, `y = panel + row * (hh / rows)`, width
`cw - 2 * BORDER_WIDTH`, height `hh / rows - 2 * BORDER_WIDTH` (the two sizes
are passed as `unsigned int`). -/
def gridCall (cfg : Config) (panel hh cw : Int) (w : Nat) (cell : Nat × Nat × Nat) : XCall :=
  xMoveResizeWindow w ((cell.1 : Int) * cw)
    (panel + (cell.2.1 : Int) * hh.tdiv (cell.2.2 : Int))
    (cw - 2 * cfg.BORDER_WIDTH) (hh.tdiv (cell.2.2 : Int) - 2 * cfg.BORDER_WIDTH)

/-- The geometry calls for the clients `L`, the first of them at ring index `i`. -/
def gridCalls (cfg : Config) (h : Heap) (panel hh cw : Int) (m q : Nat) :
    Nat → List Nat → List XCall
  | _, [] => []
  | i, c :: cs =>
    gridCall cfg panel hh cw (h c).win (gridCell m q i)
      :: gridCalls cfg h panel hh cw m q (i + 1) cs

/-- The loop variables `rows`, `cn`, `rn` of the `GRID` branch when the loop
reaches ring index `i`: in a column of `q` rows before the switch, or in a
column of `q + 1` rows after it. -/
def GridInv (m q rows cn rn i : Nat) : Prop :=
  (rows = q ∧ i = cn * q + rn ∧ rn < q ∧ (cn < m ∨ (cn = m ∧ rn = 0))) ∨
  (rows = q + 1 ∧ m ≤ cn ∧ i = m * q + (cn - m) * (q + 1) + rn ∧ rn < q + 1)

/-- Deciding `Seg` on a given list. -/
instance decSeg (h : Heap) : (L : List Nat) → (p q : Nat) → Decidable (Seg h p L q)
  | [], p, q => inferInstanceAs (Decidable (p = q))
  | a :: L, p, q =>
    have := decSeg h L (h a).next q
    inferInstanceAs (Decidable (p = a ∧ a ≠ 0 ∧ Seg h (h a).next L q))

/-- Deciding `Chain` on a given list. -/
instance decChain (h : Heap) (p : Nat) (L : List Nat) : Decidable (Chain h p L) :=
  decSeg h L p 0

/-- Deciding `PrevLinks` on a given list. -/
instance decPrevLinks (h : Heap) : (L : List Nat) → (q : Nat) → Decidable (PrevLinks h q L)
  | [], _ => inferInstanceAs (Decidable True)
  | a :: L, q =>
    have := decPrevLinks h L a
    inferInstanceAs (Decidable ((h a).prev = q ∧ PrevLinks h a L))

/-- Deciding `RingOK` on a given list. -/
instance decRingOK (h : Heap) (brk hd : Nat) (L : List Nat) : Decidable (RingOK h brk hd L) :=
  inferInstanceAs (Decidable (Chain h hd L ∧ PrevLinks h (lastOr 0 L) L ∧ ∀ a ∈ L, a ≤ brk))

/-- Deciding `CurOK`. -/
instance decCurOK (cur : Nat) (L : List Nat) : Decidable (CurOK cur L) :=
  inferInstanceAs (Decidable ((cur = 0 ↔ L = []) ∧ (cur ≠ 0 → cur ∈ L)))

/-- The state `state0` after window 100 is added. -/
def stateA : State := (add_window defaultConfig 100 state0).getD state0

/-- The state `stateA` after window 200 is added: the ring is `[A, B]`. -/
def stateAB : State := (add_window defaultConfig 200 stateA).getD stateA

/-- The forward orders of the desktops of `stateAB`: `[1, 2]` on desktop 0. -/
def ringsAB : Nat → List Nat := fun d => if d = 0 then [1, 2] else []

/-- A map request for window 300 of class `MPlayer`, which the rules send to
desktop 3 with `follow`. -/
def evMPlayer : XMapRequestEvent :=
  { window := 300, override_redirect := false, winistrans := false,
    classHint := some ("MPlayer", "mplayer") }

/-- The state `stateAB` after window 300 is added: the ring is `[A, B, C]`,
a master and two stack clients. -/
def stateABC : State := (add_window defaultConfig 300 stateAB).getD stateAB

/-- The state `stateABC` with `growth = 50`. -/
def stateABCg : State := { stateABC with growth := 50 }

/-- A map request for window `w` that matches no rule. -/
def evWindow (w : Nat) : XMapRequestEvent :=
  { window := w, override_redirect := false, winistrans := false, classHint := none }

/-- Desktop 0 active with window 100, desktop 1 holding window 200: the state
after window 100 is mapped on desktop 0, the user switches to desktop 1,
window 200 is mapped there, and the user switches back to desktop 0. -/
def stateTwo : State :=
  ((((maprequest defaultConfig (evWindow 100) state0).bind
      (change_desktop defaultConfig 1)).bind
      (maprequest defaultConfig (evWindow 200))).bind
      (change_desktop defaultConfig 0)).getD state0

/-- The forward orders of the desktops of `stateTwo`. -/
def ringsTwo : Nat → List Nat := fun d => if d = 0 then [1] else if d = 1 then [2] else []

/-- The state `stateA` (one client) under the unknown layout mode 7. -/
def stateA7 : State := { stateA with mode := 7 }

/-- The state `stateABC` (three clients) under the unknown layout mode 7. -/
def stateABC7 : State := { stateABC with mode := 7 }

/-- The stored slot of the active desktop holds the live `head` and a
`current` of the ring `L`, as it does after every function that changes the
ring (each of them ends with `save_desktop(current_desktop)`). -/
def SlotOK (s : State) (L : List Nat) : Prop :=
  (s.desktops s.current_desktop.toNat).head = s.head ∧
  CurOK (s.desktops s.current_desktop.toNat).current L

/-- Deciding `SlotOK`. -/
instance decSlotOK (s : State) (L : List Nat) : Decidable (SlotOK s L) :=
  inferInstanceAs (Decidable ((s.desktops s.current_desktop.toNat).head = s.head ∧
    CurOK (s.desktops s.current_desktop.toNat).current L))

/-- The rings after `client_to_desktop` moved cell `c` from desktop `C` to a
fresh cell `n` at the end of desktop `T`. -/
def ringsMoved (R : Nat → List Nat) (C T c n : Nat) : Nat → List Nat :=
  fun d => if d = T then R T ++ [n] else if d = C then (R C).erase c else R d

/-- The settings of `config.def.h` with the desktop of the rule for `MPlayer`
set to `-1`. -/
def configNeg : Config :=
  { defaultConfig with rules := [⟨"MPlayer", -1, true⟩, ⟨"Gimp", 0, false⟩] }

/-- The map request `evMPlayer` from a window without a class hint. -/
def evNoClass : XMapRequestEvent :=
  { window := 300, override_redirect := false, winistrans := false, classHint := none }

/-- A configure request for window 100 asking for 997 x 100 pixels at the origin. -/
def evConfigure : XConfigureRequestEvent :=
  { window := 100, x := 0, y := 0, width := 997, height := 100, border_width := 2,
    above := 0, detail := 0, value_mask := 15 }

/-- A configure request for window 100 asking for 500 x 300 pixels at `y = 100`. -/
def evConfigureY : XConfigureRequestEvent :=
  { window := 100, x := 0, y := 100, width := 500, height := 300, border_width := 2,
    above := 0, detail := 0, value_mask := 15 }

/-- The state `state0` with the panel hidden. -/
def state0Hidden : State := { state0 with showpanel := false }

/-- The state `stateAB` after the urgency hint is set on window 100. -/
def stateABu100 : State := (propertynotify defaultConfig 100 true true stateAB).getD stateAB

/-- The state `stateAB` after the urgency hint is set on window 200. -/
def stateABu200 : State := (propertynotify defaultConfig 200 true true stateAB).getD stateAB

/-- The state `stateAB` after `resize_master` by 10 pixels. -/
def stateABm : State := (resize_master defaultConfig 10 stateAB).getD stateAB

/-- The state `stateAB` after `resize_stack` by 50 pixels. -/
def stateABs : State := (resize_stack defaultConfig 50 stateAB).getD stateAB

/-- The state `stateABC` in `GRID` mode. -/
def stateABCgrid : State := { stateABC with mode := GRID }

/-- The state `stateABC` after `resize_stack(-700)`. -/
def stateABCn : State := (resize_stack defaultConfig (-700) stateABC).getD stateABC

/-- The state `stateAB` with its first client (the cell at address 1) urgent. -/
def stateABu : State := { stateAB with heap := setUrgent stateAB.heap 1 true }

/-- The state `stateAB` after its first client (the cell at address 1) is removed. -/
def stateB : State := (removeclient defaultConfig 1 stateAB).getD stateAB

/-! # Theorems -/

/-! ## Heap assignments, field by field -/

@[simp] theorem setNext_next (h : Heap) (p v a : Nat) :
    (setNext h p v a).next = if a = p then v else (h a).next := by
  unfold setNext; split <;> rfl

@[simp] theorem setNext_prev (h : Heap) (p v a : Nat) : (setNext h p v a).prev = (h a).prev := by
  unfold setNext; split <;> rfl

@[simp] theorem setNext_win (h : Heap) (p v a : Nat) : (setNext h p v a).win = (h a).win := by
  unfold setNext; split <;> rfl

@[simp] theorem setNext_isurgent (h : Heap) (p v a : Nat) :
    (setNext h p v a).isurgent = (h a).isurgent := by
  unfold setNext; split <;> rfl

@[simp] theorem setPrev_prev (h : Heap) (p v a : Nat) :
    (setPrev h p v a).prev = if a = p then v else (h a).prev := by
  unfold setPrev; split <;> rfl

@[simp] theorem setPrev_next (h : Heap) (p v a : Nat) : (setPrev h p v a).next = (h a).next := by
  unfold setPrev; split <;> rfl

@[simp] theorem setPrev_win (h : Heap) (p v a : Nat) : (setPrev h p v a).win = (h a).win := by
  unfold setPrev; split <;> rfl

@[simp] theorem setPrev_isurgent (h : Heap) (p v a : Nat) :
    (setPrev h p v a).isurgent = (h a).isurgent := by
  unfold setPrev; split <;> rfl

@[simp] theorem setWin_win (h : Heap) (p : Nat) (w : Nat) (a : Nat) :
    (setWin h p w a).win = if a = p then w else (h a).win := by
  unfold setWin; split <;> rfl

@[simp] theorem setWin_next (h : Heap) (p : Nat) (w : Nat) (a : Nat) :
    (setWin h p w a).next = (h a).next := by
  unfold setWin; split <;> rfl

@[simp] theorem setWin_prev (h : Heap) (p : Nat) (w : Nat) (a : Nat) :
    (setWin h p w a).prev = (h a).prev := by
  unfold setWin; split <;> rfl

@[simp] theorem setWin_isurgent (h : Heap) (p : Nat) (w : Nat) (a : Nat) :
    (setWin h p w a).isurgent = (h a).isurgent := by
  unfold setWin; split <;> rfl

@[simp] theorem calloc_next (h : Heap) (p a : Nat) :
    (calloc h p a).next = if a = p then 0 else (h a).next := by
  unfold calloc; split <;> rfl

@[simp] theorem calloc_prev (h : Heap) (p a : Nat) :
    (calloc h p a).prev = if a = p then 0 else (h a).prev := by
  unfold calloc; split <;> rfl

@[simp] theorem calloc_win (h : Heap) (p a : Nat) :
    (calloc h p a).win = if a = p then 0 else (h a).win := by
  unfold calloc; split <;> rfl

@[simp] theorem calloc_isurgent (h : Heap) (p a : Nat) :
    (calloc h p a).isurgent = if a = p then false else (h a).isurgent := by
  unfold calloc; split <;> rfl

/-! ## Paths along `next` -/

theorem seg_congr (h h1 : Heap) (L : List Nat) :
    ∀ p q, (∀ a ∈ L, (h1 a).next = (h a).next) → Seg h p L q → Seg h1 p L q := by
  induction L with
  | nil => intro p q _ hs; exact hs
  | cons a L ih =>
    intro p q heq hs
    obtain ⟨hp, ha, hrest⟩ := hs
    refine ⟨hp, ha, ?_⟩
    rw [heq a (List.mem_cons_self a L)]
    exact ih _ _ (fun b hb => heq b (List.mem_cons_of_mem a hb)) hrest

theorem seg_append (h : Heap) (L1 L2 : List Nat) :
    ∀ p q, Seg h p (L1 ++ L2) q ↔ ∃ m, Seg h p L1 m ∧ Seg h m L2 q := by
  induction L1 with
  | nil =>
    intro p q
    constructor
    · intro hs; exact ⟨p, rfl, hs⟩
    · rintro ⟨m, hm, hs⟩
      have : p = m := hm
      subst this; exact hs
  | cons a L1 ih =>
    intro p q
    constructor
    · rintro ⟨hp, ha, hrest⟩
      obtain ⟨m, h1, h2⟩ := (ih _ _).1 hrest
      exact ⟨m, ⟨hp, ha, h1⟩, h2⟩
    · rintro ⟨m, ⟨hp, ha, h1⟩, h2⟩
      exact ⟨hp, ha, (ih _ _).2 ⟨m, h1, h2⟩⟩

theorem seg_not_mem_zero (h : Heap) (L : List Nat) : ∀ p q, Seg h p L q → 0 ∉ L := by
  induction L with
  | nil => intro p q _; simp
  | cons a L ih =>
    rintro p q ⟨_, ha, hrest⟩
    intro hmem
    rcases List.mem_cons.1 hmem with h0 | h0
    · exact ha h0.symm
    · exact ih _ _ hrest h0

theorem seg_head (h : Heap) (a : Nat) (L : List Nat) (p q : Nat) (hs : Seg h p (a :: L) q) :
    p = a := hs.1

theorem chain_functional (h : Heap) (L1 : List Nat) :
    ∀ L2 p, Chain h p L1 → Chain h p L2 → L1 = L2 := by
  induction L1 with
  | nil =>
    intro L2 p h1 h2
    cases L2 with
    | nil => rfl
    | cons b L2 =>
      obtain ⟨hb, hb0, _⟩ := h2
      have hp : p = 0 := h1
      exact absurd (hb.symm.trans hp) hb0
  | cons a L1 ih =>
    intro L2 p h1 h2
    obtain ⟨ha, ha0, hr1⟩ := h1
    cases L2 with
    | nil =>
      have hp : p = 0 := h2
      exact absurd (ha.symm.trans hp) ha0
    | cons b L2 =>
      obtain ⟨hb, _, hr2⟩ := h2
      have hab : a = b := ha.symm.trans hb
      subst hab
      rw [ih L2 _ hr1 hr2]

theorem chain_suffix (h : Heap) (L1 L2 : List Nat) (a p : Nat)
    (hc : Chain h p (L1 ++ a :: L2)) : Chain h a (a :: L2) := by
  obtain ⟨m, _, h2⟩ := (seg_append h L1 (a :: L2) p 0).1 hc
  have hm : m = a := h2.1
  subst hm; exact h2

theorem chain_nodup (h : Heap) (L : List Nat) : ∀ p, Chain h p L → L.Nodup := by
  induction L with
  | nil => intro p _; exact List.nodup_nil
  | cons a L ih =>
    intro p hc
    have hrest : Chain h (h a).next L := hc.2.2
    refine List.nodup_cons.2 ⟨?_, ih _ hrest⟩
    intro hmem
    obtain ⟨l1, l2, hl⟩ := List.append_of_mem hmem
    have hsuf : Chain h a (a :: l2) := by
      rw [hl] at hrest
      exact chain_suffix h l1 l2 a _ hrest
    have hwhole : Chain h a (a :: L) := ⟨rfl, hc.2.1, hrest⟩
    have heq := chain_functional h _ _ _ hsuf hwhole
    have hlen := congrArg List.length heq
    rw [hl] at hlen
    simp at hlen
    omega

theorem chain_nil (h : Heap) (p : Nat) : Chain h p [] ↔ p = 0 := Iff.rfl

theorem chain_cons (h : Heap) (p a : Nat) (L : List Nat) :
    Chain h p (a :: L) ↔ p = a ∧ a ≠ 0 ∧ Chain h (h a).next L := Iff.rfl

theorem chain_congr (h h1 : Heap) (L : List Nat) (p : Nat)
    (heq : ∀ a ∈ L, (h1 a).next = (h a).next) (hc : Chain h p L) : Chain h1 p L :=
  seg_congr h h1 L p 0 heq hc

/-! ## The loops over a chain -/

theorem walk_of_chain (h : Heap) (L : List Nat) :
    ∀ fuel p, Chain h p L → L.length ≤ fuel → walk h fuel p = some L := by
  induction L with
  | nil =>
    intro fuel p hc _
    have hp : p = 0 := hc
    subst hp
    cases fuel <;> simp [walk]
  | cons a L ih =>
    intro fuel p hc hlen
    obtain ⟨hp, ha, hrest⟩ := hc
    subst hp
    cases fuel with
    | zero => simp at hlen
    | succ fuel =>
      have hl : L.length ≤ fuel := by simpa using hlen
      simp [walk, ha, ih fuel _ hrest hl]

theorem chain_of_walk (h : Heap) :
    ∀ fuel p L, walk h fuel p = some L → Chain h p L ∧ L.length ≤ fuel := by
  intro fuel
  induction fuel with
  | zero =>
    intro p L hw
    by_cases hp : p = 0
    · simp [walk, hp] at hw; subst hw; exact ⟨hp, le_refl _⟩
    · simp [walk, hp] at hw
  | succ fuel ih =>
    intro p L hw
    by_cases hp : p = 0
    · simp [walk, hp] at hw; subst hw; exact ⟨hp, Nat.zero_le _⟩
    · simp only [walk, hp, if_false] at hw
      cases hr : walk h fuel (h p).next with
      | none => simp [hr] at hw
      | some M =>
        simp [hr] at hw
        subst hw
        obtain ⟨hc, hl⟩ := ih _ _ hr
        exact ⟨⟨rfl, hp, hc⟩, by simpa using hl⟩

theorem length_le_of_bounded (L : List Nat) (n : Nat) (hnd : L.Nodup) (h0 : 0 ∉ L)
    (hb : ∀ a ∈ L, a ≤ n) : L.length ≤ n := by
  have hsub : L.toFinset ⊆ Finset.Icc 1 n := by
    intro a ha
    have ha1 : a ∈ L := List.mem_toFinset.1 ha
    have : a ≠ 0 := fun h => h0 (h ▸ ha1)
    exact Finset.mem_Icc.2 ⟨Nat.pos_of_ne_zero this, hb a ha1⟩
  have hcard := Finset.card_le_card hsub
  rw [List.toFinset_card_of_nodup hnd] at hcard
  simpa using hcard

theorem ringOK_nodup (h : Heap) (brk : Nat) (hd : Nat) (L : List Nat) (hok : RingOK h brk hd L) :
    L.Nodup := chain_nodup h L hd hok.1

theorem ringOK_length (h : Heap) (brk : Nat) (hd : Nat) (L : List Nat) (hok : RingOK h brk hd L) :
    L.length ≤ brk :=
  length_le_of_bounded L brk (chain_nodup h L hd hok.1) (seg_not_mem_zero h L hd 0 hok.1) hok.2.2

theorem walk_of_ringOK (h : Heap) (brk : Nat) (hd : Nat) (L : List Nat) (hok : RingOK h brk hd L) :
    walk h brk hd = some L :=
  walk_of_chain h L brk hd hok.1 (ringOK_length h brk hd L hok)

theorem walk_tail_of_ringOK (h : Heap) (brk : Nat) (hd a : Nat) (L : List Nat)
    (hok : RingOK h brk hd (a :: L)) : walk h brk (h hd).next = some L := by
  have hl := ringOK_length h brk hd _ hok
  have hc := hok.1
  have : hd = a := hc.1
  subst this
  exact walk_of_chain h L brk _ hc.2.2 (by simp at hl; omega)

/-! ## Back references -/

@[simp] theorem lastOr_nil (d : Nat) : lastOr d [] = d := rfl

@[simp] theorem lastOr_cons (d a : Nat) (L : List Nat) : lastOr d (a :: L) = lastOr a L := rfl

@[simp] theorem lastOr_append_cons (d a : Nat) (L M : List Nat) :
    lastOr d (L ++ a :: M) = lastOr a M := by
  induction L generalizing d with
  | nil => rfl
  | cons b L ih => exact ih b

theorem lastOr_mem (d : Nat) (L : List Nat) : lastOr d L ∈ d :: L := by
  induction L generalizing d with
  | nil => simp
  | cons a L ih =>
    have := ih a
    simp only [lastOr_cons]
    exact List.mem_cons_of_mem d this

theorem lastOr_mem_of_ne_nil (d : Nat) (L : List Nat) (hL : L ≠ []) : lastOr d L ∈ L := by
  cases L with
  | nil => exact absurd rfl hL
  | cons a L => exact lastOr_mem a L

theorem lastOr_eq_getLast (d : Nat) (L : List Nat) (hL : L ≠ []) : lastOr d L = L.getLast hL := by
  induction L generalizing d with
  | nil => exact absurd rfl hL
  | cons a L ih =>
    cases L with
    | nil => rfl
    | cons b L =>
      rw [List.getLast_cons (List.cons_ne_nil b L)]
      exact ih a (List.cons_ne_nil b L)

theorem snoc_of_ne_nil (L : List Nat) (hL : L ≠ []) : ∃ I, L = I ++ [lastOr 0 L] := by
  rcases List.eq_nil_or_concat L with h | ⟨I, b, h⟩
  · exact absurd h hL
  · refine ⟨I, ?_⟩
    rw [h, List.concat_eq_append, lastOr_append_cons]
    rfl

theorem prevLinks_congr (h h1 : Heap) (L : List Nat) :
    ∀ q, (∀ a ∈ L, (h1 a).prev = (h a).prev) → PrevLinks h q L → PrevLinks h1 q L := by
  induction L with
  | nil => intro q _ _; trivial
  | cons a L ih =>
    intro q heq hp
    refine ⟨?_, ih a (fun b hb => heq b (List.mem_cons_of_mem a hb)) hp.2⟩
    rw [heq a (List.mem_cons_self a L)]
    exact hp.1

theorem prevLinks_append (h : Heap) (L M : List Nat) :
    ∀ q, PrevLinks h q (L ++ M) ↔ PrevLinks h q L ∧ PrevLinks h (lastOr q L) M := by
  induction L with
  | nil => intro q; simp [PrevLinks]
  | cons a L ih =>
    intro q
    show (h a).prev = q ∧ PrevLinks h a (L ++ M) ↔
      ((h a).prev = q ∧ PrevLinks h a L) ∧ PrevLinks h (lastOr a L) M
    rw [ih a, and_assoc]

theorem prevLinks_get (h : Heap) (L : List Nat) :
    ∀ q, PrevLinks h q L → ∀ i (hi : i + 1 < L.length),
      (h (L.get ⟨i + 1, hi⟩)).prev = L.get ⟨i, Nat.lt_of_succ_lt hi⟩ := by
  induction L with
  | nil => intro q _ i hi; simp at hi
  | cons a L ih =>
    intro q hp i hi
    cases L with
    | nil => simp at hi
    | cons b L =>
      cases i with
      | zero => exact hp.2.1
      | succ i =>
        have := ih a hp.2 i (by simpa using hi)
        simpa using this

/-! ## `add_window` -/

theorem ringOK_head_cons (h : Heap) (brk : Nat) (hd a : Nat) (T : List Nat)
    (hok : RingOK h brk hd (a :: T)) :
    hd = a ∧ a ≠ 0 ∧ a ≤ brk ∧ (h a).prev = lastOr a T ∧ a ∉ T ∧
      lastOr a T ≠ 0 ∧ lastOr a T ≤ brk := by
  obtain ⟨hc, hp, hb⟩ := hok
  have hnd := chain_nodup h _ _ hc
  have h0 := seg_not_mem_zero h _ _ _ hc
  have hmem : lastOr a T ∈ a :: T := lastOr_mem a T
  refine ⟨hc.1, hc.2.1, hb a (List.mem_cons_self a T), hp.1, (List.nodup_cons.1 hnd).1, ?_, hb _ hmem⟩
  intro hz
  exact h0 (hz ▸ hmem)

theorem link_empty (cfg : Config) (w : Nat) (s : State) (hh : s.head = 0) :
    link cfg w s = some { s with
      heap := setWin (setPrev (calloc s.heap (s.brk + 1)) (s.brk + 1) (s.brk + 1)) (s.brk + 1) w,
      brk := s.brk + 1, head := s.brk + 1, current := s.brk + 1 } := by
  simp [link, hh]

theorem link_spec (cfg : Config) (w : Nat) (s : State) (L : List Nat)
    (hok : RingOK s.heap s.brk s.head L) :
    ∃ H hd, link cfg w s
        = some { s with heap := H, brk := s.brk + 1, head := hd, current := s.brk + 1 } ∧
      RingOK H (s.brk + 1) hd (if cfg.ATTACH_ASIDE then L ++ [s.brk + 1] else (s.brk + 1) :: L) ∧
      (H (s.brk + 1)).win = w ∧ (H (s.brk + 1)).isurgent = false ∧
      (∀ a, a ≠ s.brk + 1 →
        (H a).win = (s.heap a).win ∧ (H a).isurgent = (s.heap a).isurgent) ∧
      (∀ a, a ∉ L → a ≠ s.brk + 1 → H a = s.heap a) := by
  cases L with
  | nil =>
    have hh : s.head = 0 := hok.1
    refine ⟨_, _, link_empty cfg w s hh, ?_, by simp, by simp, ?_, ?_⟩
    · have hring : RingOK
          (setWin (setPrev (calloc s.heap (s.brk + 1)) (s.brk + 1) (s.brk + 1)) (s.brk + 1) w)
          (s.brk + 1) (s.brk + 1) [s.brk + 1] := by
        refine ⟨⟨rfl, Nat.succ_ne_zero _, ?_⟩, ⟨?_, trivial⟩, ?_⟩
        · show _ = 0
          simp
        · simp
        · intro a ha
          simp at ha
          omega
      cases cfg.ATTACH_ASIDE <;> simpa using hring
    · intro a ha
      simp [ha]
    · intro a _ ha
      simp [setWin, setPrev, calloc, ha]
  | cons x T =>
    obtain ⟨hx, hx0, hxb, hxp, hxT, ht0, htb⟩ := ringOK_head_cons _ _ _ _ _ hok
    obtain ⟨hc, hp, hb⟩ := hok
    have hnd := chain_nodup _ _ _ hc
    have hcx : x ≠ s.brk + 1 := by omega
    have hct : lastOr x T ≠ s.brk + 1 := by omega
    have hcL : ∀ a ∈ x :: T, a ≠ s.brk + 1 := fun a ha => by have := hb a ha; omega
    have hh0 : s.head ≠ 0 := hx ▸ hx0
    cases hA : cfg.ATTACH_ASIDE with
    | true =>
      refine ⟨setWin (setPrev (setPrev (setNext (calloc s.heap (s.brk + 1)) (lastOr x T)
          (s.brk + 1)) (s.brk + 1) (lastOr x T)) x (s.brk + 1)) (s.brk + 1) w, x, ?_, ?_,
          by simp, by simp [hcx.symm], ?_, ?_⟩
      · simp [link, hx0, hA, hx, hcx, hxp, ht0]
      · simp only [if_true]
        obtain ⟨I, hI⟩ := snoc_of_ne_nil (x :: T) (List.cons_ne_nil x T)
        simp only [lastOr_cons] at hI
        have hndI : (I ++ [lastOr x T]).Nodup := hI ▸ hnd
        have htI : lastOr x T ∉ I := by
          intro hm
          have := (List.nodup_append.1 hndI).2.2 hm (List.mem_singleton_self _)
          exact this
        refine ⟨?_, ?_, ?_⟩
        · -- the chain of `next`
          show Seg _ x (x :: T ++ [s.brk + 1]) 0
          rw [hI, List.append_assoc]
          have hcI : Seg s.heap x (I ++ [lastOr x T]) 0 := hI ▸ (hx ▸ hc)
          obtain ⟨m, hs1, hs2⟩ := (seg_append _ _ _ _ _).1 hcI
          refine (seg_append _ _ _ _ _).2 ⟨m, ?_, ?_⟩
          · refine seg_congr _ _ _ _ _ ?_ hs1
            intro a ha
            have ha1 : a ≠ lastOr x T := fun e => htI (e ▸ ha)
            have ha2 : a ≠ s.brk + 1 := hcL a (hI ▸ List.mem_append_left _ ha)
            simp [ha1, ha2]
          · have hm : m = lastOr x T := hs2.1
            subst hm
            refine ⟨rfl, ht0, ?_⟩
            show Seg _ _ [s.brk + 1] 0
            refine ⟨by simp, Nat.succ_ne_zero _, ?_⟩
            show _ = 0
            simp [hct.symm]
        · -- the back references
          have hl : lastOr 0 (x :: T ++ [s.brk + 1]) = s.brk + 1 := by
            rw [List.cons_append, lastOr_cons]
            exact lastOr_append_cons x (s.brk + 1) T []
          rw [hl]
          show PrevLinks _ _ (x :: (T ++ [s.brk + 1]))
          refine ⟨by simp, ?_⟩
          rw [prevLinks_append]
          refine ⟨?_, ?_, trivial⟩
          · refine prevLinks_congr _ _ _ _ ?_ hp.2
            intro a ha
            have ha1 : a ≠ x := fun e => hxT (e ▸ ha)
            have ha2 : a ≠ s.brk + 1 := hcL a (List.mem_cons_of_mem x ha)
            simp [ha1, ha2]
          · simp [hcx.symm]
        · intro a ha
          rcases List.mem_append.1 ha with h1 | h1
          · exact Nat.le_succ_of_le (hb a h1)
          · simp at h1; omega
      · intro a ha
        simp [ha]
      · intro a haL ha
        have ha1 : a ≠ x := fun e => haL (e ▸ List.mem_cons_self x T)
        have ha2 : a ≠ lastOr x T := fun e => haL (e ▸ lastOr_mem x T)
        simp [setWin, setPrev, setNext, calloc, ha, ha1, ha2]
    | false =>
      refine ⟨setWin (setNext (setPrev (setPrev (calloc s.heap (s.brk + 1)) (s.brk + 1)
          (lastOr x T)) x (s.brk + 1)) (s.brk + 1) x) (s.brk + 1) w, s.brk + 1, ?_, ?_,
          by simp, by simp, ?_, ?_⟩
      · simp [link, hx0, hA, hx, hcx, hxp]
      · simp only [Bool.false_eq_true, if_false]
        refine ⟨⟨rfl, Nat.succ_ne_zero _, ?_⟩, ?_, ?_⟩
        · have : (setWin (setNext (setPrev (setPrev (calloc s.heap (s.brk + 1)) (s.brk + 1)
              (lastOr x T)) x (s.brk + 1)) (s.brk + 1) x) (s.brk + 1) w (s.brk + 1)).next = x := by
            simp
          rw [this]
          refine seg_congr _ _ _ _ _ ?_ (hx ▸ hc)
          intro a ha
          simp [hcL a ha]
        · show PrevLinks _ (lastOr x T) ((s.brk + 1) :: x :: T)
          refine ⟨by simp [hcx.symm], by simp [hcx], ?_⟩
          refine prevLinks_congr _ _ _ _ ?_ hp.2
          intro a ha
          have ha1 : a ≠ x := fun e => hxT (e ▸ ha)
          have ha2 : a ≠ s.brk + 1 := hcL a (List.mem_cons_of_mem x ha)
          simp [ha1, ha2]
        · intro a ha
          rcases List.mem_cons.1 ha with h1 | h1
          · omega
          · exact Nat.le_succ_of_le (hb a h1)
      · intro a ha
        simp [ha]
      · intro a haL ha
        have ha1 : a ≠ x := fun e => haL (e ▸ List.mem_cons_self x T)
        simp [setWin, setPrev, setNext, calloc, ha, ha1]

/-! ## `removeclient`: the pointer surgery -/

theorem unlink_spec (s : State) (L1 L2 : List Nat) (c : Nat)
    (hok : RingOK s.heap s.brk s.head (L1 ++ c :: L2)) :
    ∃ H, unlink c s = some { s with heap := H, head := (L1 ++ L2).headD 0,
                                    current := lastOr (L2.headD 0) L1 } ∧
      RingOK H s.brk ((L1 ++ L2).headD 0) (L1 ++ L2) ∧
      (∀ a, (H a).win = (s.heap a).win ∧ (H a).isurgent = (s.heap a).isurgent) ∧
      (∀ a, a ∉ L1 ++ c :: L2 → H a = s.heap a) := by
  obtain ⟨hc, hp, hb⟩ := hok
  have hnd := chain_nodup _ _ _ hc
  have h0 := seg_not_mem_zero _ _ _ _ hc
  have hc0 : c ≠ 0 := fun e => h0 (e ▸ List.mem_append_right L1 (List.mem_cons_self c L2))
  have hb1 : ∀ a ∈ L1 ++ L2, a ≤ s.brk := by
    intro a ha
    rcases List.mem_append.1 ha with h1 | h1
    · exact hb a (List.mem_append_left _ h1)
    · exact hb a (List.mem_append_right _ (List.mem_cons_of_mem c h1))
  have hsuf : Chain s.heap c (c :: L2) := chain_suffix _ _ _ _ _ hc
  have hcL2 : c ∉ L2 := (List.nodup_cons.1 (List.nodup_append.1 hnd).2.1).1
  cases L1 with
  | nil =>
    have hh : s.head = c := hc.1
    cases L2 with
    | nil =>
      have hn : (s.heap c).next = 0 := hsuf.2.2
      refine ⟨setPrev s.heap c 0, ?_, ⟨rfl, trivial, hb1⟩, fun a => by simp, ?_⟩
      · simp [unlink, hc0, hh, hn]
      · intro a ha
        have : a ≠ c := fun e => ha (by simp [e])
        simp [setPrev, this]
    | cons n L2 =>
      have hn : (s.heap c).next = n := hsuf.2.2.1
      have hn0 : n ≠ 0 := hsuf.2.2.2.1
      have hpc : (s.heap c).prev = lastOr n L2 := hp.1
      have hnL2 : n ∉ L2 := (List.nodup_cons.1 (List.nodup_cons.1 hnd).2).1
      refine ⟨setPrev s.heap n (lastOr n L2), ?_, ⟨?_, ?_, hb1⟩, fun a => by simp, ?_⟩
      · simp [unlink, hc0, hh, hn, hn0, hpc]
      · have hs : Seg s.heap n (n :: L2) 0 := hn ▸ hsuf.2.2
        exact seg_congr s.heap _ _ _ _ (fun a _ => by simp) hs
      · show PrevLinks _ (lastOr n L2) (n :: L2)
        refine ⟨by simp, prevLinks_congr _ _ _ _ ?_ hp.2.2⟩
        intro a ha
        have : a ≠ n := fun e => hnL2 (e ▸ ha)
        simp [this]
      · intro a ha
        have : a ≠ n := fun e => ha (by simp [e])
        simp [setPrev, this]
  | cons x L1 =>
    have hh : s.head = x := hc.1
    have hx0 : x ≠ 0 := hc.2.1
    have hcL1 : c ∉ x :: L1 := fun hm =>
      (List.nodup_append.1 hnd).2.2 hm (List.mem_cons_self c L2)
    have hcx : c ≠ x := fun e => hcL1 (e ▸ List.mem_cons_self x L1)
    have hpp := (prevLinks_append s.heap (x :: L1) (c :: L2) _).1 hp
    have hpc : (s.heap c).prev = lastOr x L1 := hpp.2.1
    have hpm : lastOr x L1 ∈ x :: L1 := lastOr_mem x L1
    have hp0 : lastOr x L1 ≠ 0 := fun e => h0 (e ▸ List.mem_append_left _ hpm)
    have hpne : lastOr x L1 ≠ c := fun e => hcL1 (e ▸ hpm)
    obtain ⟨I, hI⟩ := snoc_of_ne_nil (x :: L1) (List.cons_ne_nil x L1)
    simp only [lastOr_cons] at hI
    have hndI : (I ++ [lastOr x L1]).Nodup := hI ▸ (List.nodup_append.1 hnd).1
    have hpI : lastOr x L1 ∉ I := fun hm =>
      (List.nodup_append.1 hndI).2.2 hm (List.mem_singleton_self _)
    obtain ⟨m, hs1, hs2⟩ := (seg_append _ _ _ _ _).1 hc
    have hm : m = c := hs2.1
    subst hm
    rw [hh, hI] at hs1
    obtain ⟨m2, hs3, hs4⟩ := (seg_append _ _ _ _ _).1 hs1
    have hm2 : m2 = lastOr x L1 := hs4.1
    subst hm2
    cases L2 with
    | nil =>
      have hn : (s.heap m).next = 0 := hsuf.2.2
      refine ⟨setNext (setPrev s.heap x (lastOr x L1)) (lastOr x L1) 0, ?_, ⟨?_, ?_, hb1⟩,
        fun a => by simp, ?_⟩
      · simp [unlink, hc0, hh, hn, hcx, hx0, hpc, hp0]
      · show Seg _ x (x :: L1 ++ []) 0
        rw [List.append_nil, hI]
        refine (seg_append _ _ _ _ _).2 ⟨lastOr x L1, ?_, rfl, hp0, ?_⟩
        · refine seg_congr _ _ _ _ _ ?_ hs3
          intro a ha
          have : a ≠ lastOr x L1 := fun e => hpI (e ▸ ha)
          simp [this]
        · show _ = 0
          simp
      · have hx1 : x ∉ L1 := (List.nodup_cons.1 (List.nodup_append.1 hnd).1).1
        show PrevLinks _ (lastOr 0 (x :: L1 ++ [])) (x :: L1 ++ [])
        rw [List.append_nil]
        refine ⟨by simp, prevLinks_congr _ _ _ _ ?_ hpp.1.2⟩
        intro a ha
        have : a ≠ x := fun e => hx1 (e ▸ ha)
        simp [this]
      · intro a ha
        have h1 : a ≠ x := fun e => ha (by simp [e])
        have h2 : a ≠ lastOr x L1 := fun e => ha (e ▸ List.mem_append_left _ hpm)
        simp [setPrev, setNext, h1, h2]
    | cons n L2 =>
      have hn : (s.heap m).next = n := hsuf.2.2.1
      have hn0 : n ≠ 0 := hsuf.2.2.2.1
      have hnd2 := (List.nodup_append.1 hnd).2.1
      have hnL2 : n ∉ L2 := (List.nodup_cons.1 (List.nodup_cons.1 hnd2).2).1
      have hmn : m ≠ n := fun e => hcL2 (e ▸ List.mem_cons_self n L2)
      have hnL1 : n ∉ x :: L1 := fun hm1 =>
        (List.nodup_append.1 hnd).2.2 hm1 (List.mem_cons_of_mem m (List.mem_cons_self n L2))
      refine ⟨setNext (setPrev s.heap n (lastOr x L1)) (lastOr x L1) n, ?_, ⟨?_, ?_, hb1⟩,
        fun a => by simp, ?_⟩
      · simp [unlink, hc0, hh, hn, hcx, hn0, hpc, hp0, hmn]
      · show Seg _ x (x :: L1 ++ n :: L2) 0
        rw [hI, List.append_assoc]
        refine (seg_append _ _ _ _ _).2 ⟨lastOr x L1, ?_, rfl, hp0, ?_⟩
        · refine seg_congr _ _ _ _ _ ?_ hs3
          intro a ha
          have : a ≠ lastOr x L1 := fun e => hpI (e ▸ ha)
          simp [this]
        · have : (setNext (setPrev s.heap n (lastOr x L1)) (lastOr x L1) n (lastOr x L1)).next
              = n := by simp
          show Seg _ _ (n :: L2) 0
          rw [this]
          have hs : Seg s.heap n (n :: L2) 0 := hn ▸ hsuf.2.2
          refine seg_congr s.heap _ _ _ _ ?_ hs
          intro a ha
          have : a ≠ lastOr x L1 := by
            intro e
            exact (List.nodup_append.1 hnd).2.2 (e ▸ hpm) (List.mem_cons_of_mem m ha)
          simp [this]
      · have hl : lastOr 0 (x :: L1 ++ n :: L2) = lastOr 0 (x :: L1 ++ m :: n :: L2) := by
          rw [lastOr_append_cons, lastOr_append_cons]; rfl
        rw [hl, prevLinks_append]
        refine ⟨prevLinks_congr _ _ _ _ ?_ hpp.1, ?_, prevLinks_congr _ _ _ _ ?_ hpp.2.2.2⟩
        · intro a ha
          have : a ≠ n := fun e => hnL1 (e ▸ ha)
          simp [this]
        · simp
        · intro a ha
          have : a ≠ n := fun e => hnL2 (e ▸ ha)
          simp [this]
      · intro a ha
        have h1 : a ≠ n := fun e => ha (by simp [e])
        have h2 : a ≠ lastOr x L1 := fun e => ha (e ▸ List.mem_append_left _ hpm)
        simp [setPrev, setNext, h1, h2]

/-! ## `save_desktop`, `tile` and `update_current` return -/

theorem emit_nil (s : State) : emit s [] = s := by
  simp [emit]

theorem emit_emit (s : State) (xs ys : List XCall) : emit (emit s xs) ys = emit s (xs ++ ys) := by
  simp [emit]

theorem save_desktop_of_nonneg (cfg : Config) (i : Int) (s : State) (hi : 0 ≤ i) :
    save_desktop cfg i s = some (if i < (cfg.DESKTOPS : Int) then
      { s with desktops := setDesktop s.desktops i.toNat (snapshot s) } else s) := by
  unfold save_desktop
  by_cases h1 : i ≥ (cfg.DESKTOPS : Int)
  · have h2 : ¬ i < (cfg.DESKTOPS : Int) := by omega
    simp [h1, h2]
  · have h2 : i < (cfg.DESKTOPS : Int) := by omega
    have h3 : ¬ i < 0 := by omega
    simp [h2, h3]

theorem walk_cons_inv (h : Heap) (fuel p a : Nat) (T : List Nat)
    (hw : walk h fuel p = some (a :: T)) :
    p = a ∧ a ≠ 0 ∧ walk h fuel (h a).next = some T := by
  obtain ⟨hc, hl⟩ := chain_of_walk h fuel p _ hw
  refine ⟨hc.1, hc.2.1, walk_of_chain h T fuel _ hc.2.2 ?_⟩
  simp at hl
  omega

theorem walk_nil_inv (h : Heap) (fuel p : Nat) (hw : walk h fuel p = some []) : p = 0 :=
  (chain_of_walk h fuel p _ hw).1

theorem walk_zero (h : Heap) (fuel : Nat) : walk h fuel 0 = some [] := by
  cases fuel <;> simp [walk]

theorem gridCols_ge (n : Int) : ∀ fuel cols, cols ≤ gridCols n fuel cols := by
  intro fuel
  induction fuel with
  | zero => intro cols; simp [gridCols]
  | succ fuel ih =>
    intro cols
    unfold gridCols
    split
    · split
      · exact le_refl _
      · have := ih (cols + 1)
        omega
    · exact le_refl _

theorem gridCols_le (n : Int) : ∀ fuel cols, gridCols n fuel cols ≤ max cols (n.tdiv 2 + 1) := by
  intro fuel
  induction fuel with
  | zero => intro cols; simp [gridCols]
  | succ fuel ih =>
    intro cols
    unfold gridCols
    split
    · split
      · exact le_max_left _ _
      · rename_i h1 _
        have := ih (cols + 1)
        have h2 : max (cols + 1) (n.tdiv 2 + 1) = n.tdiv 2 + 1 := max_eq_right (by omega)
        rw [h2] at this
        exact le_trans this (le_max_right _ _)
    · exact le_max_left _ _

theorem gridCols_pos (n : Int) (hn : 1 ≤ n) (fuel : Nat) : 1 ≤ gridCols n (fuel + 1) 0 := by
  unfold gridCols
  have h2 : (0 : Int) ≤ n.tdiv 2 := Int.tdiv_nonneg (by omega) (by omega)
  have h3 : ¬ ((0 : Int) * 0 ≥ n) := by omega
  simp only [h2, h3, if_true, if_false]
  exact gridCols_ge n fuel (0 + 1)

theorem tileGrid_total (cfg : Config) (h : Heap) (panel hh n cols cw : Int)
    (hq : 0 ≤ n.tdiv cols) (L : List Nat) :
    ∀ rows cn rn i, 1 ≤ rows →
      ∃ r, tileGrid cfg h panel hh n cols cw rows cn rn i L = some r := by
  induction L with
  | nil => intro rows cn rn i _; exact ⟨[], rfl⟩
  | cons c L ih =>
    intro rows cn rn i hrows
    have hr0 : rows ≠ 0 := by omega
    have hr1 : 1 ≤ (if i.tdiv rows + 1 > cols - n.tmod cols then n.tdiv cols + 1 else rows) := by
      split <;> omega
    have hr10 : (if i.tdiv rows + 1 > cols - n.tmod cols then n.tdiv cols + 1 else rows) ≠ 0 := by
      omega
    unfold tileGrid
    simp only [hr0, hr10, if_false]
    generalize (if i.tdiv rows + 1 > cols - n.tmod cols then n.tdiv cols + 1 else rows) = rows1
      at hr1 hr10 ⊢
    by_cases hge : rn + 1 ≥ rows1
    · obtain ⟨r, hr⟩ := ih rows1 (cn + 1) 0 (i + 1) hr1
      simp only [hge, if_true, hr]
      exact ⟨_, rfl⟩
    · obtain ⟨r, hr⟩ := ih rows1 cn (rn + 1) (i + 1) hr1
      simp only [hge, if_false, hr]
      exact ⟨_, rfl⟩

theorem tile_total (cfg : Config) (s : State) (L : List Nat)
    (hw : walk s.heap s.brk s.head = some L) : ∃ cs, tile cfg s = some (emit s cs) := by
  cases L with
  | nil =>
    have hh := walk_nil_inv _ _ _ hw
    exact ⟨[], by simp [tile, hh, emit_nil]⟩
  | cons a T =>
    obtain ⟨hh, ha0, hwT⟩ := walk_cons_inv _ _ _ _ _ hw
    have hh0 : s.head ≠ 0 := hh ▸ ha0
    unfold tile
    simp only [hh, ha0, if_false, hwT]
    rw [hh] at hw
    cases T with
    | nil =>
      have hn := walk_nil_inv _ _ _ hwT
      simp only [hn, true_or, if_true, hw]
      exact ⟨_, rfl⟩
    | cons b T =>
      obtain ⟨hb, hb0, hwT2⟩ := walk_cons_inv _ _ _ _ _ hwT
      have hn0 : (s.heap a).next ≠ 0 := hb ▸ hb0
      have hTM : TILE ≠ MONOCLE := by decide
      have hBM : BSTACK ≠ MONOCLE := by decide
      have hBT : BSTACK ≠ TILE := by decide
      have hGM : GRID ≠ MONOCLE := by decide
      have hGT : GRID ≠ TILE := by decide
      have hGB : GRID ≠ BSTACK := by decide
      by_cases hM : s.mode = MONOCLE
      · simp only [hM, or_true, if_true, hw]
        exact ⟨_, rfl⟩
      by_cases hT : s.mode = TILE
      · simp only [hb, hb0, hT, hTM, or_self, if_false, if_true, hwT2]
        exact ⟨_, rfl⟩
      by_cases hB : s.mode = BSTACK
      · simp only [hb, hb0, hB, hBM, hBT, or_self, if_false, if_true, hwT2]
        exact ⟨_, rfl⟩
      by_cases hG : s.mode = GRID
      · simp only [hb, hb0, hG, hGM, hGT, hGB, or_self, if_false, if_true, hw]
        have hlen : (2 : Int) ≤ ((b :: T).length : Int) + 1 := by
          simp only [List.length_cons]; push_cast; omega
        generalize hn1 : ((b :: T).length : Int) + 1 = n1 at hlen ⊢
        have hc1 : 1 ≤ gridCols n1 (n1.tdiv 2).toNat.succ 0 := gridCols_pos n1 (by omega) _
        have hc2 := gridCols_le n1 (n1.tdiv 2).toNat.succ 0
        have hdiv : n1.tdiv 2 = n1 / 2 := Int.tdiv_eq_ediv (by omega) (by omega)
        have hq2 : 0 ≤ n1.tdiv 2 ∧ n1.tdiv 2 + 1 ≤ n1 := by
          rw [hdiv]; omega
        have hc3 : gridCols n1 (n1.tdiv 2).toNat.succ 0 ≤ n1 := by
          have hmax : max (0 : Int) (n1.tdiv 2 + 1) = n1.tdiv 2 + 1 := max_eq_right (by omega)
          rw [hmax] at hc2
          omega
        generalize hcols : (if n1 = 5 then 2 else gridCols n1 (n1.tdiv 2).toNat.succ 0) = cols
        have hcl : 1 ≤ cols ∧ cols ≤ n1 := by
          rw [← hcols]; split <;> omega
        have hcols0 : cols ≠ 0 := by omega
        have hrows : 1 ≤ n1.tdiv cols := by
          rw [Int.tdiv_eq_ediv (by omega) (by omega)]
          exact Int.le_ediv_of_mul_le (by omega) (by omega)
        simp only [hcols0, if_false]
        obtain ⟨r, hr⟩ := tileGrid_total cfg s.heap
          (if (cfg.TOP_PANEL && s.showpanel) = true then cfg.PANEL_HEIGHT else 0)
          (s.wh + if s.showpanel = true then 0 else cfg.PANEL_HEIGHT) n1 cols
          (if cols ≠ 0 then s.ww.tdiv cols else s.ww) (by omega) (a :: b :: T)
          (n1.tdiv cols) 0 0 0 hrows
        rw [hr]
        exact ⟨_, rfl⟩
      · simp only [hb, hb0, hM, hT, hB, hG, or_self, if_false]
        exact ⟨_, rfl⟩

theorem update_current_total (cfg : Config) (s : State) (L : List Nat)
    (hw : walk s.heap s.brk s.head = some L) (hcur : s.current ≠ 0 → s.head ≠ 0) :
    ∃ cs, update_current cfg s = some (emit s cs) := by
  unfold update_current
  by_cases hc : s.current = 0
  · exact ⟨[], by simp [hc, emit_nil]⟩
  · have hh := hcur hc
    simp only [hc, hh, if_false, hw]
    exact ⟨_, rfl⟩

/-! ## `add_window` and `removeclient` on a well-formed ring -/

theorem add_window_spec (cfg : Config) (w : Nat) (s : State) (L : List Nat)
    (hok : RingOK s.heap s.brk s.head L) (hcd : 0 ≤ s.current_desktop) :
    ∃ H hd, add_window cfg w s = some { s with
        heap := H, brk := s.brk + 1, head := hd, current := s.brk + 1,
        desktops := if s.current_desktop < (cfg.DESKTOPS : Int) then
            setDesktop s.desktops s.current_desktop.toNat
              { master_size := s.master_size, mode := s.mode, growth := s.growth, head := hd,
                current := s.brk + 1, showpanel := s.showpanel }
          else s.desktops,
        out := s.out ++ XCall.XSelectInput w false ::
          (if cfg.FOLLOW_MOUSE then [XCall.XSelectInput w true] else []) } ∧
      RingOK H (s.brk + 1) hd (if cfg.ATTACH_ASIDE then L ++ [s.brk + 1] else (s.brk + 1) :: L) ∧
      (H (s.brk + 1)).win = w ∧ (H (s.brk + 1)).isurgent = false ∧
      (∀ a, a ≠ s.brk + 1 →
        (H a).win = (s.heap a).win ∧ (H a).isurgent = (s.heap a).isurgent) ∧
      (∀ a, a ∉ L → a ≠ s.brk + 1 → H a = s.heap a) := by
  obtain ⟨H, hd, hl, hr, hw, hu, hf1, hf2⟩ := link_spec cfg w s L hok
  refine ⟨H, hd, ?_, hr, hw, hu, hf1, hf2⟩
  unfold add_window
  rw [hl]
  simp only
  rw [save_desktop_of_nonneg cfg _ _ hcd]
  by_cases hlt : s.current_desktop < (cfg.DESKTOPS : Int)
  · simp [hlt, emit, snapshot]
  · simp [hlt, emit]

theorem curOK_after_unlink (L1 L2 : List Nat) (h0 : 0 ∉ L1 ++ L2) :
    CurOK (lastOr (L2.headD 0) L1) (L1 ++ L2) := by
  cases L1 with
  | nil =>
    cases L2 with
    | nil => simp [CurOK]
    | cons n L2 =>
      have : n ≠ 0 := fun e => h0 (by simp [e])
      simp [CurOK, this]
  | cons x L1 =>
    have hm : lastOr x L1 ∈ x :: L1 := lastOr_mem x L1
    have hm2 : lastOr x L1 ∈ x :: L1 ++ L2 := List.mem_append_left _ hm
    have : lastOr x L1 ≠ 0 := fun e => h0 (e ▸ hm2)
    refine ⟨?_, fun _ => hm2⟩
    simp [this]

theorem removeclient_spec (cfg : Config) (s : State) (L1 L2 : List Nat) (c : Nat)
    (hok : RingOK s.heap s.brk s.head (L1 ++ c :: L2)) (hcd : 0 ≤ s.current_desktop) :
    ∃ H out, removeclient cfg c s = some { s with
        heap := H, head := (L1 ++ L2).headD 0, current := lastOr (L2.headD 0) L1,
        desktops := if s.current_desktop < (cfg.DESKTOPS : Int) then
            setDesktop s.desktops s.current_desktop.toNat
              { master_size := s.master_size, mode := s.mode, growth := s.growth,
                head := (L1 ++ L2).headD 0, current := lastOr (L2.headD 0) L1,
                showpanel := s.showpanel }
          else s.desktops,
        out := out } ∧
      RingOK H s.brk ((L1 ++ L2).headD 0) (L1 ++ L2) ∧
      CurOK (lastOr (L2.headD 0) L1) (L1 ++ L2) ∧
      (∀ a, (H a).win = (s.heap a).win ∧ (H a).isurgent = (s.heap a).isurgent) ∧
      (∀ a, a ∉ L1 ++ c :: L2 → H a = s.heap a) := by
  obtain ⟨H, hu, hr, hf1, hf2⟩ := unlink_spec s L1 L2 c hok
  have h0 : 0 ∉ L1 ++ L2 := seg_not_mem_zero _ _ _ _ hr.1
  have hcur := curOK_after_unlink L1 L2 h0
  have hwalk := walk_of_ringOK _ _ _ _ hr
  have hhead : lastOr (L2.headD 0) L1 ≠ 0 → (L1 ++ L2).headD 0 ≠ 0 := by
    intro hne
    have hnil : L1 ++ L2 ≠ [] := fun e => hne (hcur.1.2 e)
    cases hL : L1 ++ L2 with
    | nil => exact absurd hL hnil
    | cons y Y =>
      have : y ≠ 0 := fun e => h0 (by rw [hL]; simp [e])
      simpa using this
  unfold removeclient
  rw [hu]
  simp only
  rw [save_desktop_of_nonneg cfg _ _ hcd]
  generalize hs2 : (if s.current_desktop < (cfg.DESKTOPS : Int) then
      ({ s with heap := H, head := (L1 ++ L2).headD 0, current := lastOr (L2.headD 0) L1,
                desktops := setDesktop s.desktops s.current_desktop.toNat
                  (snapshot { s with heap := H, head := (L1 ++ L2).headD 0,
                                     current := lastOr (L2.headD 0) L1 }) } : State)
    else { s with heap := H, head := (L1 ++ L2).headD 0,
                  current := lastOr (L2.headD 0) L1 }) = s2
  have hs2' : s2 = { s with
        heap := H, head := (L1 ++ L2).headD 0, current := lastOr (L2.headD 0) L1,
        desktops := if s.current_desktop < (cfg.DESKTOPS : Int) then
            setDesktop s.desktops s.current_desktop.toNat
              { master_size := s.master_size, mode := s.mode, growth := s.growth,
                head := (L1 ++ L2).headD 0, current := lastOr (L2.headD 0) L1,
                showpanel := s.showpanel }
          else s.desktops } := by
    rw [← hs2]
    split <;> rfl
  have hw2 : walk s2.heap s2.brk s2.head = some (L1 ++ L2) := by
    rw [hs2']; exact hwalk
  obtain ⟨cs, ht⟩ := tile_total cfg s2 _ hw2
  simp only [ht]
  generalize hs3 : (if (emit s2 cs).mode = MONOCLE ∧ (emit s2 cs).current ≠ 0 then
      emit (emit s2 cs) [XCall.XMapWindow ((emit s2 cs).heap (emit s2 cs).current).win]
    else emit s2 cs) = s3
  have hs3' : ∃ cs3, s3 = emit s2 cs3 := by
    rw [← hs3]
    split
    · exact ⟨_, emit_emit _ _ _⟩
    · exact ⟨_, rfl⟩
  obtain ⟨cs3, hs3e⟩ := hs3'
  have hw3 : walk s3.heap s3.brk s3.head = some (L1 ++ L2) := by
    rw [hs3e]; exact hw2
  have hc3 : s3.current ≠ 0 → s3.head ≠ 0 := by
    rw [hs3e, hs2']; exact hhead
  obtain ⟨cs4, hu4⟩ := update_current_total cfg s3 _ hw3 hc3
  refine ⟨H, s.out ++ (cs3 ++ cs4), ?_, hr, hcur, hf1, hf2⟩
  rw [hu4, hs3e, emit_emit, hs2']
  simp [emit]

/-! ## C1: the ring invariant -/

theorem reach_inv (cfg : Config) (s : State) (hr : Reach cfg s) :
    ∃ L, RingOK s.heap s.brk s.head L ∧ CurOK s.current L ∧ 0 ≤ s.current_desktop := by
  induction hr with
  | empty s hh hc hcd =>
    refine ⟨[], ⟨hh, trivial, by simp⟩, ?_, hcd⟩
    simp [CurOK, hc]
  | add s s1 w _ hadd ih =>
    obtain ⟨L, hok, _, hcd⟩ := ih
    obtain ⟨H, hd, he, hro, _⟩ := add_window_spec cfg w s L hok hcd
    rw [he] at hadd
    have hs1 := Option.some.inj hadd
    subst hs1
    refine ⟨_, hro, ?_, hcd⟩
    refine ⟨?_, fun _ => ?_⟩
    · constructor
      · intro h; exact absurd h (Nat.succ_ne_zero _)
      · intro h; cases hA : cfg.ATTACH_ASIDE <;> simp [hA] at h
    · show s.brk + 1 ∈ _
      cases cfg.ATTACH_ASIDE <;> simp
  | remove s s1 c L _ hch hmem hrem ih =>
    obtain ⟨L0, hok, _, hcd⟩ := ih
    have hL : L0 = L := chain_functional _ _ _ _ hok.1 hch
    subst hL
    obtain ⟨L1, L2, hsplit⟩ := List.append_of_mem hmem
    subst hsplit
    obtain ⟨H, out, he, hro, hcur, _⟩ := removeclient_spec cfg s L1 L2 c hok hcd
    rw [he] at hrem
    have hs1 := Option.some.inj hrem
    subst hs1
    exact ⟨_, hro, hcur, hcd⟩

/-- C1. Ring well-formedness is an invariant: in every state reached from an
empty ring by `add_window` and `removeclient` (of a client of the active ring),
with either attach policy, the chain of `next` from `head` is a finite list `L`
ending in `NULL` (and is what the loops of the program traverse), `head->prev`
is the last cell of `L`, the `prev` of every later cell is the cell before it,
`current` is `NULL` exactly when `L` is empty and is otherwise a cell of `L`;
and from such a state both operations return. -/
theorem ring_wellformed_invariant (cfg : Config) (s : State) (hr : Reach cfg s) :
    ∃ L : List Nat,
      Chain s.heap s.head L ∧ ring s = some L ∧
      (∀ hL : L ≠ [], (s.heap s.head).prev = L.getLast hL) ∧
      (∀ i (hi : i + 1 < L.length),
        (s.heap (L.get ⟨i + 1, hi⟩)).prev = L.get ⟨i, Nat.lt_of_succ_lt hi⟩) ∧
      (s.current = 0 ↔ L = []) ∧ (s.current ≠ 0 → s.current ∈ L) ∧
      (∀ w, (add_window cfg w s).isSome = true) ∧
      (∀ c, c ∈ L → (removeclient cfg c s).isSome = true) := by
  obtain ⟨L, hok, hcur, hcd⟩ := reach_inv cfg s hr
  refine ⟨L, hok.1, walk_of_ringOK _ _ _ _ hok, ?_, ?_, hcur.1, hcur.2, ?_, ?_⟩
  · intro hL
    cases L with
    | nil => exact absurd rfl hL
    | cons a T =>
      have hh := ringOK_head_cons _ _ _ _ _ hok
      rw [hh.1, hh.2.2.2.1]
      exact lastOr_eq_getLast 0 (a :: T) hL
  · exact prevLinks_get _ _ _ hok.2.1
  · intro w
    obtain ⟨H, hd, he, _⟩ := add_window_spec cfg w s L hok hcd
    rw [he]; rfl
  · intro c hc
    obtain ⟨L1, L2, hsplit⟩ := List.append_of_mem hc
    subst hsplit
    obtain ⟨H, out, he, _⟩ := removeclient_spec cfg s L1 L2 c hok hcd
    rw [he]; rfl

theorem reach_stateAB : Reach defaultConfig stateAB :=
  Reach.add stateA stateAB 200
    (Reach.add state0 stateA 100 (Reach.empty state0 rfl rfl (by decide)) rfl) rfl

theorem reach_stateB : Reach defaultConfig stateB :=
  Reach.remove stateAB stateB 1 [1, 2] reach_stateAB (by decide) (by decide) rfl

theorem ring_wellformed_invariant_witness :
    Reach defaultConfig stateB ∧
    ∃ L : List Nat,
      Chain stateB.heap stateB.head L ∧ ring stateB = some L ∧
      (∀ hL : L ≠ [], (stateB.heap stateB.head).prev = L.getLast hL) ∧
      (∀ i (hi : i + 1 < L.length),
        (stateB.heap (L.get ⟨i + 1, hi⟩)).prev = L.get ⟨i, Nat.lt_of_succ_lt hi⟩) ∧
      (stateB.current = 0 ↔ L = []) ∧ (stateB.current ≠ 0 → stateB.current ∈ L) ∧
      (∀ w, (add_window defaultConfig w stateB).isSome = true) ∧
      (∀ c, c ∈ L → (removeclient defaultConfig c stateB).isSome = true) :=
  ⟨reach_stateB, ring_wellformed_invariant defaultConfig stateB reach_stateB⟩

/-! ## C3: where `add_window` puts the new client -/

theorem prev_win_step (cfg : Config) (s : State) (L : List Nat)
    (hw : walk s.heap s.brk s.head = some L) (hc : s.current ≠ 0) (hh : s.head ≠ 0)
    (hne : (s.heap s.head).prev ≠ s.head) (hp : (s.heap s.current).prev ≠ 0) :
    ∃ cs, prev_win cfg s = some (emit { s with current := (s.heap s.current).prev } cs) := by
  obtain ⟨heap, brk, showpanel, cd, pd, growth, mode, ms, wh, ww, wf, wu, head, current, ds, out⟩ := s
  simp only at hw hc hh hne hp
  unfold prev_win
  simp only [hc, hh, hne, if_false]
  by_cases hM : mode = MONOCLE
  · subst hM
    simp only [emit, hp, if_false, if_true, eq_self_iff_true]
    refine Exists.elim (update_current_total cfg _ L ?hw ?hh) (fun cs h => ⟨?w, h.trans ?e⟩)
    case hw => exact hw
    case hh => exact fun _ => hh
    case w =>
      exact [XCall.XUnmapWindow (heap current).win,
        XCall.XMapWindow (heap (heap current).prev).win] ++ cs
    case e => simp [emit]
  · simp only [hM, if_false]
    refine Exists.elim (update_current_total cfg _ L ?hw ?hh) (fun cs h => ⟨?w, h.trans ?e⟩)
    case hw => exact hw
    case hh => exact fun _ => hh
    case w => exact cs
    case e => rfl

theorem wins_congr (h h1 : Heap) (L : List Nat) (heq : ∀ a ∈ L, (h1 a).win = (h a).win) :
    wins h1 L = wins h L := by
  unfold wins
  exact List.map_congr_left heq

/-- C3. On a well-formed active ring with forward order `L`, `add_window w`
returns, the new client is `current` and holds `w`, and the forward order
becomes `L ++ [new]` under `ATTACH_ASIDE` and `new :: L` otherwise (so the
window handles read `wins L ++ [w]`, respectively `w :: wins L`), the ring
staying well formed.  On the empty ring the new client is the head, its `prev`
is itself and its `next` is `NULL`.  With tail attach and `L = [a]` the ring
is `[a, new]` with `current = new`, and `prev_win` then returns with
`current = a`. -/
theorem add_window_order (cfg : Config) (w : Nat) (s : State) (L : List Nat)
    (hok : RingOK s.heap s.brk s.head L) (hcd : 0 ≤ s.current_desktop) :
    ∃ s1, add_window cfg w s = some s1 ∧
      (s1.heap s1.current).win = w ∧ s1.current ≠ 0 ∧ s1.current ∉ L ∧
      RingOK s1.heap s1.brk s1.head
        (if cfg.ATTACH_ASIDE then L ++ [s1.current] else s1.current :: L) ∧
      ring s1 = some (if cfg.ATTACH_ASIDE then L ++ [s1.current] else s1.current :: L) ∧
      (ring s1).map (wins s1.heap)
        = some (if cfg.ATTACH_ASIDE then wins s.heap L ++ [w] else w :: wins s.heap L) ∧
      (L = [] → s1.head = s1.current ∧ (s1.heap s1.current).prev = s1.current ∧
        (s1.heap s1.current).next = 0) ∧
      (cfg.ATTACH_ASIDE = true → ∀ a, L = [a] →
        ring s1 = some [a, s1.current] ∧
        ∃ s2, prev_win cfg s1 = some s2 ∧ s2.current = a ∧ ring s2 = some [a, s1.current]) := by
  obtain ⟨H, hd, he, hro, hwin, _, hf1, _⟩ := add_window_spec cfg w s L hok hcd
  obtain ⟨s1, hs1, hheap, hbrk, hhead, hcur⟩ : ∃ s1, add_window cfg w s = some s1 ∧
      s1.heap = H ∧ s1.brk = s.brk + 1 ∧ s1.head = hd ∧ s1.current = s.brk + 1 :=
    ⟨_, he, rfl, rfl, rfl, rfl⟩
  have hcL : s.brk + 1 ∉ L := fun hm => by have := hok.2.2 _ hm; omega
  have hwalk := walk_of_ringOK _ _ _ _ hro
  have hwinsL : wins H L = wins s.heap L :=
    wins_congr _ _ _ (fun a ha => (hf1 a (fun e => hcL (e ▸ ha))).1)
  refine ⟨s1, hs1, ?_⟩
  unfold ring
  rw [hheap, hbrk, hhead, hcur]
  refine ⟨hwin, Nat.succ_ne_zero _, hcL, hro, hwalk, ?_, ?_, ?_⟩
  · rw [hwalk]
    cases cfg.ATTACH_ASIDE
    · simp [wins, hwin] at hwinsL ⊢
      exact hwinsL
    · simp [wins, hwin] at hwinsL ⊢
      exact hwinsL
  · intro hL
    subst hL
    have hro1 : RingOK H (s.brk + 1) hd [s.brk + 1] := by
      cases hA : cfg.ATTACH_ASIDE <;> simpa [hA] using hro
    exact ⟨hro1.1.1, hro1.2.1.1, hro1.1.2.2⟩
  · intro hA a hL
    subst hL
    simp only [hA, if_true, List.singleton_append] at hro hwalk
    have hda : hd = a := hro.1.1
    have ha0 : a ≠ 0 := hro.1.2.1
    have hpa : (H a).prev = s.brk + 1 := hro.2.1.1
    have hpc : (H (s.brk + 1)).prev = a := hro.2.1.2.1
    have hac : s.brk + 1 ≠ a := fun e => hcL (by simp [e])
    refine ⟨hwalk, ?_⟩
    obtain ⟨cs, hpw⟩ := prev_win_step cfg s1 [a, s.brk + 1]
      (by rw [hheap, hbrk, hhead]; exact hwalk)
      (by rw [hcur]; exact Nat.succ_ne_zero _)
      (by rw [hhead, hda]; exact ha0)
      (by rw [hheap, hhead, hda, hpa]; exact hac)
      (by rw [hheap, hcur, hpc]; exact ha0)
    refine ⟨_, hpw, ?_, ?_⟩
    · show (s1.heap s1.current).prev = a
      rw [hheap, hcur, hpc]
    · show walk s1.heap s1.brk s1.head = _
      rw [hheap, hbrk, hhead]; exact hwalk

theorem add_window_order_witness :
    RingOK stateA.heap stateA.brk stateA.head [1] ∧ 0 ≤ stateA.current_desktop ∧
    ∃ s1, add_window defaultConfig 200 stateA = some s1 ∧
      (s1.heap s1.current).win = 200 ∧ s1.current ≠ 0 ∧ s1.current ∉ [1] ∧
      RingOK s1.heap s1.brk s1.head
        (if defaultConfig.ATTACH_ASIDE then [1] ++ [s1.current] else s1.current :: [1]) ∧
      ring s1 = some (if defaultConfig.ATTACH_ASIDE then [1] ++ [s1.current]
                      else s1.current :: [1]) ∧
      (ring s1).map (wins s1.heap)
        = some (if defaultConfig.ATTACH_ASIDE then wins stateA.heap [1] ++ [200]
                else 200 :: wins stateA.heap [1]) ∧
      (([1] : List Nat) = [] → s1.head = s1.current ∧ (s1.heap s1.current).prev = s1.current ∧
        (s1.heap s1.current).next = 0) ∧
      (defaultConfig.ATTACH_ASIDE = true → ∀ a, [1] = [a] →
        ring s1 = some [a, s1.current] ∧
        ∃ s2, prev_win defaultConfig s1 = some s2 ∧ s2.current = a ∧
          ring s2 = some [a, s1.current]) :=
  ⟨by decide, by decide, add_window_order defaultConfig 200 stateA [1] (by decide) (by decide)⟩

/-! ## C4: what `removeclient` leaves -/

theorem erase_of_split (L1 L2 : List Nat) (c : Nat) (hnd : (L1 ++ c :: L2).Nodup) :
    (L1 ++ c :: L2).erase c = L1 ++ L2 := by
  have hc : c ∉ L1 := fun hm => (List.nodup_append.1 hnd).2.2 hm (List.mem_cons_self c L2)
  rw [List.erase_append_right _ hc, List.erase_cons_head]

/-- C4. On a well-formed active ring with forward order `L` and a client `c`
of `L`, `removeclient c` returns; the forward order becomes `L` without `c`
(the others in their old order, their window handles untouched) and the ring
stays well formed; `current` becomes the predecessor of `c` when `c` was not
first, the new first cell when `c` was first and had a successor, and `NULL`
when `c` was alone.  Nothing is assumed about the old `current`. -/
theorem removeclient_order (cfg : Config) (s : State) (L : List Nat) (c : Nat)
    (hok : RingOK s.heap s.brk s.head L) (hcd : 0 ≤ s.current_desktop) (hc : c ∈ L) :
    ∃ s1, removeclient cfg c s = some s1 ∧
      ring s1 = some (L.erase c) ∧
      RingOK s1.heap s1.brk s1.head (L.erase c) ∧
      (∀ a, (s1.heap a).win = (s.heap a).win) ∧
      (∀ L1 p L2, L = L1 ++ p :: c :: L2 → s1.current = p) ∧
      (∀ n L2, L = c :: n :: L2 → s1.current = n ∧ s1.head = n) ∧
      (L = [c] → s1.current = 0 ∧ s1.head = 0) := by
  obtain ⟨L1, L2, hsplit⟩ := List.append_of_mem hc
  subst hsplit
  have hnd := ringOK_nodup _ _ _ _ hok
  obtain ⟨H, out, he, hro, _, hf1, _⟩ := removeclient_spec cfg s L1 L2 c hok hcd
  rw [erase_of_split L1 L2 c hnd]
  refine ⟨_, he, walk_of_ringOK _ _ _ _ hro, hro, fun a => (hf1 a).1, ?_, ?_, ?_⟩
  · intro M1 p M2 hM
    have hok2 : RingOK s.heap s.brk s.head ((M1 ++ [p]) ++ c :: M2) := by
      rw [List.append_assoc, List.singleton_append, ← hM]; exact hok
    obtain ⟨H2, out2, he2, _⟩ := removeclient_spec cfg s (M1 ++ [p]) M2 c hok2 hcd
    rw [he] at he2
    have := congrArg State.current (Option.some.inj he2)
    simp only at this
    rw [this]
    exact lastOr_append_cons _ p M1 []
  · intro n M2 hM
    have hok2 : RingOK s.heap s.brk s.head ([] ++ c :: n :: M2) := by
      rw [List.nil_append, ← hM]; exact hok
    obtain ⟨H2, out2, he2, _⟩ := removeclient_spec cfg s [] (n :: M2) c hok2 hcd
    rw [he] at he2
    have h1 := congrArg State.current (Option.some.inj he2)
    have h2 := congrArg State.head (Option.some.inj he2)
    simp only at h1 h2
    exact ⟨h1, h2⟩
  · intro hM
    have hok2 : RingOK s.heap s.brk s.head ([] ++ c :: []) := by
      rw [List.nil_append, ← hM]; exact hok
    obtain ⟨H2, out2, he2, _⟩ := removeclient_spec cfg s [] [] c hok2 hcd
    rw [he] at he2
    have h1 := congrArg State.current (Option.some.inj he2)
    have h2 := congrArg State.head (Option.some.inj he2)
    simp only at h1 h2
    exact ⟨h1, h2⟩

theorem removeclient_order_witness :
    RingOK stateAB.heap stateAB.brk stateAB.head [1, 2] ∧ 0 ≤ stateAB.current_desktop ∧
    1 ∈ [1, 2] ∧
    ∃ s1, removeclient defaultConfig 1 stateAB = some s1 ∧
      ring s1 = some ([1, 2].erase 1) ∧
      RingOK s1.heap s1.brk s1.head ([1, 2].erase 1) ∧
      (∀ a, (s1.heap a).win = (stateAB.heap a).win) ∧
      (∀ L1 p L2, [1, 2] = L1 ++ p :: 1 :: L2 → s1.current = p) ∧
      (∀ n L2, [1, 2] = 1 :: n :: L2 → s1.current = n ∧ s1.head = n) ∧
      (([1, 2] : List Nat) = [1] → s1.current = 0 ∧ s1.head = 0) :=
  ⟨by decide, by decide, by decide,
    removeclient_order defaultConfig stateAB [1, 2] 1 (by decide) (by decide) (by decide)⟩

/-! ## Desktops as the program shows them -/

theorem sameViews_refl (s : State) : SameViews s s := ⟨rfl, rfl, fun _ => rfl⟩

theorem sameViews_trans (s t u : State) (h1 : SameViews s t) (h2 : SameViews t u) :
    SameViews s u :=
  ⟨h2.1.trans h1.1, h2.2.1.trans h1.2.1, fun d => (h2.2.2 d).trans (h1.2.2 d)⟩

theorem sameViews_emit (s : State) (cs : List XCall) : SameViews s (emit s cs) :=
  ⟨rfl, rfl, fun _ => rfl⟩

theorem view_active (s : State) : view s s.current_desktop.toNat = snapshot s ∨
    s.current_desktop < 0 := by
  by_cases h : 0 ≤ s.current_desktop
  · left
    unfold view
    rw [if_pos (Int.toNat_of_nonneg h)]
  · right; omega

theorem view_of_active (s : State) (d : Nat) (h : (d : Int) = s.current_desktop) :
    view s d = snapshot s := by
  unfold view; rw [if_pos h]

theorem view_of_inactive (s : State) (d : Nat) (h : (d : Int) ≠ s.current_desktop) :
    view s d = s.desktops d := by
  unfold view; rw [if_neg h]

theorem save_desktop_views (cfg : Config) (s : State) (h0 : 0 ≤ s.current_desktop) :
    ∃ t, save_desktop cfg s.current_desktop s = some t ∧ SameViews s t ∧
      t.current_desktop = s.current_desktop ∧ snapshot t = snapshot s ∧ t.out = s.out ∧
      (s.current_desktop < (cfg.DESKTOPS : Int) → Saved t) := by
  rw [save_desktop_of_nonneg cfg _ _ h0]
  by_cases hlt : s.current_desktop < (cfg.DESKTOPS : Int)
  · rw [if_pos hlt]
    refine ⟨_, rfl, ⟨rfl, rfl, fun d => ?_⟩, rfl, rfl, rfl, fun _ => ?_⟩
    · unfold view
      by_cases hd : (d : Int) = s.current_desktop
      · simp only [hd, if_true]; rfl
      · simp only [hd, if_false]
        have : d ≠ s.current_desktop.toNat := by omega
        simp [setDesktop, this]
    · simp [Saved, setDesktop]; rfl
  · rw [if_neg hlt]
    exact ⟨_, rfl, sameViews_refl s, rfl, rfl, rfl, fun h => absurd h hlt⟩

theorem select_desktop_views (cfg : Config) (s : State) (i : Int) (hs : Saved s)
    (h0 : 0 ≤ s.current_desktop) (hi0 : 0 ≤ i) (hi1 : i < (cfg.DESKTOPS : Int)) :
    ∃ t, select_desktop cfg i s = some t ∧ SameViews s t ∧ t.current_desktop = i ∧
      Saved t ∧ t.out = s.out ∧ t.desktops = s.desktops ∧
      t.previous_desktop = s.previous_desktop := by
  unfold select_desktop
  by_cases hc : i = s.current_desktop
  · simp only [hc, or_true, if_true]
    exact ⟨s, rfl, sameViews_refl s, rfl, hs, rfl, rfl, rfl⟩
  · have h1 : ¬ (i ≥ (cfg.DESKTOPS : Int) ∨ i = s.current_desktop) := by
      intro h; rcases h with h | h
      · omega
      · exact hc h
    have h2 : ¬ i < 0 := by omega
    simp only [h1, h2, if_false]
    refine ⟨_, rfl, ⟨rfl, rfl, fun d => ?_⟩, rfl, ?_, rfl, rfl, rfl⟩
    · unfold view
      simp only
      by_cases hd : (d : Int) = i
      · have hd2 : (d : Int) ≠ s.current_desktop := fun e => hc (hd.symm.trans e)
        have hd3 : i.toNat = d := by omega
        simp only [hd, hd2, if_true, if_false]
        subst hd
        simp [snapshot, hd2]
      · simp only [hd, if_false]
        by_cases hd2 : (d : Int) = s.current_desktop
        · simp only [hd2, if_true]
          have : d = s.current_desktop.toNat := by omega
          rw [this]; exact hs
        · simp only [hd2, if_false]
    · simp [Saved, snapshot]

theorem snapshot_head_of_view (s t : State) (d : Nat) (hv : SameViews s t)
    (hd : t.current_desktop = (d : Int)) : t.head = (view s d).head := by
  have h1 : view t d = snapshot t := view_of_active t d hd.symm
  have h2 := hv.2.2 d
  rw [h1] at h2
  rw [← h2]; rfl

theorem snapshot_current_of_view (s t : State) (d : Nat) (hv : SameViews s t)
    (hd : t.current_desktop = (d : Int)) : t.current = (view s d).current := by
  have h1 : view t d = snapshot t := view_of_active t d hd.symm
  have h2 := hv.2.2 d
  rw [h1] at h2
  rw [← h2]; rfl

theorem walk_live_of_walkable (cfg : Config) (s t : State) (hw : Walkable cfg s)
    (hv : SameViews s t) (h0 : 0 ≤ t.current_desktop)
    (h1 : t.current_desktop < (cfg.DESKTOPS : Int)) :
    (∃ L, walk t.heap t.brk t.head = some L) ∧ (t.current ≠ 0 → t.head ≠ 0) := by
  have hd : t.current_desktop = ((t.current_desktop.toNat : Nat) : Int) := by omega
  have hlt : t.current_desktop.toNat < cfg.DESKTOPS := by omega
  rw [snapshot_head_of_view s t _ hv hd, snapshot_current_of_view s t _ hv hd, hv.1, hv.2.1]
  exact ⟨Option.isSome_iff_exists.1 (hw.2.2 _ hlt).1, (hw.2.2 _ hlt).2⟩

theorem desktopinfoLoop_views (cfg : Config) (s : State) (hw : Walkable cfg s) (cd : Int) :
    ∀ k d t, d + k = cfg.DESKTOPS → Saved t → SameViews s t → 0 ≤ t.current_desktop →
      ∃ t1, desktopinfoLoop cfg cd k d t = some t1 ∧ Saved t1 ∧ SameViews s t1 ∧
        0 ≤ t1.current_desktop ∧ t1.previous_desktop = t.previous_desktop := by
  intro k
  induction k with
  | zero => intro d t _ hs hv h0; exact ⟨t, rfl, hs, hv, h0, rfl⟩
  | succ k ih =>
    intro d t hk hs hv h0
    obtain ⟨t1, hsel, hv1, hcd1, hs1, _, _, hp1⟩ :=
      select_desktop_views cfg t (d : Int) hs h0 (by omega) (by omega)
    have hv1' : SameViews s t1 := sameViews_trans _ _ _ hv hv1
    obtain ⟨⟨L, hL⟩, _⟩ := walk_live_of_walkable cfg s t1 hw hv1' (by omega) (by omega)
    unfold desktopinfoLoop
    simp only [hsel, hL]
    obtain ⟨t2, h2, hs2, hv2, h02, hp2⟩ := ih (d + 1) (emit t1 _) (by omega) hs1
      (sameViews_trans _ _ _ hv1' (sameViews_emit t1 _)) (by show 0 ≤ t1.current_desktop; omega)
    exact ⟨t2, h2, hs2, hv2, h02, hp2.trans hp1⟩

theorem desktopinfo_views (cfg : Config) (s : State) (hw : Walkable cfg s) :
    ∃ t, desktopinfo cfg s = some t ∧ SameViews s t ∧
      t.current_desktop = s.current_desktop ∧ Saved t ∧
      t.previous_desktop = s.previous_desktop := by
  have h0 := hw.1
  have h1 := hw.2.1
  have hsave := save_desktop_of_nonneg cfg s.current_desktop s h0
  rw [if_pos h1] at hsave
  obtain ⟨t0, ht0, hv0, hcd0, _, _, hs0⟩ := save_desktop_views cfg s h0
  have hp0 : t0.previous_desktop = s.previous_desktop := by
    rw [hsave] at ht0
    rw [← Option.some.inj ht0]
  obtain ⟨t1, hl, hs1, hv1, h01, hp1⟩ := desktopinfoLoop_views cfg s hw s.current_desktop
    cfg.DESKTOPS 0 t0 (by omega) (hs0 h1) hv0 (by omega)
  obtain ⟨t2, hsel, hv2, hcd2, hs2, _, _, hp2⟩ := select_desktop_views cfg (emit t1 [XCall.fflush])
    s.current_desktop hs1 h01 h0 h1
  refine ⟨t2, ?_, sameViews_trans _ _ _ hv1 hv2, hcd2, hs2, ?_⟩
  · unfold desktopinfo
    simp only [ht0, hl, hsel]
  · rw [hp2]
    show t1.previous_desktop = _
    rw [hp1, hp0]

/-- C7. `change_desktop` with the active index is a no-op: it returns the
state it was given, so the live working set, every stored desktop slot and
`previous_desktop` are unchanged and nothing is added to the output (no map,
unmap, move-resize or status line). -/
theorem change_desktop_active_noop (cfg : Config) (s : State) :
    change_desktop cfg s.current_desktop s = some s := by
  simp [change_desktop]

/-! ## C6: the switch round trip -/

theorem ringOK_congr (h h1 : Heap) (brk brk1 hd : Nat) (L : List Nat)
    (heq : ∀ a ∈ L, h1 a = h a) (hb : brk ≤ brk1) (hok : RingOK h brk hd L) :
    RingOK h1 brk1 hd L :=
  ⟨chain_congr h h1 L hd (fun a ha => by rw [heq a ha]) hok.1,
   prevLinks_congr h h1 L _ (fun a ha => by rw [heq a ha]) hok.2.1,
   fun a ha => le_trans (hok.2.2 a ha) hb⟩

theorem stateOK_walkable (cfg : Config) (s : State) (R : Nat → List Nat)
    (hok : StateOK cfg s R) : Walkable cfg s := by
  refine ⟨hok.cd_lo, hok.cd_hi, fun d hd => ⟨?_, ?_⟩⟩
  · rw [walk_of_ringOK _ _ _ _ (hok.rings d hd)]; rfl
  · intro hc
    have hne : R d ≠ [] := fun e => hc ((hok.curs d hd).1.2 e)
    cases hR : R d with
    | nil => exact absurd hR hne
    | cons a T =>
      have hr := hok.rings d hd
      rw [hR] at hr
      have := ringOK_head_cons _ _ _ _ _ hr
      rw [this.1]; exact this.2.1

theorem stateOK_of_sameViews (cfg : Config) (s t : State) (R : Nat → List Nat)
    (hok : StateOK cfg s R) (hv : SameViews s t) (h0 : 0 ≤ t.current_desktop)
    (h1 : t.current_desktop < (cfg.DESKTOPS : Int)) : StateOK cfg t R := by
  refine ⟨h0, h1, fun d hd => ?_, fun d hd => ?_, hok.disj⟩
  · rw [hv.1, hv.2.1, hv.2.2 d]; exact hok.rings d hd
  · rw [hv.2.2 d]; exact hok.curs d hd

theorem stateOK_ring (cfg : Config) (s : State) (R : Nat → List Nat) (hok : StateOK cfg s R)
    (d : Nat) (hd : d < cfg.DESKTOPS) : ringOf s d = some (R d) :=
  walk_of_ringOK _ _ _ _ (hok.rings d hd)

theorem stateOK_add_window (cfg : Config) (w : Nat) (s : State) (R : Nat → List Nat)
    (hok : StateOK cfg s R) :
    ∃ t, add_window cfg w s = some t ∧ t.current_desktop = s.current_desktop ∧ Saved t ∧
      StateOK cfg t (fun d => if d = s.current_desktop.toNat then
          (if cfg.ATTACH_ASIDE then R d ++ [s.brk + 1] else (s.brk + 1) :: R d) else R d) ∧
      (∀ B, B ≠ s.current_desktop.toNat → view t B = view s B) ∧
      (∀ a, a ∉ R s.current_desktop.toNat → a ≠ s.brk + 1 → t.heap a = s.heap a) := by
  have h0 := hok.cd_lo
  have h1 := hok.cd_hi
  have hA : s.current_desktop.toNat < cfg.DESKTOPS := by omega
  have hAc : ((s.current_desktop.toNat : Nat) : Int) = s.current_desktop := Int.toNat_of_nonneg h0
  have hring : RingOK s.heap s.brk s.head (R s.current_desktop.toNat) := by
    have := hok.rings _ hA
    rw [view_of_active s _ hAc] at this
    exact this
  obtain ⟨H, hd, he, hro, _, _, _, hf2⟩ := add_window_spec cfg w s _ hring h0
  rw [if_pos h1] at he
  have hview : ∀ B, B ≠ s.current_desktop.toNat →
      view ({ s with
        heap := H, brk := s.brk + 1, head := hd, current := s.brk + 1,
        desktops := setDesktop s.desktops s.current_desktop.toNat
              { master_size := s.master_size, mode := s.mode, growth := s.growth, head := hd,
                current := s.brk + 1, showpanel := s.showpanel },
        out := s.out ++ XCall.XSelectInput w false ::
          (if cfg.FOLLOW_MOUSE then [XCall.XSelectInput w true] else []) } : State) B
        = view s B := by
    intro B hB
    have hBc : (B : Int) ≠ s.current_desktop := by omega
    unfold view
    simp only [hBc, if_false, setDesktop, hB]
  have hcL : ∀ d, d < cfg.DESKTOPS → s.brk + 1 ∉ R d := by
    intro d hd hm
    have := (hok.rings d hd).2.2 _ hm
    omega
  refine ⟨_, he, rfl, ?_, ⟨h0, h1, fun d hd => ?_, fun d hd => ?_, ?_⟩, hview, hf2⟩
  · simp [Saved, setDesktop, snapshot]
  · by_cases hdA : d = s.current_desktop.toNat
    · subst hdA
      rw [view_of_active _ _ (by exact hAc)]
      simp only [if_true]
      exact hro
    · rw [hview d hdA]
      simp only [hdA, if_false]
      refine ringOK_congr s.heap H s.brk (s.brk + 1) _ _ ?_ (Nat.le_succ _) (hok.rings d hd)
      intro a ha
      exact hf2 a (fun hm => hok.disj d hd _ hA hdA a ha hm) (fun e => hcL d hd (e ▸ ha))
  · by_cases hdA : d = s.current_desktop.toNat
    · subst hdA
      rw [view_of_active _ _ (by exact hAc)]
      simp only [if_true]
      refine ⟨⟨fun h => absurd h (Nat.succ_ne_zero _), fun h => ?_⟩, fun _ => ?_⟩
      · cases hAA : cfg.ATTACH_ASIDE <;> simp [hAA] at h
      · show s.brk + 1 ∈ _
        cases cfg.ATTACH_ASIDE <;> simp
    · rw [hview d hdA]
      simp only [hdA, if_false]
      exact hok.curs d hd
  · intro d hd e he hde a ha hm
    by_cases hdA : d = s.current_desktop.toNat
    · have heA : e ≠ s.current_desktop.toNat := fun h => hde (hdA.trans h.symm)
      simp only [hdA, heA, if_true, if_false] at ha hm
      have ha' : a = s.brk + 1 ∨ a ∈ R s.current_desktop.toNat := by
        cases hAA : cfg.ATTACH_ASIDE <;> simp [hAA] at ha
        · exact ha
        · exact ha.symm
      rcases ha' with ha' | ha'
      · exact hcL e he (ha' ▸ hm)
      · exact hok.disj _ hA e he (fun h => heA h.symm) a ha' hm
    · simp only [hdA, if_false] at ha
      by_cases heA : e = s.current_desktop.toNat
      · simp only [heA, if_true] at hm
        have hm' : a = s.brk + 1 ∨ a ∈ R s.current_desktop.toNat := by
          cases hAA : cfg.ATTACH_ASIDE <;> simp [hAA] at hm
          · exact hm
          · exact hm.symm
        rcases hm' with hm' | hm'
        · exact hcL d hd (hm' ▸ ha)
        · exact hok.disj d hd _ hA hdA a ha hm'
      · simp only [heA, if_false] at hm
        exact hok.disj d hd e he hde a ha hm

/-! ## C5: desktops are isolated on insertion -/

theorem tile_form_TILE (cfg : Config) (s : State) (a b : Nat) (T : List Nat)
    (hw : walk s.heap s.brk s.head = some (a :: b :: T)) (hm : s.mode = TILE) :
    tile cfg s = some (emit s (
      xMoveResizeWindow (s.heap a).win 0 (panelY cfg s)
        (s.master_size - cfg.BORDER_WIDTH) (layoutH cfg s - cfg.BORDER_WIDTH)
      :: xMoveResizeWindow (s.heap b).win (s.master_size + cfg.BORDER_WIDTH) (panelY cfg s)
        (s.ww - s.master_size - 2 * cfg.BORDER_WIDTH)
        (stackZ (layoutH cfg s) s.growth (T.length + 1) - cfg.BORDER_WIDTH
          + stackD (layoutH cfg s) s.growth (T.length + 1))
      :: tileStack s.heap true (s.master_size + cfg.BORDER_WIDTH)
        (s.ww - s.master_size - 2 * cfg.BORDER_WIDTH)
        (stackZ (layoutH cfg s) s.growth (T.length + 1) - cfg.BORDER_WIDTH)
        (stackZ (layoutH cfg s) s.growth (T.length + 1))
        (panelY cfg s + (stackZ (layoutH cfg s) s.growth (T.length + 1)
          + stackD (layoutH cfg s) s.growth (T.length + 1))) T)) := by
  obtain ⟨hh, ha0, hwT⟩ := walk_cons_inv _ _ _ _ _ hw
  obtain ⟨hb, hb0, hwT2⟩ := walk_cons_inv _ _ _ _ _ hwT
  have hTM : TILE ≠ MONOCLE := by decide
  have hTB : TILE ≠ BSTACK := by decide
  have hwb : walk s.heap s.brk b = some (b :: T) := hb ▸ hwT
  unfold tile
  simp only [hh, ha0, if_false, hwb, hb, hb0, hm, hTM, hTB, or_self, if_true, hwT2, true_or,
    true_and, List.length_cons, layoutH, panelY, stackZ, stackD, decide_eq_true_eq]

theorem tile_form_BSTACK (cfg : Config) (s : State) (a b : Nat) (T : List Nat)
    (hw : walk s.heap s.brk s.head = some (a :: b :: T)) (hm : s.mode = BSTACK) :
    tile cfg s = some (emit s (
      xMoveResizeWindow (s.heap a).win 0 (panelY cfg s)
        (s.ww - cfg.BORDER_WIDTH) (s.master_size - cfg.BORDER_WIDTH)
      :: xMoveResizeWindow (s.heap b).win 0
        (panelY cfg s + (s.master_size + cfg.BORDER_WIDTH))
        (stackZ s.ww s.growth (T.length + 1) - cfg.BORDER_WIDTH
          + stackD s.ww s.growth (T.length + 1))
        (layoutH cfg s - s.master_size - 2 * cfg.BORDER_WIDTH)
      :: tileStack s.heap false (panelY cfg s + (s.master_size + cfg.BORDER_WIDTH))
        (stackZ s.ww s.growth (T.length + 1) - cfg.BORDER_WIDTH)
        (layoutH cfg s - s.master_size - 2 * cfg.BORDER_WIDTH)
        (stackZ s.ww s.growth (T.length + 1))
        (0 + (stackZ s.ww s.growth (T.length + 1)
          + stackD s.ww s.growth (T.length + 1))) T)) := by
  obtain ⟨hh, ha0, hwT⟩ := walk_cons_inv _ _ _ _ _ hw
  obtain ⟨hb, hb0, hwT2⟩ := walk_cons_inv _ _ _ _ _ hwT
  have hBM : BSTACK ≠ MONOCLE := by decide
  have hBT : BSTACK ≠ TILE := by decide
  have hwb : walk s.heap s.brk b = some (b :: T) := hb ▸ hwT
  unfold tile
  simp only [hh, ha0, if_false, hwb, hb, hb0, hm, hBM, hBT, or_self, if_true, hwT2, or_true,
    true_and, List.length_cons, layoutH, panelY, stackZ, stackD, decide_eq_true_eq]

/-! ## C8: the stack slots tile the space exactly -/

theorem toUnsigned_of_range (v : Int) (h0 : 0 ≤ v) (h1 : v < 4294967296) : toUnsigned v = v :=
  Int.emod_eq_of_lt h0 h1

theorem xMoveResizeWindow_of_range (w : Nat) (x y width height : Int) (h0 : 0 ≤ width)
    (h1 : width < 4294967296) (h2 : 0 ≤ height) (h3 : height < 4294967296) :
    xMoveResizeWindow w x y width height = XCall.XMoveResizeWindow w x y width height := by
  unfold xMoveResizeWindow
  rw [toUnsigned_of_range width h0 h1, toUnsigned_of_range height h2 h3]

theorem slotAllot_x (cfg : Config) (mode : Int) (w : Nat) (x y width height : Int) :
    slotAllot cfg mode (xMoveResizeWindow w x y width height)
      = toUnsigned (if mode = BSTACK then width else height) + cfg.BORDER_WIDTH := by
  show (if mode = BSTACK then toUnsigned width else toUnsigned height) + cfg.BORDER_WIDTH = _
  split <;> rfl

theorem stack_sum (z0 g : Int) (n : Nat) (hn : 1 ≤ n) :
    stackZ z0 g n + stackD z0 g n + ((n : Int) - 1) * stackZ z0 g n = z0 := by
  unfold stackZ stackD
  by_cases h : (n : Int) > 1
  · simp only [h, if_true]
    have := Int.tmod_add_tdiv (z0 - g) n
    linarith
  · simp only [h, if_false]
    have : (n : Int) = 1 := by omega
    rw [this]; ring

theorem tileStack_windows (h : Heap) (vertical : Bool) (fixed cw ch z : Int) (T : List Nat) :
    ∀ pos, (tileStack h vertical fixed cw ch z pos T).map movedWindow = (wins h T).map some := by
  induction T with
  | nil => intro pos; rfl
  | cons c T ih =>
    intro pos
    have h1 := ih (pos + z)
    cases vertical with
    | true =>
      simp only [tileStack, if_true, List.map_cons, movedWindow, xMoveResizeWindow, wins] at h1 ⊢
      rw [h1]
    | false =>
      simp only [tileStack, Bool.false_eq_true, if_false, List.map_cons, movedWindow,
        xMoveResizeWindow, wins] at h1 ⊢
      rw [h1]

theorem tileStack_allot (cfg : Config) (h : Heap) (mode : Int) (vertical : Bool)
    (fixed cw ch z : Int) (hv : mode = BSTACK ↔ vertical = false)
    (hsz : (if mode = BSTACK then cw else ch) + cfg.BORDER_WIDTH = z)
    (h0 : 0 ≤ (if mode = BSTACK then cw else ch))
    (h1 : (if mode = BSTACK then cw else ch) < 4294967296) (T : List Nat) :
    ∀ pos, (tileStack h vertical fixed cw ch z pos T).map (slotAllot cfg mode)
        = List.replicate T.length z := by
  have hall : ∀ w x y, slotAllot cfg mode (xMoveResizeWindow w x y cw ch) = z := by
    intro w x y
    rw [slotAllot_x, toUnsigned_of_range _ h0 h1, hsz]
  induction T with
  | nil => intro pos; rfl
  | cons c T ih =>
    intro pos
    have p2 := ih (pos + z)
    cases vertical with
    | true =>
      simp only [tileStack, if_true, List.map_cons, hall, List.length_cons,
        List.replicate_succ]
      rw [p2]
    | false =>
      simp only [tileStack, Bool.false_eq_true, if_false, List.map_cons, hall,
        List.length_cons, List.replicate_succ]
      rw [p2]

theorem tileStack_props (cfg : Config) (h : Heap) (mode : Int) (vertical : Bool)
    (fixed cw ch z : Int) (hv : mode = BSTACK ↔ vertical = false)
    (hsz : (if mode = BSTACK then cw else ch) + cfg.BORDER_WIDTH = z)
    (h0 : 0 ≤ (if mode = BSTACK then cw else ch))
    (h1 : (if mode = BSTACK then cw else ch) < 4294967296)
    (hbw : 0 ≤ cfg.BORDER_WIDTH) (T : List Nat) :
    ∀ pos, (tileStack h vertical fixed cw ch z pos T).map (slotAllot cfg mode)
        = List.replicate T.length z ∧
      Abut (slotStart mode) (slotAllot cfg mode) pos (tileStack h vertical fixed cw ch z pos T) := by
  have hall : ∀ w x y, slotAllot cfg mode (xMoveResizeWindow w x y cw ch) = z := by
    intro w x y
    rw [slotAllot_x, toUnsigned_of_range _ h0 h1, hsz]
  have hz0 : 0 ≤ z := by rw [← hsz]; exact add_nonneg h0 hbw
  induction T with
  | nil => intro pos; exact ⟨rfl, trivial⟩
  | cons c T ih =>
    intro pos
    obtain ⟨p2, p3⟩ := ih (pos + z)
    cases vertical with
    | true =>
      have hm : mode ≠ BSTACK := fun e => by simpa using hv.1 e
      refine ⟨?_, ?_, ?_, ?_⟩
      · simp only [tileStack, if_true, List.map_cons, hall, List.length_cons,
          List.replicate_succ]
        rw [p2]
      · simp [tileStack, slotStart, xMoveResizeWindow, hm]
      · simp only [tileStack, if_true, hall]
        exact hz0
      · simp only [tileStack, if_true, hall]
        exact p3
    | false =>
      have hm : mode = BSTACK := hv.2 rfl
      refine ⟨?_, ?_, ?_, ?_⟩
      · simp only [tileStack, Bool.false_eq_true, if_false, List.map_cons, hall,
          List.length_cons, List.replicate_succ]
        rw [p2]
      · simp [tileStack, slotStart, xMoveResizeWindow, hm]
      · simp only [tileStack, Bool.false_eq_true, if_false, hall]
        exact hz0
      · simp only [tileStack, Bool.false_eq_true, if_false, hall]
        exact p3

theorem sum_replicate_int (n : Nat) (z : Int) : (List.replicate n z).sum = (n : Int) * z := by
  induction n with
  | zero => simp
  | succ n ih => rw [List.replicate_succ, List.sum_cons, ih]; push_cast; ring

/-- C8, as stated, fails: `growth` has no lower bound and `XMoveResizeWindow`
takes its sizes as `unsigned int`.  After `resize_stack(-700)` on the ring of
a master and two stack clients (`TILE`, layout height 598, `BORDER_WIDTH` 2),
`tile` computes the height `649 - 2 - 700 = -53` for the first stack window
and passes `4294967243`; the allotments `4294967245` and `649` do not sum to
598. -/
theorem stack_tiles_counterexample :
    stateABCn.growth = -700 ∧ ring stateABCn = some (1 :: 2 :: [3]) ∧ stateABCn.mode = TILE ∧
    layoutH defaultConfig stateABCn = 598 ∧
    stackAllotments defaultConfig stateABCn = some [4294967245, 649] ∧
    ¬ SpecStackTiles defaultConfig stateABCn := by
  refine ⟨by decide, by decide, by decide, by decide, by decide, ?_⟩
  intro h
  have h1 := (h 1 2 [3] (by decide) (by decide)).1
  revert h1
  decide

/-- C8, amended. Growth is a net-zero redistribution and the stack tiles
exactly: in `TILE` and in `BSTACK` mode, on a ring with a master and `n ≥ 1`
stack clients (`n = T.length + 1`), with `BORDER_WIDTH` not negative and for
every signed growth `g` under which the sizes `tile` computes for the stack
windows along the stack dimension are values of `unsigned int`
(`StackSizesOK`), `tile` returns and emits the master's rectangle followed by
one rectangle per stack client in ring order; the allotments of the stack
slots (window size along the stack dimension plus `BORDER_WIDTH`) are `z + d`
for the first and `z` for each other slot, they sum to the whole space being
split (`h` in `TILE`, `ww` in `BSTACK`, whatever `g` is), no allotment is
negative, and every slot starts where the allotment of the slot before it
ends, the first one at the start of the space. -/
theorem stack_tiles_exactly (cfg : Config) (s : State) (a b : Nat) (T : List Nat) (g : Int)
    (hw : ring s = some (a :: b :: T)) (hm : s.mode = TILE ∨ s.mode = BSTACK)
    (hbw : 0 ≤ cfg.BORDER_WIDTH)
    (hok : StackSizesOK cfg (if s.mode = BSTACK then s.ww else layoutH cfg s) g (T.length + 1)) :
    ∃ m rs, tile cfg { s with growth := g } = some (emit { s with growth := g } (m :: rs)) ∧
      rs.map movedWindow = (wins s.heap (b :: T)).map some ∧
      rs.map (slotAllot cfg s.mode)
        = (stackZ (if s.mode = BSTACK then s.ww else layoutH cfg s) g (T.length + 1)
            + stackD (if s.mode = BSTACK then s.ww else layoutH cfg s) g (T.length + 1))
          :: List.replicate T.length
              (stackZ (if s.mode = BSTACK then s.ww else layoutH cfg s) g (T.length + 1)) ∧
      (rs.map (slotAllot cfg s.mode)).sum = (if s.mode = BSTACK then s.ww else layoutH cfg s) ∧
      Abut (slotStart s.mode) (slotAllot cfg s.mode)
        (if s.mode = BSTACK then 0 else panelY cfg s) rs := by
  have hw' : walk ({ s with growth := g } : State).heap ({ s with growth := g } : State).brk
      ({ s with growth := g } : State).head = some (a :: b :: T) := hw
  have hsum : ∀ z0 : Int, ((stackZ z0 g (T.length + 1) + stackD z0 g (T.length + 1))
      :: List.replicate T.length (stackZ z0 g (T.length + 1))).sum = z0 := by
    intro z0
    rw [List.sum_cons, sum_replicate_int]
    have := stack_sum z0 g (T.length + 1) (by omega)
    push_cast at this
    linarith
  rcases hm with hm | hm
  · have hTB : TILE ≠ BSTACK := by decide
    rw [hm] at hok
    simp only [hTB, if_false] at hok
    obtain ⟨hk1, hk2, hk3, hk4⟩ := hok
    have hform := tile_form_TILE cfg { s with growth := g } a b T hw' hm
    have p1 := tileStack_windows s.heap true
      (s.master_size + cfg.BORDER_WIDTH) (s.ww - s.master_size - 2 * cfg.BORDER_WIDTH)
      (stackZ (layoutH cfg s) g (T.length + 1) - cfg.BORDER_WIDTH)
      (stackZ (layoutH cfg s) g (T.length + 1)) T
      (panelY cfg s + (stackZ (layoutH cfg s) g (T.length + 1)
        + stackD (layoutH cfg s) g (T.length + 1)))
    obtain ⟨p2, p3⟩ := tileStack_props cfg s.heap TILE true
      (s.master_size + cfg.BORDER_WIDTH) (s.ww - s.master_size - 2 * cfg.BORDER_WIDTH)
      (stackZ (layoutH cfg s) g (T.length + 1) - cfg.BORDER_WIDTH)
      (stackZ (layoutH cfg s) g (T.length + 1)) (by simp [hTB])
      (by simp only [hTB, if_false]; ring) (by simp only [hTB, if_false]; exact hk3)
      (by simp only [hTB, if_false]; exact hk4) hbw T
      (panelY cfg s + (stackZ (layoutH cfg s) g (T.length + 1)
        + stackD (layoutH cfg s) g (T.length + 1)))
    have hall : slotAllot cfg TILE (xMoveResizeWindow (s.heap b).win
        (s.master_size + cfg.BORDER_WIDTH) (panelY cfg s)
        (s.ww - s.master_size - 2 * cfg.BORDER_WIDTH)
        (stackZ (layoutH cfg s) g (T.length + 1) - cfg.BORDER_WIDTH
          + stackD (layoutH cfg s) g (T.length + 1)))
        = stackZ (layoutH cfg s) g (T.length + 1) + stackD (layoutH cfg s) g (T.length + 1) := by
      rw [slotAllot_x]
      simp only [hTB, if_false]
      rw [toUnsigned_of_range _ hk1 hk2]; ring
    refine ⟨xMoveResizeWindow (s.heap a).win 0 (panelY cfg s)
        (s.master_size - cfg.BORDER_WIDTH) (layoutH cfg s - cfg.BORDER_WIDTH),
      xMoveResizeWindow (s.heap b).win (s.master_size + cfg.BORDER_WIDTH) (panelY cfg s)
        (s.ww - s.master_size - 2 * cfg.BORDER_WIDTH)
        (stackZ (layoutH cfg s) g (T.length + 1) - cfg.BORDER_WIDTH
          + stackD (layoutH cfg s) g (T.length + 1))
      :: tileStack s.heap true (s.master_size + cfg.BORDER_WIDTH)
        (s.ww - s.master_size - 2 * cfg.BORDER_WIDTH)
        (stackZ (layoutH cfg s) g (T.length + 1) - cfg.BORDER_WIDTH)
        (stackZ (layoutH cfg s) g (T.length + 1))
        (panelY cfg s + (stackZ (layoutH cfg s) g (T.length + 1)
          + stackD (layoutH cfg s) g (T.length + 1))) T, hform, ?_, ?_, ?_, ?_⟩
    · simp only [List.map_cons, movedWindow, xMoveResizeWindow, wins] at p1 ⊢
      rw [p1]
    · rw [hm]
      simp only [hTB, if_false, List.map_cons, hall]
      rw [p2]
    · rw [hm]
      simp only [hTB, if_false, List.map_cons, hall]
      rw [p2]
      exact hsum _
    · rw [hm]
      simp only [hTB, if_false]
      refine ⟨rfl, ?_, ?_⟩
      · rw [hall]; linarith
      · rw [hall]; exact p3
  · rw [hm] at hok
    simp only [if_true] at hok
    obtain ⟨hk1, hk2, hk3, hk4⟩ := hok
    have hform := tile_form_BSTACK cfg { s with growth := g } a b T hw' hm
    have p1 := tileStack_windows s.heap false
      (panelY cfg s + (s.master_size + cfg.BORDER_WIDTH))
      (stackZ s.ww g (T.length + 1) - cfg.BORDER_WIDTH)
      (layoutH cfg s - s.master_size - 2 * cfg.BORDER_WIDTH)
      (stackZ s.ww g (T.length + 1)) T
      (0 + (stackZ s.ww g (T.length + 1) + stackD s.ww g (T.length + 1)))
    obtain ⟨p2, p3⟩ := tileStack_props cfg s.heap BSTACK false
      (panelY cfg s + (s.master_size + cfg.BORDER_WIDTH))
      (stackZ s.ww g (T.length + 1) - cfg.BORDER_WIDTH)
      (layoutH cfg s - s.master_size - 2 * cfg.BORDER_WIDTH)
      (stackZ s.ww g (T.length + 1)) (by simp)
      (by simp only [if_true]; ring) (by simp only [if_true]; exact hk3)
      (by simp only [if_true]; exact hk4) hbw T
      (0 + (stackZ s.ww g (T.length + 1) + stackD s.ww g (T.length + 1)))
    have hall : slotAllot cfg BSTACK (xMoveResizeWindow (s.heap b).win 0
        (panelY cfg s + (s.master_size + cfg.BORDER_WIDTH))
        (stackZ s.ww g (T.length + 1) - cfg.BORDER_WIDTH + stackD s.ww g (T.length + 1))
        (layoutH cfg s - s.master_size - 2 * cfg.BORDER_WIDTH))
        = stackZ s.ww g (T.length + 1) + stackD s.ww g (T.length + 1) := by
      rw [slotAllot_x]
      simp only [if_true]
      rw [toUnsigned_of_range _ hk1 hk2]; ring
    refine ⟨xMoveResizeWindow (s.heap a).win 0 (panelY cfg s)
        (s.ww - cfg.BORDER_WIDTH) (s.master_size - cfg.BORDER_WIDTH),
      xMoveResizeWindow (s.heap b).win 0
        (panelY cfg s + (s.master_size + cfg.BORDER_WIDTH))
        (stackZ s.ww g (T.length + 1) - cfg.BORDER_WIDTH + stackD s.ww g (T.length + 1))
        (layoutH cfg s - s.master_size - 2 * cfg.BORDER_WIDTH)
      :: tileStack s.heap false (panelY cfg s + (s.master_size + cfg.BORDER_WIDTH))
        (stackZ s.ww g (T.length + 1) - cfg.BORDER_WIDTH)
        (layoutH cfg s - s.master_size - 2 * cfg.BORDER_WIDTH)
        (stackZ s.ww g (T.length + 1))
        (0 + (stackZ s.ww g (T.length + 1) + stackD s.ww g (T.length + 1))) T,
      hform, ?_, ?_, ?_, ?_⟩
    · simp only [List.map_cons, movedWindow, xMoveResizeWindow, wins] at p1 ⊢
      rw [p1]
    · rw [hm]
      simp only [if_true, List.map_cons, hall]
      rw [p2]
    · rw [hm]
      simp only [if_true, List.map_cons, hall]
      rw [p2]
      exact hsum _
    · rw [hm]
      simp only [if_true]
      refine ⟨rfl, ?_, ?_⟩
      · rw [hall]; linarith
      · rw [hall]; exact p3

theorem stack_tiles_exactly_witness :
    ring stateABC = some (1 :: 2 :: [3]) ∧ (stateABC.mode = TILE ∨ stateABC.mode = BSTACK) ∧
    0 ≤ defaultConfig.BORDER_WIDTH ∧
    StackSizesOK defaultConfig
      (if stateABC.mode = BSTACK then stateABC.ww else layoutH defaultConfig stateABC) (-50)
      ([3].length + 1) ∧
    ∃ m rs, tile defaultConfig { stateABC with growth := -50 }
        = some (emit { stateABC with growth := -50 } (m :: rs)) ∧
      rs.map movedWindow = (wins stateABC.heap (2 :: [3])).map some ∧
      rs.map (slotAllot defaultConfig stateABC.mode)
        = (stackZ (if stateABC.mode = BSTACK then stateABC.ww else layoutH defaultConfig stateABC)
              (-50) ([3].length + 1)
            + stackD (if stateABC.mode = BSTACK then stateABC.ww
                else layoutH defaultConfig stateABC) (-50) ([3].length + 1))
          :: List.replicate [3].length
              (stackZ (if stateABC.mode = BSTACK then stateABC.ww
                else layoutH defaultConfig stateABC) (-50) ([3].length + 1)) ∧
      (rs.map (slotAllot defaultConfig stateABC.mode)).sum
        = (if stateABC.mode = BSTACK then stateABC.ww else layoutH defaultConfig stateABC) ∧
      Abut (slotStart stateABC.mode) (slotAllot defaultConfig stateABC.mode)
        (if stateABC.mode = BSTACK then 0 else panelY defaultConfig stateABC) rs :=
  ⟨by decide, by decide, by decide, by decide,
    stack_tiles_exactly defaultConfig stateABC 1 2 [3] (-50) (by decide) (by decide)
      (by decide) (by decide)⟩

/-! ## C9: the `TILE` stack formula -/

/-- C9, as stated, fails: with the settings of `config.def.h`, a master and
two stack clients, `ww = 998`, `master_size = 518`, `h = 598` and
`growth = 50`, `tile` allots `324` and `274` to the stack slots, not
`(ww - master_size) / 2 + (ww - master_size) % 2 + growth = 290` and
`(ww - master_size) / 2 = 240`. -/
theorem tile_stack_formula_counterexample : ¬ SpecTileFormula defaultConfig stateABCg := by
  intro h
  have h1 := h 1 2 3 [] (by decide) (by decide)
  revert h1
  decide

/-- C9, amended. In `TILE` mode with `n ≥ 2` stack clients (`n = T.length + 2`)
the space split among the stack slots is the layout height
`h = wh + (showpanel ? 0 : PANEL_HEIGHT)`; when the heights `tile` computes
for the stack windows are values of `unsigned int` (`StackSizesOK`: not
negative, so that X receives the computed height), every stack slot other
than the first is allotted `z = (h - growth) / n` (truncating division) and
the first is allotted `z + (h - growth) % n + growth`. -/
theorem tile_stack_formula (cfg : Config) (s : State) (a b c : Nat) (T : List Nat)
    (hw : ring s = some (a :: b :: c :: T)) (hm : s.mode = TILE)
    (hok : StackSizesOK cfg (layoutH cfg s) s.growth (T.length + 2)) :
    stackAllotments cfg s = some (
      ((layoutH cfg s - s.growth).tdiv ((T.length + 2 : Nat) : Int)
        + ((layoutH cfg s - s.growth).tmod ((T.length + 2 : Nat) : Int) + s.growth))
      :: List.replicate (T.length + 1)
          ((layoutH cfg s - s.growth).tdiv ((T.length + 2 : Nat) : Int))) := by
  have hTB : TILE ≠ BSTACK := by decide
  have hn : (((c :: T).length + 1 : Nat) : Int) > 1 := by
    simp only [List.length_cons]; push_cast; omega
  have hok2 : StackSizesOK cfg (layoutH cfg s) s.growth ((c :: T).length + 1) := hok
  obtain ⟨hk1, hk2, hk3, hk4⟩ := hok2
  have hform := tile_form_TILE cfg { s with out := [] } a b (c :: T) hw hm
  have p2 := tileStack_allot cfg s.heap TILE true
    (s.master_size + cfg.BORDER_WIDTH) (s.ww - s.master_size - 2 * cfg.BORDER_WIDTH)
    (stackZ (layoutH cfg s) s.growth ((c :: T).length + 1) - cfg.BORDER_WIDTH)
    (stackZ (layoutH cfg s) s.growth ((c :: T).length + 1)) (by simp [hTB])
    (by simp only [hTB, if_false]; ring) (by simp only [hTB, if_false]; exact hk3)
    (by simp only [hTB, if_false]; exact hk4) (c :: T)
    (panelY cfg s + (stackZ (layoutH cfg s) s.growth ((c :: T).length + 1)
      + stackD (layoutH cfg s) s.growth ((c :: T).length + 1)))
  have hz : stackZ (layoutH cfg s) s.growth ((c :: T).length + 1)
      = (layoutH cfg s - s.growth).tdiv ((T.length + 2 : Nat) : Int) := by
    unfold stackZ; rw [if_pos hn]; rfl
  have hd : stackD (layoutH cfg s) s.growth ((c :: T).length + 1)
      = (layoutH cfg s - s.growth).tmod ((T.length + 2 : Nat) : Int) + s.growth := by
    unfold stackD; rw [if_pos hn]; rfl
  unfold stackAllotments
  rw [hform]
  show some (List.map (slotAllot cfg s.mode) (List.drop 1 ([] ++ _))) = _
  rw [List.nil_append, List.drop_one, List.tail_cons, List.map_cons, hm]
  have p2' : List.map (slotAllot cfg TILE) (tileStack s.heap true
      (s.master_size + cfg.BORDER_WIDTH) (s.ww - s.master_size - 2 * cfg.BORDER_WIDTH)
      (stackZ (layoutH cfg s) s.growth ((c :: T).length + 1) - cfg.BORDER_WIDTH)
      (stackZ (layoutH cfg s) s.growth ((c :: T).length + 1))
      (panelY cfg s + (stackZ (layoutH cfg s) s.growth ((c :: T).length + 1)
        + stackD (layoutH cfg s) s.growth ((c :: T).length + 1))) (c :: T))
      = List.replicate (T.length + 1) (stackZ (layoutH cfg s) s.growth ((c :: T).length + 1)) :=
    p2
  have hfirst : slotAllot cfg TILE (xMoveResizeWindow (s.heap b).win
      (s.master_size + cfg.BORDER_WIDTH) (panelY cfg s)
      (s.ww - s.master_size - 2 * cfg.BORDER_WIDTH)
      (stackZ (layoutH cfg s) s.growth ((c :: T).length + 1) - cfg.BORDER_WIDTH
        + stackD (layoutH cfg s) s.growth ((c :: T).length + 1)))
      = stackZ (layoutH cfg s) s.growth ((c :: T).length + 1)
        + stackD (layoutH cfg s) s.growth ((c :: T).length + 1) := by
    rw [slotAllot_x]
    simp only [hTB, if_false]
    rw [toUnsigned_of_range _ hk1 hk2]; ring
  refine congrArg some ?_
  refine (congrArg₂ List.cons hfirst p2').trans ?_
  rw [hz, hd]

theorem tile_stack_formula_witness :
    ring stateABCg = some (1 :: 2 :: 3 :: []) ∧ stateABCg.mode = TILE ∧
    StackSizesOK defaultConfig (layoutH defaultConfig stateABCg) stateABCg.growth
      (([] : List Nat).length + 2) ∧
    stackAllotments defaultConfig stateABCg = some (
      ((layoutH defaultConfig stateABCg - stateABCg.growth).tdiv
          ((([] : List Nat).length + 2 : Nat) : Int)
        + ((layoutH defaultConfig stateABCg - stateABCg.growth).tmod
            ((([] : List Nat).length + 2 : Nat) : Int) + stateABCg.growth))
      :: List.replicate (([] : List Nat).length + 1)
          ((layoutH defaultConfig stateABCg - stateABCg.growth).tdiv
            ((([] : List Nat).length + 2 : Nat) : Int))) :=
  ⟨by decide, by decide, by decide,
    tile_stack_formula defaultConfig stateABCg 1 2 3 [] (by decide) (by decide) (by decide)⟩

/-! ## C10: `BSTACK` is `TILE` with the axes swapped -/

theorem tileStack_swap (h : Heap) (p fixed cw ch z : Int) (T : List Nat) :
    ∀ posB posT, posB = posT - p →
      tileStack h false (p + fixed) ch cw z posB T
        = (tileStack h true fixed cw ch z posT T).map (swapAxes p) := by
  induction T with
  | nil => intro _ _ _; rfl
  | cons c T ih =>
    intro posB posT hpos
    simp only [tileStack, Bool.false_eq_true, if_false, if_true, List.map_cons, swapAxes,
      xMoveResizeWindow]
    rw [ih (posB + z) (posT + z) (by rw [hpos]; ring), hpos, add_comm fixed p]

/-- C10. `BSTACK` is `TILE` with the axes swapped: on a ring of at least two
clients, for every `master_size`, `growth`, work-area width `W` and layout
height `H` (`h = wh + (showpanel ? 0 : PANEL_HEIGHT)`), the calls that
`tile` emits in `BSTACK` mode with `ww = W`, `h = H` are, client by client,
the calls it emits in `TILE` mode with `ww = H`, `h = W`, with `x` exchanged
with `y - panel offset` and `width` exchanged with `height`. -/
theorem bstack_is_tile_swapped (cfg : Config) (s : State) (a b : Nat) (T : List Nat)
    (W H : Int) (hw : ring s = some (a :: b :: T)) :
    ∃ cs,
      (tile cfg (withArea cfg s TILE H W)).map State.out = some cs ∧
      (tile cfg (withArea cfg s BSTACK W H)).map State.out
        = some (cs.map (swapAxes (panelY cfg s))) ∧
      cs.map movedWindow = (wins s.heap (a :: b :: T)).map some := by
  have hT := tile_form_TILE cfg (withArea cfg s TILE H W) a b T hw rfl
  have hB := tile_form_BSTACK cfg (withArea cfg s BSTACK W H) a b T hw rfl
  have hHT : layoutH cfg (withArea cfg s TILE H W) = W := by
    simp [layoutH, withArea]
  have hHB : layoutH cfg (withArea cfg s BSTACK W H) = H := by
    simp [layoutH, withArea]
  have hPT : panelY cfg (withArea cfg s TILE H W) = panelY cfg s := rfl
  have hPB : panelY cfg (withArea cfg s BSTACK W H) = panelY cfg s := rfl
  rw [hHT, hPT] at hT
  rw [hHB, hPB] at hB
  rw [hT, hB]
  have p1 := tileStack_windows s.heap true
    (s.master_size + cfg.BORDER_WIDTH) (H - s.master_size - 2 * cfg.BORDER_WIDTH)
    (stackZ W s.growth (T.length + 1) - cfg.BORDER_WIDTH)
    (stackZ W s.growth (T.length + 1)) T
    (panelY cfg s + (stackZ W s.growth (T.length + 1) + stackD W s.growth (T.length + 1)))
  refine ⟨_, rfl, ?_, ?_⟩
  · refine congrArg some ?_
    simp only [emit, withArea, List.nil_append, List.map_cons, swapAxes, xMoveResizeWindow]
    rw [← tileStack_swap s.heap (panelY cfg s) (s.master_size + cfg.BORDER_WIDTH)
      (H - s.master_size - 2 * cfg.BORDER_WIDTH)
      (stackZ W s.growth (T.length + 1) - cfg.BORDER_WIDTH) (stackZ W s.growth (T.length + 1)) T
      (0 + (stackZ W s.growth (T.length + 1) + stackD W s.growth (T.length + 1)))
      (panelY cfg s + (stackZ W s.growth (T.length + 1) + stackD W s.growth (T.length + 1)))
      (by ring)]
    simp only [sub_self, zero_add, add_comm (s.master_size + cfg.BORDER_WIDTH) (panelY cfg s)]
  · simp only [emit, withArea, List.nil_append, List.map_cons, movedWindow, xMoveResizeWindow,
      wins] at p1 ⊢
    rw [p1]

theorem bstack_is_tile_swapped_witness :
    ring stateABCg = some (1 :: 2 :: [3]) ∧
    ∃ cs,
      (tile defaultConfig (withArea defaultConfig stateABCg TILE 598 998)).map State.out
        = some cs ∧
      (tile defaultConfig (withArea defaultConfig stateABCg BSTACK 998 598)).map State.out
        = some (cs.map (swapAxes (panelY defaultConfig stateABCg))) ∧
      cs.map movedWindow = (wins stateABCg.heap (1 :: 2 :: [3])).map some :=
  ⟨by decide, bstack_is_tile_swapped defaultConfig stateABCg 1 2 [3] 998 598 (by decide)⟩

/-! ## C2: a window destroyed on a desktop that is not the active one -/

/-- C2 at its failing input.  `stateTwo` is well formed: desktop 0 is active
with ring `[1]` (window 100) and desktop 1 holds ring `[2]` (window 200).
After `destroynotify` for window 200, `wintoclient` has found the client on
desktop 1 but `removeclient` has unlinked it against the live ring of desktop
0: window 200 is still on the ring of desktop 1, and on the active desktop
`current` and `head->prev` are now the cell of window 200, which is not on
its ring `[1]`. -/
theorem destroynotify_inactive_desktop :
    StateOK defaultConfig stateTwo ringsTwo ∧ stateTwo.current_desktop = 0 ∧
    (ringOf stateTwo 1).map (wins stateTwo.heap) = some [200] ∧
    (destroynotify defaultConfig 200 stateTwo).map (fun t =>
        (t.current_desktop, ringOf t 0, ringOf t 1, (ringOf t 1).map (wins t.heap)))
      = some (0, some [1], some [2], some [200]) ∧
    (destroynotify defaultConfig 200 stateTwo).map (fun t =>
        (t.current, (t.heap t.head).prev, (view t 1).head))
      = some (2, 2, 2) :=
  ⟨⟨by decide, by decide, by decide, by decide,
      fun d hd => by
        have hd4 : d < 4 := hd
        interval_cases d <;> decide⟩,
    by decide, by decide, by decide, by decide⟩

/-! ## C11: the column count of `GRID` -/

theorem gridCols_spec (n : Int) :
    ∀ (fuel : Nat) (cols : Int), 0 ≤ cols → cols ≤ n.tdiv 2 + 1 →
      n.tdiv 2 + 1 ≤ cols + (fuel : Int) →
      (∀ k : Int, 0 ≤ k → k < cols → k * k < n) →
      (∀ k : Int, 0 ≤ k → k < gridCols n fuel cols → k * k < n) ∧
      (n ≤ gridCols n fuel cols * gridCols n fuel cols ∨ gridCols n fuel cols = n.tdiv 2 + 1) := by
  intro fuel
  induction fuel with
  | zero =>
    intro cols _ h1 h2 hlt
    simp only [gridCols]
    refine ⟨hlt, Or.inr ?_⟩
    simp at h2
    omega
  | succ fuel ih =>
    intro cols h0 h1 h2 hlt
    unfold gridCols
    by_cases hc : cols ≤ n.tdiv 2
    · rw [if_pos hc]
      by_cases hsq : cols * cols ≥ n
      · rw [if_pos hsq]
        exact ⟨hlt, Or.inl hsq⟩
      · rw [if_neg hsq]
        refine ih (cols + 1) (by omega) (by omega) (by push_cast at h2; omega) ?_
        intro k hk0 hk
        by_cases hkc : k < cols
        · exact hlt k hk0 hkc
        · have : k = cols := by omega
          subst this
          omega
    · rw [if_neg hc]
      exact ⟨hlt, Or.inr (by omega)⟩

theorem tile_form_GRID (cfg : Config) (s : State) (a b : Nat) (T : List Nat)
    (hw : walk s.heap s.brk s.head = some (a :: b :: T)) (hm : s.mode = GRID) :
    tile cfg s =
      match tileGrid cfg s.heap (panelY cfg s) (layoutH cfg s) (((a :: b :: T).length : Nat) : Int)
          (gridColumns (((a :: b :: T).length : Nat) : Int))
          (s.ww.tdiv (gridColumns (((a :: b :: T).length : Nat) : Int)))
          ((((a :: b :: T).length : Nat) : Int).tdiv
            (gridColumns (((a :: b :: T).length : Nat) : Int))) 0 0 0 (a :: b :: T) with
      | none => none
      | some calls => some (emit s calls) := by
  obtain ⟨hh, ha0, hwT⟩ := walk_cons_inv _ _ _ _ _ hw
  obtain ⟨hb, hb0, _⟩ := walk_cons_inv _ _ _ _ _ hwT
  have hwb : walk s.heap s.brk b = some (b :: T) := hb ▸ hwT
  have hwa : walk s.heap s.brk a = some (a :: b :: T) := hh ▸ hw
  have hGM : GRID ≠ MONOCLE := by decide
  have hGT : GRID ≠ TILE := by decide
  have hGB : GRID ≠ BSTACK := by decide
  have hlen : (((b :: T).length : Nat) : Int) + 1 = (((a :: b :: T).length : Nat) : Int) := by
    simp only [List.length_cons]; push_cast; ring
  have hn2 : (2 : Int) ≤ (((a :: b :: T).length : Nat) : Int) := by
    simp only [List.length_cons]; push_cast; omega
  generalize hn : (((a :: b :: T).length : Nat) : Int) = n at hlen hn2 ⊢
  have hc1 : 1 ≤ gridCols n (n.tdiv 2).toNat.succ 0 := gridCols_pos n (by omega) _
  have hcols0 : (if n = 5 then 2 else gridCols n (n.tdiv 2).toNat.succ 0) ≠ 0 := by
    split <;> omega
  unfold tile gridColumns
  simp only [hh, ha0, if_false, hwb, hb, hb0, hm, hGM, hGT, hGB, or_self, if_true, hwa, hlen,
    ne_eq, hcols0, not_false_eq_true, layoutH, panelY]

/-- C11. `GRID` column count: for every client count `n ≥ 2`, on a ring of
`n` clients in `GRID` mode `tile` lays the clients out with `cols =
gridColumns n` (the value its loop bounded by `n/2` leaves, with the
override for `n = 5`); for `n ≠ 5` this is the smallest non-negative integer
whose square is at least `n`, and for `n = 5` it is `2`. -/
theorem grid_column_count (n : Int) (hn : 2 ≤ n) :
    (∀ (cfg : Config) (s : State) (a b : Nat) (T : List Nat),
      ring s = some (a :: b :: T) → (((a :: b :: T).length : Nat) : Int) = n → s.mode = GRID →
      tile cfg s =
        match tileGrid cfg s.heap (panelY cfg s) (layoutH cfg s) n (gridColumns n)
            (s.ww.tdiv (gridColumns n)) (n.tdiv (gridColumns n)) 0 0 0 (a :: b :: T) with
        | none => none
        | some calls => some (emit s calls)) ∧
    (n ≠ 5 → 0 ≤ gridColumns n ∧ n ≤ gridColumns n * gridColumns n ∧
      ∀ k : Int, 0 ≤ k → n ≤ k * k → gridColumns n ≤ k) ∧
    (n = 5 → gridColumns n = 2) := by
  refine ⟨?_, ?_, ?_⟩
  · intro cfg s a b T hw hlen hm
    rw [tile_form_GRID cfg s a b T hw hm, hlen]
  · intro h5
    have hq : n.tdiv 2 = n / 2 := Int.tdiv_eq_ediv (by omega) (by omega)
    have hq0 : 0 ≤ n.tdiv 2 := by rw [hq]; omega
    obtain ⟨hmin, hsq⟩ := gridCols_spec n (n.tdiv 2).toNat.succ 0 (le_refl _) (by omega)
      (by simp only [Nat.succ_eq_add_one]; push_cast; omega)
      (fun k hk0 hk => by omega)
    have hge := gridCols_ge n (n.tdiv 2).toNat.succ 0
    unfold gridColumns
    rw [if_neg h5]
    refine ⟨hge, ?_, ?_⟩
    · rcases hsq with h | h
      · exact h
      · rw [h]
        have h2 : n ≤ 2 * n.tdiv 2 + 1 := by rw [hq]; omega
        nlinarith [mul_self_nonneg (n.tdiv 2)]
    · intro k hk0 hk
      by_contra hlt
      have := hmin k hk0 (by omega)
      omega
  · intro h5
    unfold gridColumns
    rw [if_pos h5]

theorem grid_column_count_witness :
    (2 : Int) ≤ 7 ∧
    ((∀ (cfg : Config) (s : State) (a b : Nat) (T : List Nat),
      ring s = some (a :: b :: T) → (((a :: b :: T).length : Nat) : Int) = 7 → s.mode = GRID →
      tile cfg s =
        match tileGrid cfg s.heap (panelY cfg s) (layoutH cfg s) 7 (gridColumns 7)
            (s.ww.tdiv (gridColumns 7)) ((7 : Int).tdiv (gridColumns 7)) 0 0 0 (a :: b :: T) with
        | none => none
        | some calls => some (emit s calls)) ∧
    ((7 : Int) ≠ 5 → 0 ≤ gridColumns 7 ∧ 7 ≤ gridColumns 7 * gridColumns 7 ∧
      ∀ k : Int, 0 ≤ k → 7 ≤ k * k → gridColumns 7 ≤ k) ∧
    ((7 : Int) = 5 → gridColumns 7 = 2)) :=
  ⟨by decide, grid_column_count 7 (by decide)⟩

/-! ## C12: one client, `MONOCLE`, and the empty ring -/

theorem tile_single (cfg : Config) (s : State) (a : Nat)
    (hw : walk s.heap s.brk s.head = some [a]) :
    tile cfg s = some (emit s [fullRect cfg s a]) := by
  obtain ⟨hh, ha0, hwT⟩ := walk_cons_inv _ _ _ _ _ hw
  have hn := walk_nil_inv _ _ _ hwT
  have hwa : walk s.heap s.brk a = some [a] := hh ▸ hw
  unfold tile
  simp only [hh, ha0, if_false, hn, walk_zero, true_or, if_true, hwa, List.map_cons,
    List.map_nil, fullRect, layoutH, panelY]

theorem tile_monocle (cfg : Config) (s : State) (L : List Nat)
    (hw : walk s.heap s.brk s.head = some L) (hm : s.mode = MONOCLE) :
    tile cfg s = some (emit s (L.map (fullRect cfg s))) := by
  cases L with
  | nil =>
    have hh := walk_nil_inv _ _ _ hw
    simp [tile, hh, emit_nil]
  | cons a T =>
    obtain ⟨hh, ha0, hwT⟩ := walk_cons_inv _ _ _ _ _ hw
    have hwa : walk s.heap s.brk a = some (a :: T) := hh ▸ hw
    unfold tile
    simp only [hh, ha0, if_false, hwT, hm, or_true, if_true, hwa]
    rfl

theorem tile_empty (cfg : Config) (s : State) (hw : walk s.heap s.brk s.head = some []) :
    tile cfg s = some s := by
  have hh := walk_nil_inv _ _ _ hw
  simp [tile, hh]

/-- C12. Single-client and `MONOCLE` geometry: on a ring with exactly one
client `tile` emits one call, the rectangle `x = 0`, `y = panel offset`,
`width = ww + 2*BORDER_WIDTH`, `height = h + 2*BORDER_WIDTH`, the same under
every mode (`TILE`, `MONOCLE`, `BSTACK`, `GRID` among them); in `MONOCLE`
with any number of clients it emits that rectangle for every client, in ring
order; on an empty ring it returns the state unchanged, emitting nothing.
The two sizes are passed as `unsigned int`: when they are not negative and
below `2^32`, X receives exactly `ww + 2*BORDER_WIDTH` and
`h + 2*BORDER_WIDTH`. -/
theorem single_and_monocle_geometry (cfg : Config) (s : State) :
    (∀ a m, ring s = some [a] →
      tile cfg { s with mode := m } = some (emit { s with mode := m }
        [xMoveResizeWindow (s.heap a).win 0 (panelY cfg s)
          (s.ww + 2 * cfg.BORDER_WIDTH) (layoutH cfg s + 2 * cfg.BORDER_WIDTH)])) ∧
    (∀ L, ring s = some L → s.mode = MONOCLE →
      tile cfg s = some (emit s (L.map fun c =>
        xMoveResizeWindow (s.heap c).win 0 (panelY cfg s)
          (s.ww + 2 * cfg.BORDER_WIDTH) (layoutH cfg s + 2 * cfg.BORDER_WIDTH)))) ∧
    (ring s = some [] → tile cfg s = some s) ∧
    (0 ≤ s.ww + 2 * cfg.BORDER_WIDTH → s.ww + 2 * cfg.BORDER_WIDTH < 4294967296 →
      0 ≤ layoutH cfg s + 2 * cfg.BORDER_WIDTH →
      layoutH cfg s + 2 * cfg.BORDER_WIDTH < 4294967296 →
      ∀ c, xMoveResizeWindow (s.heap c).win 0 (panelY cfg s)
          (s.ww + 2 * cfg.BORDER_WIDTH) (layoutH cfg s + 2 * cfg.BORDER_WIDTH)
        = XCall.XMoveResizeWindow (s.heap c).win 0 (panelY cfg s)
          (s.ww + 2 * cfg.BORDER_WIDTH) (layoutH cfg s + 2 * cfg.BORDER_WIDTH)) :=
  ⟨fun a m hw => tile_single cfg { s with mode := m } a hw,
   fun L hw hm => tile_monocle cfg s L hw hm,
   fun hw => tile_empty cfg s hw,
   fun h0 h1 h2 h3 _ => xMoveResizeWindow_of_range _ _ _ _ _ h0 h1 h2 h3⟩

theorem single_and_monocle_geometry_witness :
    ring stateA = some [1] ∧
    tile defaultConfig { stateA with mode := GRID } = some (emit { stateA with mode := GRID }
      [xMoveResizeWindow (stateA.heap 1).win 0 (panelY defaultConfig stateA)
        (stateA.ww + 2 * defaultConfig.BORDER_WIDTH)
        (layoutH defaultConfig stateA + 2 * defaultConfig.BORDER_WIDTH)]) ∧
    (tile defaultConfig { stateA with mode := GRID }).map
      (fun t => t.out.drop stateA.out.length) = some [XCall.XMoveResizeWindow 100 0 18 1002 602] :=
  ⟨by decide, (single_and_monocle_geometry defaultConfig stateA).1 1 GRID (by decide),
    by decide⟩

/-! ## C13: an unrecognized layout mode -/

theorem emit_cancel (s : State) (xs ys : List XCall) (h : emit s xs = emit s ys) : xs = ys := by
  have := congrArg State.out h
  simp only [emit] at this
  exact List.append_cancel_left this

/-- C13, as stated, fails: on the one-client ring of `stateA` under the
unknown mode 7, `tile` emits the full-area move-resize call for the client. -/
theorem unknown_mode_counterexample : ¬ SpecNoGeometry defaultConfig stateA7 := by
  intro h
  obtain ⟨cs, hcs, hno⟩ := h [1] (by decide) (by decide) (by decide) (by decide) (by decide)
    (by decide)
  rw [tile_single defaultConfig stateA7 1 (by decide)] at hcs
  have hcs' := emit_cancel _ _ _ (Option.some.inj hcs)
  have := hno (fullRect defaultConfig stateA7 1) (by rw [← hcs']; simp)
  simp [fullRect, xMoveResizeWindow, movedWindow] at this

/-- C13, amended. On every ring of at least two clients and under every mode
outside `TILE`, `MONOCLE`, `BSTACK`, `GRID`, `tile` returns and emits only
the error message for the mode: no move-resize call, so window positions
stay as they are.  On a ring of exactly one client `tile` emits the full-area
rectangle for that client whatever the mode is, and on an empty ring it
returns the state unchanged. -/
theorem unknown_mode_no_geometry (cfg : Config) (s : State) (a b : Nat) (T : List Nat)
    (hw : ring s = some (a :: b :: T)) (hT : s.mode ≠ TILE) (hM : s.mode ≠ MONOCLE)
    (hB : s.mode ≠ BSTACK) (hG : s.mode ≠ GRID) :
    tile cfg s = some (emit s [XCall.noSuchLayout s.mode]) ∧
    (∀ c ∈ [XCall.noSuchLayout s.mode], movedWindow c = none) ∧
    (∀ (s1 : State) (a1 : Nat), ring s1 = some [a1] →
      tile cfg s1 = some (emit s1 [fullRect cfg s1 a1]) ∧
      movedWindow (fullRect cfg s1 a1) = some (s1.heap a1).win) ∧
    (∀ s1 : State, ring s1 = some [] → tile cfg s1 = some s1) := by
  refine ⟨?_, fun c hc => by simp at hc; subst hc; rfl,
    fun s1 a1 h1 => ⟨tile_single cfg s1 a1 h1, rfl⟩, fun s1 h1 => tile_empty cfg s1 h1⟩
  obtain ⟨hh, ha0, hwT⟩ := walk_cons_inv _ _ _ _ _ hw
  obtain ⟨hb, hb0, _⟩ := walk_cons_inv _ _ _ _ _ hwT
  have hwb : walk s.heap s.brk b = some (b :: T) := hb ▸ hwT
  unfold tile
  simp only [hh, ha0, if_false, hwb, hb, hb0, hT, hM, hB, hG, or_self]

theorem unknown_mode_no_geometry_witness :
    ring stateABC7 = some (1 :: 2 :: [3]) ∧ stateABC7.mode ≠ TILE ∧ stateABC7.mode ≠ MONOCLE ∧
    stateABC7.mode ≠ BSTACK ∧ stateABC7.mode ≠ GRID ∧
    tile defaultConfig stateABC7 = some (emit stateABC7 [XCall.noSuchLayout stateABC7.mode]) ∧
    (∀ c ∈ [XCall.noSuchLayout stateABC7.mode], movedWindow c = none) ∧
    (∀ (s1 : State) (a1 : Nat), ring s1 = some [a1] →
      tile defaultConfig s1 = some (emit s1 [fullRect defaultConfig s1 a1]) ∧
      movedWindow (fullRect defaultConfig s1 a1) = some (s1.heap a1).win) ∧
    (∀ s1 : State, ring s1 = some [] → tile defaultConfig s1 = some s1) :=
  ⟨by decide, by decide, by decide, by decide, by decide,
    unknown_mode_no_geometry defaultConfig stateABC7 1 2 [3] (by decide) (by decide) (by decide)
      (by decide) (by decide)⟩

/-! ## C14: the bounds of `resize_master` -/

theorem ring_next (h : Heap) (brk hd c : Nat) (L1 L2 : List Nat)
    (hok : RingOK h brk hd (L1 ++ c :: L2)) : (h c).next = L2.headD 0 := by
  have hsuf : Chain h c (c :: L2) := chain_suffix _ _ _ _ _ hok.1
  cases L2 with
  | nil => exact hsuf.2.2
  | cons n L2 => exact hsuf.2.2.1

theorem ring_prev (h : Heap) (brk hd c : Nat) (L1 L2 : List Nat)
    (hok : RingOK h brk hd (L1 ++ c :: L2)) : (h c).prev = lastOr (lastOr c L2) L1 := by
  have hp := (prevLinks_append h L1 (c :: L2) _).1 hok.2.1
  rw [lastOr_append_cons] at hp
  exact hp.2.1

theorem ring_head_prev_ne (h : Heap) (brk hd : Nat) (L : List Nat) (hok : RingOK h brk hd L)
    (hlen : 2 ≤ L.length) : hd ≠ 0 ∧ (h hd).prev ≠ hd := by
  cases L with
  | nil => simp at hlen
  | cons x T =>
    obtain ⟨hx, hx0, _, hxp, hxT, _, _⟩ := ringOK_head_cons _ _ _ _ _ hok
    have hT : T ≠ [] := by
      intro e; subst e; simp at hlen
    refine ⟨hx ▸ hx0, ?_⟩
    rw [hx, hxp]
    intro e
    exact hxT (e ▸ lastOr_mem_of_ne_nil x T hT)

theorem ring_head_prev_single (h : Heap) (brk hd a : Nat) (hok : RingOK h brk hd [a]) :
    hd ≠ 0 ∧ (h hd).prev = hd := by
  obtain ⟨hx, hx0, _, hxp, _, _, _⟩ := ringOK_head_cons _ _ _ _ _ hok
  exact ⟨hx ▸ hx0, by rw [hx, hxp]; rfl⟩

theorem next_win_step (cfg : Config) (s : State) (L : List Nat)
    (hw : walk s.heap s.brk s.head = some L) (hc : s.current ≠ 0) (hh : s.head ≠ 0)
    (hne : (s.heap s.head).prev ≠ s.head) :
    ∃ cs, next_win cfg s = some (emit { s with current :=
      if (s.heap s.current).next ≠ 0 then (s.heap s.current).next else s.head } cs) := by
  obtain ⟨heap, brk, showpanel, cd, pd, growth, mode, ms, wh, ww, wf, wu, head, current, ds, out⟩ := s
  simp only at hw hc hh hne
  have hn : (if (heap current).next ≠ 0 then (heap current).next else head) ≠ 0 := by
    split
    · assumption
    · exact hh
  unfold next_win
  simp only [hc, hh, hne, if_false]
  by_cases hM : mode = MONOCLE
  · subst hM
    simp only [emit, hn, if_false, if_true, eq_self_iff_true]
    refine Exists.elim (update_current_total cfg _ L ?hw ?hh) (fun cs h => ⟨?w, h.trans ?e⟩)
    case hw => exact hw
    case hh => exact fun _ => hh
    case w =>
      exact [XCall.XUnmapWindow (heap current).win,
        XCall.XMapWindow (heap (if (heap current).next ≠ 0 then (heap current).next
          else head)).win] ++ cs
    case e => simp [emit]
  · simp only [hM, if_false]
    refine Exists.elim (update_current_total cfg _ L ?hw ?hh) (fun cs h => ⟨?w, h.trans ?e⟩)
    case hw => exact hw
    case hh => exact fun _ => hh
    case w => exact cs
    case e => rfl

theorem next_win_ring (cfg : Config) (s : State) (L1 L2 : List Nat) (c : Nat)
    (hok : RingOK s.heap s.brk s.head (L1 ++ c :: L2)) (hcur : s.current = c)
    (hlen : 2 ≤ (L1 ++ c :: L2).length) :
    ∃ cs, next_win cfg s
      = some (emit { s with current := (L2 ++ L1 ++ [c]).headD 0 } cs) := by
  have hc0 : c ≠ 0 := fun e =>
    seg_not_mem_zero _ _ _ _ hok.1 (e ▸ List.mem_append_right L1 (List.mem_cons_self c L2))
  obtain ⟨hh, hne⟩ := ring_head_prev_ne _ _ _ _ hok hlen
  obtain ⟨cs, hcs⟩ := next_win_step cfg s _ (walk_of_ringOK _ _ _ _ hok) (hcur ▸ hc0) hh hne
  refine ⟨cs, ?_⟩
  rw [hcs, hcur, ring_next _ _ _ _ _ _ hok]
  have hhead : s.head = (L1 ++ c :: L2).headD 0 := by
    cases hL : L1 ++ c :: L2 with
    | nil => simp at hL
    | cons x T => rw [hL] at hok; exact hok.1.1
  cases L2 with
  | nil =>
    simp only [List.headD_nil, ne_eq, not_true_eq_false, if_false, List.nil_append]
    rw [hhead]
  | cons n L2 =>
    have hn0 : n ≠ 0 := fun e => seg_not_mem_zero _ _ _ _ hok.1
      (e ▸ List.mem_append_right L1 (List.mem_cons_of_mem c (List.mem_cons_self n L2)))
    simp only [List.headD_cons, ne_eq, hn0, not_false_eq_true, if_true, List.cons_append]

theorem prev_win_ring (cfg : Config) (s : State) (L1 L2 : List Nat) (c : Nat)
    (hok : RingOK s.heap s.brk s.head (L1 ++ c :: L2)) (hcur : s.current = c)
    (hlen : 2 ≤ (L1 ++ c :: L2).length) :
    ∃ cs, prev_win cfg s
      = some (emit { s with current := lastOr (lastOr c L2) L1 } cs) := by
  have h0 := seg_not_mem_zero _ _ _ _ hok.1
  have hc0 : c ≠ 0 := fun e => h0 (e ▸ List.mem_append_right L1 (List.mem_cons_self c L2))
  obtain ⟨hh, hne⟩ := ring_head_prev_ne _ _ _ _ hok hlen
  have hp := ring_prev _ _ _ _ _ _ hok
  have hp0 : (s.heap s.current).prev ≠ 0 := by
    rw [hcur, hp]
    intro e
    have hm : lastOr (lastOr c L2) L1 ∈ L1 ++ c :: L2 := by
      cases L1 with
      | nil => exact lastOr_mem c L2
      | cons x L1 => exact List.mem_append_left _ (lastOr_mem x L1)
    exact h0 (e ▸ hm)
  obtain ⟨cs, hcs⟩ := prev_win_step cfg s _ (walk_of_ringOK _ _ _ _ hok) (hcur ▸ hc0) hh hne hp0
  exact ⟨cs, by rw [hcs, hcur, hp]⟩

theorem next_then_prev (cfg : Config) (s : State) (L1 L2 : List Nat) (c : Nat)
    (hok : RingOK s.heap s.brk s.head (L1 ++ c :: L2)) (hcur : s.current = c)
    (hlen : 2 ≤ (L1 ++ c :: L2).length) :
    ∃ t u, next_win cfg s = some t ∧ prev_win cfg t = some u ∧ u.current = c ∧
      t.heap = s.heap ∧ t.head = s.head ∧ u.heap = s.heap ∧ u.head = s.head := by
  obtain ⟨cs, hn⟩ := next_win_ring cfg s L1 L2 c hok hcur hlen
  cases L2 with
  | nil =>
    cases L1 with
    | nil => simp at hlen
    | cons x L1 =>
      have hok2 : RingOK s.heap s.brk s.head ([] ++ x :: (L1 ++ [c])) := hok
      have hq : (([] : List Nat) ++ (x :: L1) ++ [c]).headD 0 = x := rfl
      obtain ⟨cs2, hp⟩ := prev_win_ring cfg
        (emit { s with current := (([] : List Nat) ++ (x :: L1) ++ [c]).headD 0 } cs) [] (L1 ++ [c]) x
        hok2 hq (by simp)
      refine ⟨_, _, hn, hp, ?_, rfl, rfl, rfl, rfl⟩
      show lastOr (lastOr x (L1 ++ [c])) [] = c
      rw [lastOr_nil, lastOr_append_cons]; rfl
  | cons n L2 =>
    have hok2 : RingOK s.heap s.brk s.head ((L1 ++ [c]) ++ n :: L2) := by
      rw [List.append_assoc]; exact hok
    have hq : (n :: L2 ++ L1 ++ [c]).headD 0 = n := rfl
    obtain ⟨cs2, hp⟩ := prev_win_ring cfg
      (emit { s with current := (n :: L2 ++ L1 ++ [c]).headD 0 } cs) (L1 ++ [c]) L2 n
      hok2 hq (by simp; omega)
    refine ⟨_, _, hn, hp, ?_, rfl, rfl, rfl, rfl⟩
    show lastOr (lastOr n L2) (L1 ++ [c]) = c
    rw [lastOr_append_cons]; rfl

theorem prev_then_next (cfg : Config) (s : State) (L1 L2 : List Nat) (c : Nat)
    (hok : RingOK s.heap s.brk s.head (L1 ++ c :: L2)) (hcur : s.current = c)
    (hlen : 2 ≤ (L1 ++ c :: L2).length) :
    ∃ t u, prev_win cfg s = some t ∧ next_win cfg t = some u ∧ u.current = c ∧
      t.heap = s.heap ∧ t.head = s.head ∧ u.heap = s.heap ∧ u.head = s.head := by
  obtain ⟨cs, hp⟩ := prev_win_ring cfg s L1 L2 c hok hcur hlen
  rcases List.eq_nil_or_concat L1 with h1 | ⟨I, p, h1⟩
  · subst h1
    rcases List.eq_nil_or_concat L2 with h2 | ⟨J, q, h2⟩
    · subst h2; simp at hlen
    · rw [List.concat_eq_append] at h2
      subst h2
      have hq : lastOr (lastOr c (J ++ [q])) [] = q := by
        rw [lastOr_nil, lastOr_append_cons]; rfl
      have hok2 : RingOK s.heap s.brk s.head ((c :: J) ++ q :: []) := hok
      obtain ⟨cs2, hn⟩ := next_win_ring cfg
        (emit { s with current := lastOr (lastOr c (J ++ [q])) [] } cs) (c :: J) [] q
        hok2 hq (by simp)
      exact ⟨_, _, hp, hn, rfl, rfl, rfl, rfl, rfl⟩
  · rw [List.concat_eq_append] at h1
    subst h1
    have hq : lastOr (lastOr c L2) (I ++ [p]) = p := by
      rw [lastOr_append_cons]; rfl
    have hok2 : RingOK s.heap s.brk s.head (I ++ p :: (c :: L2)) := by
      rw [List.append_assoc] at hok; exact hok
    obtain ⟨cs2, hn⟩ := next_win_ring cfg
      (emit { s with current := lastOr (lastOr c L2) (I ++ [p]) } cs) I (c :: L2) p
      hok2 hq (by simp; omega)
    exact ⟨_, _, hp, hn, rfl, rfl, rfl, rfl, rfl⟩

/-- C15. Focus advance round trip: on a well-formed ring `L` with `current`
on it, when `L` has at least two clients `next_win` followed by `prev_win`,
and `prev_win` followed by `next_win`, return and bring `current` back to the
element it was, leaving heap and head (hence the ring) as they were;
`next_win` moves `current` to its successor and from the last element wraps
to the first, `prev_win` moves it to its predecessor and from the first wraps
to the last; on a ring with at most one client both return the state
unchanged. -/
theorem focus_advance_round_trip (cfg : Config) (s : State) (L : List Nat)
    (hok : RingOK s.heap s.brk s.head L) (hcur : CurOK s.current L) :
    (2 ≤ L.length →
      (∃ t u, next_win cfg s = some t ∧ prev_win cfg t = some u ∧ u.current = s.current ∧
        t.heap = s.heap ∧ t.head = s.head ∧ u.heap = s.heap ∧ u.head = s.head) ∧
      (∃ t u, prev_win cfg s = some t ∧ next_win cfg t = some u ∧ u.current = s.current ∧
        t.heap = s.heap ∧ t.head = s.head ∧ u.heap = s.heap ∧ u.head = s.head) ∧
      (∀ L1 n L2, L = L1 ++ s.current :: n :: L2 →
        ∃ t, next_win cfg s = some t ∧ t.current = n) ∧
      (∀ L1 p L2, L = L1 ++ p :: s.current :: L2 →
        ∃ t, prev_win cfg s = some t ∧ t.current = p) ∧
      (∀ I, L = I ++ [s.current] → ∃ t, next_win cfg s = some t ∧ t.current = s.head) ∧
      (∀ T, L = s.current :: T →
        ∃ t, prev_win cfg s = some t ∧ t.current = L.getLastD 0)) ∧
    (L.length ≤ 1 → next_win cfg s = some s ∧ prev_win cfg s = some s) := by
  constructor
  · intro hlen
    have hne : L ≠ [] := by intro e; subst e; simp at hlen
    have hc0 : s.current ≠ 0 := fun e => hne (hcur.1.1 e)
    obtain ⟨L1, L2, hsplit⟩ := List.append_of_mem (hcur.2 hc0)
    subst hsplit
    refine ⟨next_then_prev cfg s L1 L2 _ hok rfl hlen, prev_then_next cfg s L1 L2 _ hok rfl hlen,
      ?_, ?_, ?_, ?_⟩
    · intro M1 n M2 hM
      rw [hM] at hok hlen
      obtain ⟨cs, hn⟩ := next_win_ring cfg s M1 (n :: M2) _ hok rfl hlen
      exact ⟨_, hn, rfl⟩
    · intro M1 p M2 hM
      have hM' : L1 ++ s.current :: L2 = (M1 ++ [p]) ++ s.current :: M2 := by
        rw [hM, List.append_assoc]; rfl
      rw [hM'] at hok hlen
      obtain ⟨cs, hp⟩ := prev_win_ring cfg s (M1 ++ [p]) M2 _ hok rfl hlen
      refine ⟨_, hp, ?_⟩
      show lastOr (lastOr s.current M2) (M1 ++ [p]) = p
      rw [lastOr_append_cons]; rfl
    · intro I hI
      have hhead : s.head = (I ++ [s.current]).headD 0 := by
        rw [hI] at hok
        cases hL : I ++ [s.current] with
        | nil => simp at hL
        | cons x T => rw [hL] at hok; exact hok.1.1
      rw [hI] at hok hlen
      obtain ⟨cs, hn⟩ := next_win_ring cfg s I [] _ hok rfl hlen
      refine ⟨_, hn, ?_⟩
      show ([] ++ I ++ [s.current]).headD 0 = s.head
      rw [hhead]; rfl
    · intro T hT
      have hT' : L1 ++ s.current :: L2 = [] ++ s.current :: T := hT
      rw [hT'] at hok hlen
      obtain ⟨cs, hp⟩ := prev_win_ring cfg s [] T _ hok rfl hlen
      refine ⟨_, hp, ?_⟩
      rw [hT]
      show lastOr (lastOr s.current T) [] = (s.current :: T).getLastD 0
      rw [lastOr_nil, List.getLastD_cons]
      clear hp hT' hT hok hlen hcur hc0 hne
      generalize s.current = d
      induction T generalizing d with
      | nil => rfl
      | cons y T ih => rw [lastOr_cons, List.getLastD_cons]; exact ih y
  · intro hlen
    cases L with
    | nil =>
      have hc : s.current = 0 := hcur.1.2 rfl
      exact ⟨by simp [next_win, hc], by simp [prev_win, hc]⟩
    | cons a T =>
      have hT : T = [] := by
        cases T with
        | nil => rfl
        | cons b T => simp at hlen
      subst hT
      obtain ⟨hh, hp⟩ := ring_head_prev_single _ _ _ _ hok
      exact ⟨by simp [next_win, hh, hp], by simp [prev_win, hh, hp]⟩

theorem focus_advance_round_trip_witness :
    RingOK stateABC.heap stateABC.brk stateABC.head [1, 2, 3] ∧ CurOK stateABC.current [1, 2, 3] ∧
    ((2 ≤ [1, 2, 3].length →
      (∃ t u, next_win defaultConfig stateABC = some t ∧ prev_win defaultConfig t = some u ∧
        u.current = stateABC.current ∧
        t.heap = stateABC.heap ∧ t.head = stateABC.head ∧ u.heap = stateABC.heap ∧
        u.head = stateABC.head) ∧
      (∃ t u, prev_win defaultConfig stateABC = some t ∧ next_win defaultConfig t = some u ∧
        u.current = stateABC.current ∧
        t.heap = stateABC.heap ∧ t.head = stateABC.head ∧ u.heap = stateABC.heap ∧
        u.head = stateABC.head) ∧
      (∀ L1 n L2, [1, 2, 3] = L1 ++ stateABC.current :: n :: L2 →
        ∃ t, next_win defaultConfig stateABC = some t ∧ t.current = n) ∧
      (∀ L1 p L2, [1, 2, 3] = L1 ++ p :: stateABC.current :: L2 →
        ∃ t, prev_win defaultConfig stateABC = some t ∧ t.current = p) ∧
      (∀ I, [1, 2, 3] = I ++ [stateABC.current] →
        ∃ t, next_win defaultConfig stateABC = some t ∧ t.current = stateABC.head) ∧
      (∀ T, [1, 2, 3] = stateABC.current :: T →
        ∃ t, prev_win defaultConfig stateABC = some t ∧ t.current = [1, 2, 3].getLastD 0)) ∧
    ([1, 2, 3].length ≤ 1 →
      next_win defaultConfig stateABC = some stateABC ∧
      prev_win defaultConfig stateABC = some stateABC)) :=
  ⟨by decide, by decide,
    focus_advance_round_trip defaultConfig stateABC [1, 2, 3] (by decide) (by decide)⟩

/-! ## The status line -/

theorem lastUrgent_none (h : Heap) : ∀ (L : List Nat) (cur : Nat),
    (∀ c ∈ L, (h c).isurgent = false) → lastUrgent h cur L = cur := by
  intro L
  induction L with
  | nil => intro cur _; rfl
  | cons a L ih =>
    intro cur hn
    have ha : (h a).isurgent = false := hn a (List.mem_cons_self a L)
    unfold lastUrgent
    rw [ha]
    exact ih cur fun c hc => hn c (List.mem_cons_of_mem a hc)

theorem lastUrgent_mem (h : Heap) : ∀ (L : List Nat) (cur : Nat),
    (lastUrgent h cur L = cur ∧ ∀ c ∈ L, (h c).isurgent = false) ∨
    (lastUrgent h cur L ∈ L ∧ (h (lastUrgent h cur L)).isurgent = true) := by
  intro L
  induction L with
  | nil => intro cur; exact Or.inl ⟨rfl, fun c hc => absurd hc (List.not_mem_nil c)⟩
  | cons a L ih =>
    intro cur
    unfold lastUrgent
    by_cases ha : (h a).isurgent = true
    · rw [if_pos ha]
      rcases ih a with ⟨he, _⟩ | ⟨hm, hu⟩
      · right; rw [he]; exact ⟨List.mem_cons_self a L, ha⟩
      · right; exact ⟨List.mem_cons_of_mem a hm, hu⟩
    · rw [if_neg ha]
      rcases ih cur with ⟨he, hn⟩ | ⟨hm, hu⟩
      · left
        refine ⟨he, fun c hc => ?_⟩
        rcases List.mem_cons.1 hc with e | hc
        · rw [e]; simpa using ha
        · exact hn c hc
      · right; exact ⟨List.mem_cons_of_mem a hm, hu⟩

theorem statusGroup_congr (cfg : Config) (s t : State) (hh : t.heap = s.heap)
    (hb : t.brk = s.brk) (hcd : t.current_desktop = s.current_desktop)
    (hhead : t.head = s.head) (hmode : t.mode = s.mode) (hds : t.desktops = s.desktops) (d : Nat) :
    statusGroup cfg t d = statusGroup cfg s d := by
  have hv : (view t d).head = (view s d).head ∧ (view t d).mode = (view s d).mode := by
    unfold view
    rw [hcd, hds]
    by_cases hd : (d : Int) = s.current_desktop
    · rw [if_pos hd, if_pos hd]; exact ⟨hhead, hmode⟩
    · rw [if_neg hd, if_neg hd]; exact ⟨rfl, rfl⟩
  unfold statusGroup ringOf
  rw [hv.1, hv.2, hh, hb, hcd]

/-- C16. The function `focusurgent` on a well-formed active ring `L` with
`current` on it returns; if a client of `L` is urgent, `current` is afterwards
an urgent client of `L` (the urgent client `A` when `A` is the only one); if
none is urgent, `current` is what it was; heap and head, hence the ring and
every urgency flag, are what they were, so every desktop reports the same
status group as before, and with an urgent client on the active ring that
group keeps `has_urgent = 1`.  With urgency set on the first of two windows
while the second has the focus, `focusurgent` gives the first one the focus
and the group reads `has_urgent = 1` before and after. -/
theorem focusurgent_selects_urgent (cfg : Config) (s : State) (L : List Nat)
    (hok : RingOK s.heap s.brk s.head L) (hcur : CurOK s.current L) :
    (∃ t, focusurgent cfg s = some t ∧
      ((∃ c ∈ L, (s.heap c).isurgent = true) →
        t.current ∈ L ∧ (t.heap t.current).isurgent = true) ∧
      (∀ A ∈ L, (∀ c ∈ L, (s.heap c).isurgent = true ↔ c = A) → t.current = A) ∧
      ((∀ c ∈ L, (s.heap c).isurgent = false) → t.current = s.current) ∧
      t.heap = s.heap ∧ t.head = s.head ∧ ring t = some L ∧
      (∀ d, statusGroup cfg t d = statusGroup cfg s d) ∧
      ((∃ c ∈ L, (s.heap c).isurgent = true) → 0 ≤ s.current_desktop →
        statusGroup cfg t s.current_desktop.toNat =
          XCall.printf s.current_desktop L.length s.mode 1 1
            (decide (s.current_desktop.toNat + 1 = cfg.DESKTOPS)))) ∧
    (∃ u t, propertynotify defaultConfig 100 true true stateAB = some u ∧
      focusurgent defaultConfig u = some t ∧ stateAB.current = 2 ∧
      (stateAB.heap 1).win = 100 ∧
      t.current = 1 ∧
      statusGroup defaultConfig u 0 = XCall.printf 0 2 TILE 1 1 false ∧
      statusGroup defaultConfig t 0 = XCall.printf 0 2 TILE 1 1 false) := by
  constructor
  · have hw := walk_of_ringOK _ _ _ _ hok
    have hhead : L ≠ [] → s.head ≠ 0 := by
      intro hne
      cases L with
      | nil => exact absurd rfl hne
      | cons a T => have h1 := hok.1.1; have h2 := hok.1.2.1; omega
    have hnew : lastUrgent s.heap s.current L ≠ 0 → s.head ≠ 0 := by
      intro hne
      rcases lastUrgent_mem s.heap L s.current with ⟨he, _⟩ | ⟨hm, _⟩
      · rw [he] at hne
        exact hhead (List.ne_nil_of_mem (hcur.2 hne))
      · exact hhead (List.ne_nil_of_mem hm)
    obtain ⟨cs, hu⟩ := update_current_total cfg
      { s with current := lastUrgent s.heap s.current L } L hw hnew
    have hf : focusurgent cfg s =
        some (emit { s with current := lastUrgent s.heap s.current L } cs) := by
      unfold focusurgent
      rw [hw]
      exact hu
    have hsome : (∃ c ∈ L, (s.heap c).isurgent = true) →
        lastUrgent s.heap s.current L ∈ L ∧
        (s.heap (lastUrgent s.heap s.current L)).isurgent = true := by
      rintro ⟨c, hc, hcu⟩
      rcases lastUrgent_mem s.heap L s.current with ⟨_, hn⟩ | h
      · rw [hn c hc] at hcu; exact absurd hcu (by decide)
      · exact h
    have hsg : ∀ d, statusGroup cfg
        (emit { s with current := lastUrgent s.heap s.current L } cs) d = statusGroup cfg s d :=
      fun d => statusGroup_congr cfg s
        (emit { s with current := lastUrgent s.heap s.current L } cs) rfl rfl rfl rfl rfl rfl d
    refine ⟨_, hf, hsome, ?_, ?_, rfl, rfl, hw, ?_, ?_⟩
    · intro A hA hone
      obtain ⟨hm, hu2⟩ := hsome ⟨A, hA, (hone A hA).2 rfl⟩
      exact (hone _ hm).1 hu2
    · intro hn
      exact lastUrgent_none s.heap L s.current hn
    · exact hsg
    · intro hex h0
      rw [hsg]
      have hd : (s.current_desktop.toNat : Int) = s.current_desktop := Int.toNat_of_nonneg h0
      have hr : ringOf s s.current_desktop.toNat = some L := by
        unfold ringOf
        rw [view_of_active s _ hd]
        exact hw
      have hany : (L.any fun c => (s.heap c).isurgent) = true := by
        simpa using hex
      unfold statusGroup
      rw [hr, view_of_active s _ hd, hd]
      simp only [Option.getD_some, hany, if_true]
      rfl
  · refine ⟨(propertynotify defaultConfig 100 true true stateAB).getD state0,
      (((propertynotify defaultConfig 100 true true stateAB).bind
        (focusurgent defaultConfig)).getD state0), rfl, rfl, ?_, ?_, ?_, ?_, ?_⟩ <;> decide

theorem focusurgent_selects_urgent_witness :
    RingOK stateABu.heap stateABu.brk stateABu.head [1, 2] ∧ CurOK stateABu.current [1, 2] ∧
    ((∃ t, focusurgent defaultConfig stateABu = some t ∧
      ((∃ c ∈ [1, 2], (stateABu.heap c).isurgent = true) →
        t.current ∈ [1, 2] ∧ (t.heap t.current).isurgent = true) ∧
      (∀ A ∈ [1, 2], (∀ c ∈ [1, 2], (stateABu.heap c).isurgent = true ↔ c = A) →
        t.current = A) ∧
      ((∀ c ∈ [1, 2], (stateABu.heap c).isurgent = false) → t.current = stateABu.current) ∧
      t.heap = stateABu.heap ∧ t.head = stateABu.head ∧ ring t = some [1, 2] ∧
      (∀ d, statusGroup defaultConfig t d = statusGroup defaultConfig stateABu d) ∧
      ((∃ c ∈ [1, 2], (stateABu.heap c).isurgent = true) → 0 ≤ stateABu.current_desktop →
        statusGroup defaultConfig t stateABu.current_desktop.toNat =
          XCall.printf stateABu.current_desktop [1, 2].length stateABu.mode 1 1
            (decide (stateABu.current_desktop.toNat + 1 = defaultConfig.DESKTOPS)))) ∧
    (∃ u t, propertynotify defaultConfig 100 true true stateAB = some u ∧
      focusurgent defaultConfig u = some t ∧ stateAB.current = 2 ∧
      (stateAB.heap 1).win = 100 ∧
      t.current = 1 ∧
      statusGroup defaultConfig u 0 = XCall.printf 0 2 TILE 1 1 false ∧
      statusGroup defaultConfig t 0 = XCall.printf 0 2 TILE 1 1 false)) :=
  ⟨by decide, by decide,
    focusurgent_selects_urgent defaultConfig stateABu [1, 2] (by decide) (by decide)⟩

/-! ## Moving a client to another desktop -/

theorem stateOK_select_desktop (cfg : Config) (s : State) (R : Nat → List Nat) (i : Int)
    (hok : StateOK cfg s R) (hslot : SlotOK s (R s.current_desktop.toNat))
    (hi0 : 0 ≤ i) (hi1 : i < (cfg.DESKTOPS : Int)) (hne : i ≠ s.current_desktop) :
    ∃ t, select_desktop cfg i s = some t ∧ t.heap = s.heap ∧ t.brk = s.brk ∧
      t.current_desktop = i ∧ t.out = s.out ∧ StateOK cfg t R ∧
      (∀ d : Nat, (d : Int) ≠ s.current_desktop → view t d = view s d) ∧
      (view t s.current_desktop.toNat).head = s.head := by
  have h0 := hok.cd_lo
  have hCc : ((s.current_desktop.toNat : Nat) : Int) = s.current_desktop := Int.toNat_of_nonneg h0
  have hC : s.current_desktop.toNat < cfg.DESKTOPS := by have := hok.cd_hi; omega
  have h1 : ¬ (i ≥ (cfg.DESKTOPS : Int) ∨ i = s.current_desktop) := by
    intro h; rcases h with h | h
    · omega
    · exact hne h
  have h2 : ¬ i < 0 := by omega
  have hsel : ∃ t, select_desktop cfg i s = some t ∧ t.heap = s.heap ∧ t.brk = s.brk ∧
      t.current_desktop = i ∧ t.out = s.out ∧ t.desktops = s.desktops ∧
      snapshot t = s.desktops i.toNat := by
    unfold select_desktop
    simp only [h1, h2, if_false]
    exact ⟨_, rfl, rfl, rfl, rfl, rfl, rfl, rfl⟩
  obtain ⟨t, ht, hh, hb, hcd, ho, hds, hsn⟩ := hsel
  have hview : ∀ d : Nat, (d : Int) ≠ s.current_desktop → view t d = view s d := by
    intro d hd
    rw [view_of_inactive s d hd]
    by_cases hdi : (d : Int) = i
    · rw [view_of_active t d (hdi.trans hcd.symm), hsn]
      have : i.toNat = d := by omega
      rw [this]
    · rw [view_of_inactive t d (fun e => hdi (e.trans hcd)), hds]
  have hviewC : view t s.current_desktop.toNat = s.desktops s.current_desktop.toNat := by
    rw [view_of_inactive t _ (by rw [hcd, hCc]; exact fun e => hne e.symm), hds]
  refine ⟨t, ht, hh, hb, hcd, ho, ⟨by omega, by omega, fun d hd => ?_, fun d hd => ?_, hok.disj⟩,
    hview, by rw [hviewC]; exact hslot.1⟩
  · rw [hh, hb]
    by_cases hdc : (d : Int) = s.current_desktop
    · have hdC : d = s.current_desktop.toNat := by omega
      subst hdC
      rw [hviewC, hslot.1]
      have := hok.rings _ hC
      rw [view_of_active s _ hCc] at this
      exact this
    · rw [hview d hdc]; exact hok.rings d hd
  · by_cases hdc : (d : Int) = s.current_desktop
    · have hdC : d = s.current_desktop.toNat := by omega
      subst hdC
      rw [hviewC]
      exact hslot.2
    · rw [hview d hdc]; exact hok.curs d hd

theorem stateOK_removeclient (cfg : Config) (c : Nat) (s : State) (R : Nat → List Nat)
    (hok : StateOK cfg s R) (hc : c ∈ R s.current_desktop.toNat) :
    ∃ t, removeclient cfg c s = some t ∧ t.current_desktop = s.current_desktop ∧
      t.brk = s.brk ∧ Saved t ∧
      StateOK cfg t (fun d => if d = s.current_desktop.toNat then (R d).erase c else R d) ∧
      (∀ B, B ≠ s.current_desktop.toNat → view t B = view s B) ∧
      (∀ a, a ∉ R s.current_desktop.toNat → t.heap a = s.heap a) ∧
      (∀ a, (t.heap a).win = (s.heap a).win) := by
  have h0 := hok.cd_lo
  have h1 := hok.cd_hi
  have hA : s.current_desktop.toNat < cfg.DESKTOPS := by omega
  have hAc : ((s.current_desktop.toNat : Nat) : Int) = s.current_desktop := Int.toNat_of_nonneg h0
  have hring : RingOK s.heap s.brk s.head (R s.current_desktop.toNat) := by
    have := hok.rings _ hA
    rw [view_of_active s _ hAc] at this
    exact this
  obtain ⟨L1, L2, hsplit⟩ := List.append_of_mem hc
  have hnd : (L1 ++ c :: L2).Nodup := by rw [← hsplit]; exact ringOK_nodup _ _ _ _ hring
  have her : (R s.current_desktop.toNat).erase c = L1 ++ L2 := by
    rw [hsplit]; exact erase_of_split L1 L2 c hnd
  rw [hsplit] at hring
  obtain ⟨H, out, he, hro, hco, hwin, hf⟩ := removeclient_spec cfg s L1 L2 c hring h0
  rw [if_pos h1] at he
  rw [← hsplit] at hf
  have hview : ∀ B, B ≠ s.current_desktop.toNat →
      view ({ s with
        heap := H, head := (L1 ++ L2).headD 0, current := lastOr (L2.headD 0) L1,
        desktops := setDesktop s.desktops s.current_desktop.toNat
              { master_size := s.master_size, mode := s.mode, growth := s.growth,
                head := (L1 ++ L2).headD 0, current := lastOr (L2.headD 0) L1,
                showpanel := s.showpanel },
        out := out } : State) B
        = view s B := by
    intro B hB
    have hBc : (B : Int) ≠ s.current_desktop := by omega
    unfold view
    simp only [hBc, if_false, setDesktop, hB]
  refine ⟨_, he, rfl, rfl, ?_, ⟨h0, h1, fun d hd => ?_, fun d hd => ?_, ?_⟩, hview, hf,
    fun a => (hwin a).1⟩
  · simp [Saved, setDesktop, snapshot]
  · by_cases hdA : d = s.current_desktop.toNat
    · subst hdA
      rw [view_of_active _ _ (by exact hAc)]
      simp only [if_true]
      rw [her]
      exact hro
    · rw [hview d hdA]
      simp only [hdA, if_false]
      refine ringOK_congr s.heap H s.brk s.brk _ _ ?_ (Nat.le_refl _) (hok.rings d hd)
      intro a ha
      exact hf a (fun hm => hok.disj d hd _ hA hdA a ha hm)
  · by_cases hdA : d = s.current_desktop.toNat
    · subst hdA
      rw [view_of_active _ _ (by exact hAc)]
      simp only [if_true]
      rw [her]
      exact hco
    · rw [hview d hdA]
      simp only [hdA, if_false]
      exact hok.curs d hd
  · intro d hd e he hde a ha hm
    have ha' : a ∈ R d := by
      by_cases hdA : d = s.current_desktop.toNat
      · simp only [hdA, if_true] at ha
        rw [hdA]; exact List.mem_of_mem_erase ha
      · simp only [hdA, if_false] at ha; exact ha
    have hm' : a ∈ R e := by
      by_cases heA : e = s.current_desktop.toNat
      · simp only [heA, if_true] at hm
        rw [heA]; exact List.mem_of_mem_erase hm
      · simp only [heA, if_false] at hm; exact hm
    exact hok.disj d hd e he hde a ha' hm'

theorem client_to_desktop_stateOK (cfg : Config) (s : State) (R : Nat → List Nat) (i : Int)
    (hok : StateOK cfg s R) (hslot : SlotOK s (R s.current_desktop.toNat))
    (hc : s.current ≠ 0) (hi0 : 0 ≤ i) (hi1 : i < (cfg.DESKTOPS : Int))
    (hne : i ≠ s.current_desktop) (hF : cfg.FOLLOW_WINDOW = false) :
    ∃ t, client_to_desktop cfg i s = some t ∧ t.current_desktop = s.current_desktop ∧
      StateOK cfg t (fun d => if d = s.current_desktop.toNat then
        (if d = i.toNat then
          (if cfg.ATTACH_ASIDE then R d ++ [s.brk + 1] else (s.brk + 1) :: R d)
          else R d).erase s.current
        else (if d = i.toNat then
          (if cfg.ATTACH_ASIDE then R d ++ [s.brk + 1] else (s.brk + 1) :: R d)
          else R d)) ∧
      (t.heap (s.brk + 1)).win = (s.heap s.current).win ∧
      (view t i.toNat).current = s.brk + 1 ∧
      (∀ a, a ≠ s.brk + 1 → (t.heap a).win = (s.heap a).win) := by
  have h0 := hok.cd_lo
  have h1 := hok.cd_hi
  have hCc : ((s.current_desktop.toNat : Nat) : Int) = s.current_desktop := Int.toNat_of_nonneg h0
  have hTc : ((i.toNat : Nat) : Int) = i := Int.toNat_of_nonneg hi0
  have hC : s.current_desktop.toNat < cfg.DESKTOPS := by omega
  have hT : i.toNat < cfg.DESKTOPS := by omega
  have hCT : s.current_desktop.toNat ≠ i.toNat := by omega
  have hcC : s.current ∈ R s.current_desktop.toNat := by
    have := hok.curs _ hC
    rw [view_of_active s _ hCc] at this
    exact this.2 hc
  have hnC : s.brk + 1 ∉ R s.current_desktop.toNat := by
    intro hm
    have := (hok.rings _ hC).2.2 _ hm
    omega
  -- select_desktop(arg->i)
  obtain ⟨s1, e1, hh1, hb1, hcd1, _, hok1, _, _⟩ :=
    stateOK_select_desktop cfg s R i hok hslot hi0 hi1 hne
  have hcd1T : s1.current_desktop.toNat = i.toNat := by rw [hcd1]
  -- add_window(c->win)
  obtain ⟨s2, e2, hcd2, _, hok2, _, _⟩ :=
    stateOK_add_window cfg (s1.heap s.current).win s1 R hok1
  have hring1 : RingOK s1.heap s1.brk s1.head (R i.toNat) := by
    have := hok1.rings _ hT
    rw [view_of_active s1 _ (hTc.trans hcd1.symm)] at this
    exact this
  obtain ⟨H, hd, e2', _, hwin, _, hwf, _⟩ :=
    add_window_spec cfg (s1.heap s.current).win s1 (R i.toNat) hring1 (by omega)
  rw [e2] at e2'
  have hs2 := Option.some.inj e2'
  have hH : s2.heap = H := by rw [hs2]
  have hcur2 : s2.current = s.brk + 1 := by rw [hs2, ← hb1]
  rw [hcd1T, hb1] at hok2
  have hcd2i : s2.current_desktop = i := hcd2.trans hcd1
  -- save_desktop(arg->i)
  obtain ⟨s3, e3, hv3, hcd3, _, _, hsv3⟩ := save_desktop_views cfg s2 (by omega)
  rw [hcd2i] at e3 hcd3 hsv3
  -- select_desktop(cd)
  obtain ⟨s4, e4, hv4, hcd4, _, _, _, _⟩ :=
    select_desktop_views cfg s3 s.current_desktop (hsv3 hi1) (by omega) h0 h1
  have hv24 : SameViews s2 (emit s4 [XCall.XUnmapWindow (s4.heap s.current).win]) :=
    sameViews_trans _ _ _ (sameViews_trans _ _ _ hv3 hv4) (sameViews_emit s4 _)
  have hcd4e : (emit s4 [XCall.XUnmapWindow (s4.heap s.current).win]).current_desktop =
      s.current_desktop := hcd4
  have hok4 := stateOK_of_sameViews cfg s2 _ _ hok2 hv24 (by rw [hcd4e]; exact h0)
    (by rw [hcd4e]; exact h1)
  -- removeclient(c)
  obtain ⟨s5, e5, hcd5, _, _, hok5, hv5, hf5, hw5⟩ := stateOK_removeclient cfg s.current _ _ hok4
    (by rw [hcd4e]; simp only [hCT, if_false]; exact hcC)
  rw [hcd4e] at hok5 hv5 hf5 hcd5
  simp only [hCT, if_false] at hf5
  -- save_desktop(cd)
  obtain ⟨s6, e6, hv6, hcd6, _, _, _⟩ := save_desktop_views cfg s5 (by omega)
  rw [hcd5] at e6 hcd6
  -- tile()
  obtain ⟨⟨L, hL⟩, hcur6⟩ := walk_live_of_walkable cfg s5 s6 (stateOK_walkable cfg s5 _ hok5) hv6
    (by omega) (by omega)
  obtain ⟨cs7, e7⟩ := tile_total cfg s6 L hL
  -- update_current()
  obtain ⟨cs8, e8⟩ := update_current_total cfg (emit s6 cs7) L hL hcur6
  have hv58 : SameViews s5 (emit (emit s6 cs7) cs8) :=
    sameViews_trans _ _ _ (sameViews_trans _ _ _ hv6 (sameViews_emit s6 _)) (sameViews_emit _ _)
  have hcd8 : (emit (emit s6 cs7) cs8).current_desktop = s.current_desktop := hcd6
  have hok8 := stateOK_of_sameViews cfg s5 _ _ hok5 hv58 (by rw [hcd8]; exact h0)
    (by rw [hcd8]; exact h1)
  -- desktopinfo()
  obtain ⟨t, e9, hv9, hcd9, _, _⟩ := desktopinfo_views cfg _ (stateOK_walkable cfg _ _ hok8)
  have hv5t : SameViews s5 t := sameViews_trans _ _ _ hv58 hv9
  have hokt := stateOK_of_sameViews cfg s5 t _ hok5 hv5t (by rw [hcd9, hcd8]; exact h0)
    (by rw [hcd9, hcd8]; exact h1)
  have hheap5 : s5.heap (s.brk + 1) = s2.heap (s.brk + 1) := by
    rw [hf5 _ hnC]; exact congrFun hv24.1 _
  refine ⟨t, ?_, hcd9.trans hcd8, hokt, ?_, ?_, ?_⟩
  · unfold client_to_desktop
    rw [if_neg (not_or.2 ⟨hne, hc⟩)]
    simp only [e1, e2, e3, e4, e5, e6, e7, e8, hF, Bool.false_eq_true, if_false]
    exact e9
  · rw [hv5t.1, hheap5, hH, hb1.symm, hwin, hh1]
  · rw [hv5t.2.2, hv5 _ (Ne.symm hCT), hv24.2.2, view_of_active s2 _ (hTc.trans hcd2i.symm)]
    exact hcur2
  · intro a ha
    rw [hv5t.1, hw5 a]
    show (s4.heap a).win = _
    have h42 : s4.heap = s2.heap := hv24.1
    rw [h42, hH, (hwf a (by rw [hb1]; exact ha)).1, hh1]

theorem stateOK_stateTwo : StateOK defaultConfig stateTwo ringsTwo :=
  ⟨by decide, by decide, by decide, by decide,
    fun d hd => by
      have hd4 : d < 4 := hd
      interval_cases d <;> decide⟩

/-- C18. Moving a client between desktops (tail attach, no follow): on a
well-formed state whose active slot holds the live head, with a `current` and
a valid target index `i` other than the active one, `client_to_desktop`
returns; the state is again well formed; the ring of desktop `i` is its old
ring followed by one fresh cell, which carries the window of the moved client
and is desktop `i`'s `current`; the cells that were on desktop `i` keep their
windows; the ring of the active desktop is its old order without the moved
client; every other desktop keeps its ring; the active index is what it was;
and the moved window, if no other cell carried it, is on no ring but that of
desktop `i`. -/
theorem client_to_desktop_moves (cfg : Config) (s : State) (R : Nat → List Nat) (i : Int)
    (hok : StateOK cfg s R) (hslot : SlotOK s (R s.current_desktop.toNat))
    (hc : s.current ≠ 0) (hi0 : 0 ≤ i) (hi1 : i < (cfg.DESKTOPS : Int))
    (hne : i ≠ s.current_desktop) (hA : cfg.ATTACH_ASIDE = true)
    (hF : cfg.FOLLOW_WINDOW = false) :
    ∃ t, client_to_desktop cfg i s = some t ∧
      t.current_desktop = s.current_desktop ∧
      StateOK cfg t (ringsMoved R s.current_desktop.toNat i.toNat s.current (s.brk + 1)) ∧
      ringOf t i.toNat = some (R i.toNat ++ [s.brk + 1]) ∧
      (t.heap (s.brk + 1)).win = (s.heap s.current).win ∧
      (view t i.toNat).current = s.brk + 1 ∧
      ringOf t s.current_desktop.toNat = some ((R s.current_desktop.toNat).erase s.current) ∧
      (∀ d, d < cfg.DESKTOPS → d ≠ i.toNat → d ≠ s.current_desktop.toNat →
        ringOf t d = some (R d)) ∧
      (∀ d, d < cfg.DESKTOPS → wins t.heap (R d) = wins s.heap (R d)) ∧
      ((∀ d, d < cfg.DESKTOPS → ∀ a ∈ R d, (s.heap a).win = (s.heap s.current).win →
          a = s.current) →
        ∀ d, d < cfg.DESKTOPS → d ≠ i.toNat → ∀ L, ringOf t d = some L →
          (s.heap s.current).win ∉ wins t.heap L) := by
  have h0 := hok.cd_lo
  have h1 := hok.cd_hi
  have hC : s.current_desktop.toNat < cfg.DESKTOPS := by omega
  have hT : i.toNat < cfg.DESKTOPS := by omega
  have hCT : s.current_desktop.toNat ≠ i.toNat := by omega
  have hCc : ((s.current_desktop.toNat : Nat) : Int) = s.current_desktop := Int.toNat_of_nonneg h0
  have hcC : s.current ∈ R s.current_desktop.toNat := by
    have := hok.curs _ hC
    rw [view_of_active s _ hCc] at this
    exact this.2 hc
  have hle : ∀ d, d < cfg.DESKTOPS → ∀ a ∈ R d, a ≠ s.brk + 1 := by
    intro d hd a ha e
    have := (hok.rings d hd).2.2 a ha
    omega
  obtain ⟨t, e, hcd, hokt, hwin, hcur, hwf⟩ :=
    client_to_desktop_stateOK cfg s R i hok hslot hc hi0 hi1 hne hF
  have hfun : (fun d => if d = s.current_desktop.toNat then
        (if d = i.toNat then
          (if cfg.ATTACH_ASIDE then R d ++ [s.brk + 1] else (s.brk + 1) :: R d)
          else R d).erase s.current
        else (if d = i.toNat then
          (if cfg.ATTACH_ASIDE then R d ++ [s.brk + 1] else (s.brk + 1) :: R d)
          else R d)) =
      ringsMoved R s.current_desktop.toNat i.toNat s.current (s.brk + 1) := by
    funext d
    unfold ringsMoved
    by_cases hdT : d = i.toNat
    · have hdC : d ≠ s.current_desktop.toNat := fun h => hCT (h.symm.trans hdT)
      simp only [hdT, hA, if_true, (Ne.symm hCT), if_false]
    · by_cases hdC : d = s.current_desktop.toNat
      · simp only [hdC, hCT, if_true, if_false]
      · simp only [hdC, hdT, if_false]
  rw [hfun] at hokt
  have hrT : ringsMoved R s.current_desktop.toNat i.toNat s.current (s.brk + 1) i.toNat =
      R i.toNat ++ [s.brk + 1] := by simp [ringsMoved]
  have hrC : ringsMoved R s.current_desktop.toNat i.toNat s.current (s.brk + 1)
      s.current_desktop.toNat = (R s.current_desktop.toNat).erase s.current := by
    simp [ringsMoved, hCT]
  have hrO : ∀ d, d ≠ i.toNat → d ≠ s.current_desktop.toNat →
      ringsMoved R s.current_desktop.toNat i.toNat s.current (s.brk + 1) d = R d := by
    intro d h1 h2; simp [ringsMoved, h1, h2]
  refine ⟨t, e, hcd, hokt, ?_, hwin, hcur, ?_, ?_, ?_, ?_⟩
  · rw [← hrT]; exact stateOK_ring cfg t _ hokt _ hT
  · rw [← hrC]; exact stateOK_ring cfg t _ hokt _ hC
  · intro d hd hdT hdC
    rw [← hrO d hdT hdC]; exact stateOK_ring cfg t _ hokt _ hd
  · intro d hd
    exact wins_congr _ _ _ fun a ha => hwf a (hle d hd a ha)
  · intro huniq d hd hdT L hL hmem
    rw [stateOK_ring cfg t _ hokt d hd] at hL
    have hL' := Option.some.inj hL
    obtain ⟨a, ha, haw⟩ := List.mem_map.1 hmem
    by_cases hdC : d = s.current_desktop.toNat
    · rw [← hL', hdC, hrC] at ha
      have haR := List.mem_of_mem_erase ha
      rw [hwf a (hle _ hC a haR)] at haw
      have hac := huniq _ hC a haR haw
      rw [hac] at ha
      exact absurd ha (List.Nodup.not_mem_erase
        (by have := hok.rings _ hC; exact ringOK_nodup _ _ _ _ this))
    · rw [← hL', hrO d hdT hdC] at ha
      rw [hwf a (hle d hd a ha)] at haw
      have hac := huniq d hd a ha haw
      rw [hac] at ha
      exact hok.disj d hd _ hC hdC _ ha hcC

theorem client_to_desktop_moves_witness :
    StateOK defaultConfig stateTwo ringsTwo ∧
    SlotOK stateTwo (ringsTwo stateTwo.current_desktop.toNat) ∧ stateTwo.current ≠ 0 ∧
    (0 : Int) ≤ 1 ∧ (1 : Int) < (defaultConfig.DESKTOPS : Int) ∧
    (1 : Int) ≠ stateTwo.current_desktop ∧ defaultConfig.ATTACH_ASIDE = true ∧
    defaultConfig.FOLLOW_WINDOW = false ∧
    (∃ t, client_to_desktop defaultConfig 1 stateTwo = some t ∧
      t.current_desktop = stateTwo.current_desktop ∧
      StateOK defaultConfig t (ringsMoved ringsTwo stateTwo.current_desktop.toNat
        (1 : Int).toNat stateTwo.current (stateTwo.brk + 1)) ∧
      ringOf t (1 : Int).toNat = some (ringsTwo (1 : Int).toNat ++ [stateTwo.brk + 1]) ∧
      (t.heap (stateTwo.brk + 1)).win = (stateTwo.heap stateTwo.current).win ∧
      (view t (1 : Int).toNat).current = stateTwo.brk + 1 ∧
      ringOf t stateTwo.current_desktop.toNat =
        some ((ringsTwo stateTwo.current_desktop.toNat).erase stateTwo.current) ∧
      (∀ d, d < defaultConfig.DESKTOPS → d ≠ (1 : Int).toNat →
        d ≠ stateTwo.current_desktop.toNat →
        ringOf t d = some (ringsTwo d)) ∧
      (∀ d, d < defaultConfig.DESKTOPS →
        wins t.heap (ringsTwo d) = wins stateTwo.heap (ringsTwo d)) ∧
      ((∀ d, d < defaultConfig.DESKTOPS → ∀ a ∈ ringsTwo d,
          (stateTwo.heap a).win = (stateTwo.heap stateTwo.current).win →
          a = stateTwo.current) →
        ∀ d, d < defaultConfig.DESKTOPS → d ≠ (1 : Int).toNat →
          ∀ L, ringOf t d = some L →
          (stateTwo.heap stateTwo.current).win ∉ wins t.heap L)) ∧
    (client_to_desktop defaultConfig 1 stateTwo).map (fun t =>
        (t.current_desktop, ringOf t 0, ringOf t 1, (ringOf t 1).map (wins t.heap)))
      = some (0, some [], some [2, 3], some [200, 100]) :=
  ⟨stateOK_stateTwo, by decide, by decide, by decide, by decide, by decide, rfl, rfl,
    client_to_desktop_moves defaultConfig stateTwo ringsTwo 1 stateOK_stateTwo (by decide)
      (by decide) (by decide) (by decide) (by decide) rfl rfl, by decide⟩

/-! ## C19: a rule with a negative desktop -/

/-- C19 at its failing input.  With the rule for `MPlayer` naming desktop
`-1`, `maprequest` for a window of that class on the initial state resolves
`newdsk = -1`; `select_desktop(-1)` passes the test `i >= DESKTOPS` and reads
`desktops[-1]`, and `save_desktop(-1)` writes it, so the request does not
insert the window on the active desktop, whereas the same request without a
matching rule puts window 300 on the ring of the active desktop 0. -/
theorem negative_rule_desktop :
    newdsk configNeg evMPlayer state0.current_desktop = -1 ∧
    (select_desktop configNeg (-1) state0).isNone = true ∧
    (save_desktop configNeg (-1) state0).isNone = true ∧
    (maprequest configNeg evMPlayer state0).isNone = true ∧
    newdsk configNeg evNoClass state0.current_desktop = state0.current_desktop ∧
    (maprequest configNeg evNoClass state0).map (fun t =>
        (t.current_desktop, (ringOf t 0).map (wins t.heap)))
      = some (0, some [300]) := by
  refine ⟨by decide, by decide, by decide, by decide, by decide, by decide⟩

/-! ## C20: the size applied by `configurerequest` -/

/-- C20, counterexample to the claim as worded: on the initial state (work
area 998 x 598, `BORDER_WIDTH` 2) a request for the width 997, which is
within the bound `ww + BORDER_WIDTH = 1000`, is applied with the width 1000,
larger than the requested one. -/
theorem configure_clamp_counterexample :
    (configurerequest defaultConfig evConfigure state0).map State.out =
      some [XCall.XConfigureWindow 100 15 0 18 1000 100 2 0 0, XCall.XSync] ∧
    evConfigure.width = 997 ∧ state0.ww + defaultConfig.BORDER_WIDTH = 1000 ∧
    ¬ SpecConfigureClamp defaultConfig evConfigure state0 1000 100 := by
  refine ⟨by decide, by decide, by decide, ?_⟩
  intro h
  exact absurd h.1 (by decide)

/-- C20, amended: when the loop over the active ring ends and `BORDER_WIDTH`
is not negative, `configurerequest` returns after one `XConfigureWindow` call
for the window of the request, `XSync` and the calls of `tile`; the applied
width is the requested one when that is below `ww - BORDER_WIDTH` and is
`ww + BORDER_WIDTH` otherwise, so it is never larger than
`ww + BORDER_WIDTH`; the applied height is the requested one when that is
below `wh - BORDER_WIDTH` and is `wh + BORDER_WIDTH` otherwise, so it is
never larger than `wh + BORDER_WIDTH`. -/
theorem configure_clamp (cfg : Config) (ev : XConfigureRequestEvent) (s : State) (L : List Nat)
    (hw : walk s.heap s.brk s.head = some L) (hbw : 0 ≤ cfg.BORDER_WIDTH) :
    ∃ y width height cs, configurerequest cfg ev s =
        some (emit s (XCall.XConfigureWindow ev.window ev.value_mask ev.x y width height
          ev.border_width ev.above ev.detail :: XCall.XSync :: cs)) ∧
      width ≤ s.ww + cfg.BORDER_WIDTH ∧ height ≤ s.wh + cfg.BORDER_WIDTH ∧
      (ev.width < s.ww - cfg.BORDER_WIDTH → width = ev.width) ∧
      (s.ww - cfg.BORDER_WIDTH ≤ ev.width → width = s.ww + cfg.BORDER_WIDTH) ∧
      (ev.height < s.wh - cfg.BORDER_WIDTH → height = ev.height) ∧
      (s.wh - cfg.BORDER_WIDTH ≤ ev.height → height = s.wh + cfg.BORDER_WIDTH) := by
  obtain ⟨cs, hc⟩ := tile_total cfg
    (emit s [XCall.XConfigureWindow ev.window ev.value_mask ev.x
      (if ev.y + (if s.showpanel && cfg.TOP_PANEL then 1 else 0) ≠ 0
        then cfg.PANEL_HEIGHT else 0)
      (if ev.width < s.ww - cfg.BORDER_WIDTH then ev.width else s.ww + cfg.BORDER_WIDTH)
      (if ev.height < s.wh - cfg.BORDER_WIDTH then ev.height else s.wh + cfg.BORDER_WIDTH)
      ev.border_width ev.above ev.detail, XCall.XSync]) L hw
  refine ⟨(if ev.y + (if s.showpanel && cfg.TOP_PANEL then 1 else 0) ≠ 0
        then cfg.PANEL_HEIGHT else 0),
    (if ev.width < s.ww - cfg.BORDER_WIDTH then ev.width else s.ww + cfg.BORDER_WIDTH),
    (if ev.height < s.wh - cfg.BORDER_WIDTH then ev.height else s.wh + cfg.BORDER_WIDTH),
    cs, ?_, ?_, ?_, ?_, ?_, ?_, ?_⟩
  · unfold configurerequest
    rw [hc, emit_emit]
    rfl
  · split <;> omega
  · split <;> omega
  · intro h; rw [if_pos h]
  · intro h; rw [if_neg (by omega)]
  · intro h; rw [if_pos h]
  · intro h; rw [if_neg (by omega)]

theorem configure_clamp_witness :
    walk state0.heap state0.brk state0.head = some [] ∧ 0 ≤ defaultConfig.BORDER_WIDTH ∧
    ∃ y width height cs, configurerequest defaultConfig evConfigure state0 =
        some (emit state0 (XCall.XConfigureWindow evConfigure.window evConfigure.value_mask
          evConfigure.x y width height
          evConfigure.border_width evConfigure.above evConfigure.detail :: XCall.XSync :: cs)) ∧
      width ≤ state0.ww + defaultConfig.BORDER_WIDTH ∧
      height ≤ state0.wh + defaultConfig.BORDER_WIDTH ∧
      (evConfigure.width < state0.ww - defaultConfig.BORDER_WIDTH → width = evConfigure.width) ∧
      (state0.ww - defaultConfig.BORDER_WIDTH ≤ evConfigure.width →
        width = state0.ww + defaultConfig.BORDER_WIDTH) ∧
      (evConfigure.height < state0.wh - defaultConfig.BORDER_WIDTH →
        height = evConfigure.height) ∧
      (state0.wh - defaultConfig.BORDER_WIDTH ≤ evConfigure.height →
        height = state0.wh + defaultConfig.BORDER_WIDTH) :=
  ⟨by decide, by decide, configure_clamp defaultConfig evConfigure state0 [] (by decide)
    (by decide)⟩

/-! ## C22: the `y` coordinate applied by `configurerequest` -/

/-- C22 at its failing inputs.  The line
`wc.y = ev->y + (showpanel && TOP_PANEL) ? PANEL_HEIGHT : 0;` is parsed by C
as `(ev->y + (showpanel && TOP_PANEL)) ? PANEL_HEIGHT : 0`: with the panel
shown on top, a request for `y = 100` is applied with `y = 18`
(`PANEL_HEIGHT`), not `118`; with the panel hidden the same request is
applied with `y = 18`, not `100`. -/
theorem configurerequest_y :
    (state0.showpanel && defaultConfig.TOP_PANEL) = true ∧ evConfigureY.y = 100 ∧
    defaultConfig.PANEL_HEIGHT = 18 ∧
    (configurerequest defaultConfig evConfigureY state0).map State.out =
      some [XCall.XConfigureWindow 100 15 0 18 500 300 2 0 0, XCall.XSync] ∧
    (configurerequest defaultConfig evConfigureY state0).map
      (fun t => t.out.filterMap configuredY) = some [18] ∧
    SpecConfigureY defaultConfig evConfigureY state0 = 118 ∧
    (state0Hidden.showpanel && defaultConfig.TOP_PANEL) = false ∧
    (configurerequest defaultConfig evConfigureY state0Hidden).map
      (fun t => t.out.filterMap configuredY) = some [18] ∧
    SpecConfigureY defaultConfig evConfigureY state0Hidden = 100 := by
  refine ⟨by decide, by decide, by decide, by decide, by decide, by decide, by decide,
    by decide, by decide⟩

/-! ## C24: the parameters of the source desktop after `client_to_desktop` -/

/-- C24 at its failing inputs.  On desktop 0 with two clients, after
`resize_master(10)` the live `master_size` is 528 while the stored slot still
holds 518, and after `resize_stack(50)` the live `growth` is 50 while the slot
holds 0; both states are well formed with a `current`.  `client_to_desktop(1)`
calls `select_desktop(1)` without `save_desktop(cd)` before it, so when it
loads desktop 0 back the live `master_size` is 518 and the live `growth` is 0;
`change_desktop`, which saves first, keeps 528 and 50 over a round trip. -/
theorem client_to_desktop_loses_parameters :
    StateOK defaultConfig stateABm ringsAB ∧ stateABm.current ≠ 0 ∧
    stateABm.current_desktop = 0 ∧
    (stateABm.master_size, (stateABm.desktops 0).master_size) = (528, 518) ∧
    (client_to_desktop defaultConfig 1 stateABm).map
      (fun t => (t.current_desktop, t.master_size, t.growth, t.mode, t.showpanel)) =
      some (0, 518, 0, TILE, true) ∧
    ((change_desktop defaultConfig 1 stateABm).bind (change_desktop defaultConfig 0)).map
      (fun t => (t.current_desktop, t.master_size)) = some (0, 528) ∧
    StateOK defaultConfig stateABs ringsAB ∧ stateABs.current ≠ 0 ∧
    stateABs.current_desktop = 0 ∧
    (stateABs.growth, (stateABs.desktops 0).growth) = (50, 0) ∧
    (client_to_desktop defaultConfig 1 stateABs).map
      (fun t => (t.current_desktop, t.master_size, t.growth, t.mode, t.showpanel)) =
      some (0, 518, 0, TILE, true) ∧
    ((change_desktop defaultConfig 1 stateABs).bind (change_desktop defaultConfig 0)).map
      (fun t => (t.current_desktop, t.growth)) = some (0, 50) := by
  refine ⟨⟨by decide, by decide, by decide, by decide,
      fun d hd => by
        have hd4 : d < 4 := hd
        interval_cases d <;> decide⟩,
    by decide, by decide, by decide, by decide, by decide,
    ⟨by decide, by decide, by decide, by decide,
      fun d hd => by
        have hd4 : d < 4 := hd
        interval_cases d <;> decide⟩,
    by decide, by decide, by decide, by decide, by decide⟩

/-! ## C23: urgency and the window it was set on -/

/-- C23 at its failing inputs.  With windows 100 and 200 on desktop 0,
window 200 focused and the urgency hint set on window 100 (well-formed state
`stateABu100`), each of `move_up`, `move_down` and `swap_master` exchanges the
`win` fields of the two clients but leaves `isurgent` where it was: afterwards
window 200 is the urgent one and window 100 is not.  With the hint set on the
focused window 200 (well-formed state `stateABu200`), `client_to_desktop(1)`
re-creates the client with `add_window`, whose `calloc` clears `isurgent`:
window 200 arrives on desktop 1 without its urgency. -/
theorem urgency_not_kept_with_window :
    StateOK defaultConfig stateABu100 ringsAB ∧ stateABu100.current = 2 ∧
    urgencyOf stateABu100 0 = some [(100, true), (200, false)] ∧
    (move_up defaultConfig stateABu100).map (fun t => urgencyOf t 0) =
      some (some [(200, true), (100, false)]) ∧
    (move_down defaultConfig stateABu100).map (fun t => urgencyOf t 0) =
      some (some [(200, true), (100, false)]) ∧
    (swap_master defaultConfig stateABu100).map (fun t => urgencyOf t 0) =
      some (some [(200, true), (100, false)]) ∧
    StateOK defaultConfig stateABu200 ringsAB ∧ stateABu200.current = 2 ∧
    urgencyOf stateABu200 0 = some [(100, false), (200, true)] ∧
    (client_to_desktop defaultConfig 1 stateABu200).map
      (fun t => (urgencyOf t 0, urgencyOf t 1)) =
      some (some [(100, false)], some [(200, false)]) := by
  refine ⟨⟨by decide, by decide, by decide, by decide,
      fun d hd => by
        have hd4 : d < 4 := hd
        interval_cases d <;> decide⟩,
    by decide, by decide, by decide, by decide, by decide,
    ⟨by decide, by decide, by decide, by decide,
      fun d hd => by
        have hd4 : d < 4 := hd
        interval_cases d <;> decide⟩,
    by decide, by decide, by decide⟩

/-! ## C25: `move_down` and `move_up` -/

theorem swapWin_next (h : Heap) (a b x : Nat) : (swapWin h a b x).next = (h x).next := by
  unfold swapWin
  rw [setWin_next, setWin_next]

theorem swapWin_prev (h : Heap) (a b x : Nat) : (swapWin h a b x).prev = (h x).prev := by
  unfold swapWin
  rw [setWin_prev, setWin_prev]

theorem swapWin_isurgent (h : Heap) (a b x : Nat) :
    (swapWin h a b x).isurgent = (h x).isurgent := by
  unfold swapWin
  rw [setWin_isurgent, setWin_isurgent]

theorem swapWin_win (h : Heap) (a b x : Nat) :
    (swapWin h a b x).win =
      if x = b then (h a).win else if x = a then (h b).win else (h x).win := by
  unfold swapWin
  rw [setWin_win, setWin_win]

theorem swapWin_swapWin (h : Heap) (a b x : Nat) : swapWin (swapWin h a b) b a x = h x := by
  have e : ∀ c1 c2 : client, c1.next = c2.next → c1.prev = c2.prev → c1.isurgent = c2.isurgent →
      c1.win = c2.win → c1 = c2 := by
    intro c1 c2 h1 h2 h3 h4
    cases c1; cases c2
    simp only at h1 h2 h3 h4
    subst h1 h2 h3 h4
    rfl
  apply e
  · rw [swapWin_next, swapWin_next]
  · rw [swapWin_prev, swapWin_prev]
  · rw [swapWin_isurgent, swapWin_isurgent]
  · simp only [swapWin_win]
    by_cases h1 : x = a
    · subst h1
      by_cases h2 : x = b
      · subst h2; simp
      · simp [h2]
    · by_cases h2 : x = b
      · subst h2
        have h3 : ¬ a = x := fun e => h1 e.symm
        simp [h1, h3]
      · simp [h1, h2]

theorem ringOK_swapWin (h : Heap) (brk hd a b : Nat) (L : List Nat) (hok : RingOK h brk hd L) :
    RingOK (swapWin h a b) brk hd L :=
  ⟨chain_congr h _ L hd (fun x _ => swapWin_next h a b x) hok.1,
   prevLinks_congr h _ L _ (fun x _ => swapWin_prev h a b x) hok.2.1, hok.2.2⟩

theorem ring_succ (h : Heap) (brk hd c : Nat) (L1 L2 : List Nat)
    (hok : RingOK h brk hd (L1 ++ c :: L2)) :
    (if (h c).next ≠ 0 then (h c).next else hd) = (L2 ++ L1 ++ [c]).headD 0 := by
  rw [ring_next _ _ _ _ _ _ hok]
  have hhead : hd = (L1 ++ c :: L2).headD 0 := by
    cases hL : L1 ++ c :: L2 with
    | nil => simp at hL
    | cons x T => rw [hL] at hok; exact hok.1.1
  cases L2 with
  | nil =>
    simp only [List.headD_nil, ne_eq, not_true_eq_false, if_false, List.nil_append]
    rw [hhead]
  | cons n L2 =>
    have hn0 : n ≠ 0 := fun e => seg_not_mem_zero _ _ _ _ hok.1
      (e ▸ List.mem_append_right L1 (List.mem_cons_of_mem c (List.mem_cons_self n L2)))
    simp only [List.headD_cons, ne_eq, hn0, not_false_eq_true, if_true, List.cons_append]

theorem save_tile_update (cfg : Config) (s : State) (L : List Nat)
    (hw : walk s.heap s.brk s.head = some L) (hcur : s.current ≠ 0 → s.head ≠ 0)
    (hcd : 0 ≤ s.current_desktop) :
    ∃ t, (match save_desktop cfg s.current_desktop s with
        | none => none
        | some s1 =>
          match tile cfg s1 with
          | none => none
          | some s2 => update_current cfg s2) = some t ∧
      t.heap = s.heap ∧ t.brk = s.brk ∧ t.head = s.head ∧ t.current = s.current ∧
      t.current_desktop = s.current_desktop := by
  obtain ⟨s1, e1, hv, hcd1, hsn, _, _⟩ := save_desktop_views cfg s hcd
  have hhead : s1.head = s.head := congrArg desktop.head hsn
  have hcurr : s1.current = s.current := congrArg desktop.current hsn
  have hw1 : walk s1.heap s1.brk s1.head = some L := by rw [hv.1, hv.2.1, hhead]; exact hw
  obtain ⟨cs, e2⟩ := tile_total cfg s1 L hw1
  obtain ⟨cs2, e3⟩ := update_current_total cfg (emit s1 cs) L hw1
    (by show s1.current ≠ 0 → s1.head ≠ 0; rw [hhead, hcurr]; exact hcur)
  rw [e1]
  dsimp only
  rw [e2]
  dsimp only
  rw [e3]
  exact ⟨_, rfl, hv.1, hv.2.1, hhead, hcurr, hcd1⟩

theorem move_down_ring (cfg : Config) (s : State) (L1 L2 : List Nat) (c : Nat)
    (hok : RingOK s.heap s.brk s.head (L1 ++ c :: L2)) (hcur : s.current = c)
    (hlen : 2 ≤ (L1 ++ c :: L2).length) (hcd : 0 ≤ s.current_desktop) :
    ∃ t, move_down cfg s = some t ∧
      t.heap = swapWin s.heap c ((L2 ++ L1 ++ [c]).headD 0) ∧
      t.current = (L2 ++ L1 ++ [c]).headD 0 ∧ t.head = s.head ∧ t.brk = s.brk ∧
      t.current_desktop = s.current_desktop := by
  have hc0 : c ≠ 0 := fun e =>
    seg_not_mem_zero _ _ _ _ hok.1 (e ▸ List.mem_append_right L1 (List.mem_cons_self c L2))
  obtain ⟨hh, hne⟩ := ring_head_prev_ne _ _ _ _ hok hlen
  have hsucc := ring_succ _ _ _ _ _ _ hok
  obtain ⟨t, e, p1, p2, p3, p4, p5⟩ := save_tile_update cfg
    { s with heap := swapWin s.heap c ((L2 ++ L1 ++ [c]).headD 0),
             current := (L2 ++ L1 ++ [c]).headD 0 }
    (L1 ++ c :: L2) (walk_of_ringOK _ _ _ _ (ringOK_swapWin _ _ _ _ _ _ hok)) (fun _ => hh) hcd
  refine ⟨t, ?_, p1, p4, p3, p2, p5⟩
  unfold move_down
  rw [if_neg (hcur ▸ hc0), if_neg hh, if_neg hne]
  dsimp only
  rw [hcur, hsucc]
  exact e

theorem move_up_ring (cfg : Config) (s : State) (L1 L2 : List Nat) (c : Nat)
    (hok : RingOK s.heap s.brk s.head (L1 ++ c :: L2)) (hcur : s.current = c)
    (hlen : 2 ≤ (L1 ++ c :: L2).length) (hcd : 0 ≤ s.current_desktop) :
    ∃ t, move_up cfg s = some t ∧
      t.heap = swapWin s.heap c (lastOr (lastOr c L2) L1) ∧
      t.current = lastOr (lastOr c L2) L1 ∧ t.head = s.head ∧ t.brk = s.brk ∧
      t.current_desktop = s.current_desktop := by
  have h0 := seg_not_mem_zero _ _ _ _ hok.1
  have hc0 : c ≠ 0 := fun e => h0 (e ▸ List.mem_append_right L1 (List.mem_cons_self c L2))
  obtain ⟨hh, hne⟩ := ring_head_prev_ne _ _ _ _ hok hlen
  have hp := ring_prev _ _ _ _ _ _ hok
  have hp0 : (s.heap c).prev ≠ 0 := by
    rw [hp]
    intro e
    have hm : lastOr (lastOr c L2) L1 ∈ L1 ++ c :: L2 := by
      cases L1 with
      | nil => exact lastOr_mem c L2
      | cons x L1 => exact List.mem_append_left _ (lastOr_mem x L1)
    exact h0 (e ▸ hm)
  obtain ⟨t, e, p1, p2, p3, p4, p5⟩ := save_tile_update cfg
    { s with heap := swapWin s.heap c (lastOr (lastOr c L2) L1),
             current := lastOr (lastOr c L2) L1 }
    (L1 ++ c :: L2) (walk_of_ringOK _ _ _ _ (ringOK_swapWin _ _ _ _ _ _ hok)) (fun _ => hh) hcd
  refine ⟨t, ?_, p1, p4, p3, p2, p5⟩
  unfold move_up
  rw [if_neg (hcur ▸ hc0), if_neg hh, if_neg hne]
  dsimp only
  rw [hcur, if_neg hp0]
  simp only [setWin_prev]
  rw [hp]
  exact e

theorem swap_mem (L : List Nat) (a b : Nat) (ha : a ∈ L) (hb : b ∈ L) (x : Nat) (hx : x ∈ L) :
    Equiv.swap a b x ∈ L := by
  rw [Equiv.swap_apply_def]
  split_ifs <;> assumption

theorem swapWin_perm (h : Heap) (L : List Nat) (a b : Nat) (hnd : L.Nodup) (ha : a ∈ L)
    (hb : b ∈ L) : (wins (swapWin h a b) L).Perm (wins h L) := by
  have h1 : wins (swapWin h a b) L = (L.map (Equiv.swap a b)).map fun c => (h c).win := by
    unfold wins
    rw [List.map_map]
    apply List.map_congr_left
    intro x _
    rw [swapWin_win, Function.comp_apply, Equiv.swap_apply_def]
    by_cases hxb : x = b
    · subst hxb
      by_cases hxa : x = a
      · subst hxa; simp
      · simp [hxa]
    · by_cases hxa : x = a
      · subst hxa
        simp [hxb]
      · simp [hxa, hxb]
  have h2 : (L.map (Equiv.swap a b)).Perm L := by
    rw [List.perm_ext_iff_of_nodup (hnd.map (Equiv.swap a b).injective) hnd]
    intro x
    constructor
    · intro hx
      obtain ⟨y, hy, e⟩ := List.mem_map.1 hx
      rw [← e]
      exact swap_mem L a b ha hb y hy
    · intro hx
      exact List.mem_map.2 ⟨Equiv.swap a b x, swap_mem L a b ha hb x hx,
        Equiv.swap_apply_self a b x⟩
  rw [h1]
  exact h2.map _

theorem succ_pred (L1 L2 : List Nat) (c : Nat) (hlen : 2 ≤ (L1 ++ c :: L2).length) :
    ∃ M1 M2, L1 ++ c :: L2 = M1 ++ (L2 ++ L1 ++ [c]).headD 0 :: M2 ∧
      lastOr (lastOr ((L2 ++ L1 ++ [c]).headD 0) M2) M1 = c := by
  cases L2 with
  | nil =>
    cases L1 with
    | nil => simp at hlen
    | cons x L1 =>
      refine ⟨[], L1 ++ [c], rfl, ?_⟩
      show lastOr (lastOr x (L1 ++ [c])) [] = c
      rw [lastOr_nil, lastOr_append_cons]; rfl
  | cons n L2 =>
    refine ⟨L1 ++ [c], L2, by simp, ?_⟩
    show lastOr (lastOr n L2) (L1 ++ [c]) = c
    rw [lastOr_append_cons]; rfl

theorem pred_succ (L1 L2 : List Nat) (c : Nat) (hlen : 2 ≤ (L1 ++ c :: L2).length) :
    ∃ M1 M2, L1 ++ c :: L2 = M1 ++ lastOr (lastOr c L2) L1 :: M2 ∧
      (M2 ++ M1 ++ [lastOr (lastOr c L2) L1]).headD 0 = c := by
  rcases List.eq_nil_or_concat L1 with h1 | ⟨I, p, h1⟩
  · subst h1
    rcases List.eq_nil_or_concat L2 with h2 | ⟨J, q, h2⟩
    · subst h2; simp at hlen
    · rw [List.concat_eq_append] at h2
      subst h2
      have hq : lastOr (lastOr c (J ++ [q])) [] = q := by
        rw [lastOr_nil, lastOr_append_cons]; rfl
      rw [hq]
      exact ⟨c :: J, [], rfl, rfl⟩
  · rw [List.concat_eq_append] at h1
    subst h1
    have hq : lastOr (lastOr c L2) (I ++ [p]) = p := by
      rw [lastOr_append_cons]; rfl
    rw [hq]
    exact ⟨I, c :: L2, by simp, rfl⟩

theorem contentSwap_of_swapWin (s t : State) (L : List Nat) (n : Nat)
    (hok : RingOK s.heap s.brk s.head L) (hc : s.current ∈ L) (hn : n ∈ L)
    (hheap : t.heap = swapWin s.heap s.current n) (hcur : t.current = n)
    (hhead : t.head = s.head) (hbrk : t.brk = s.brk) : ContentSwap s t L := by
  refine ⟨fun x => ?_, hhead, ?_, ?_, ?_, ?_, fun x h1 h2 => ?_⟩
  · rw [hheap]; exact ⟨swapWin_next _ _ _ _, swapWin_prev _ _ _ _⟩
  · rw [hheap, hhead, hbrk]; exact ringOK_swapWin _ _ _ _ _ _ hok
  · rw [hheap]; exact swapWin_perm _ _ _ _ (ringOK_nodup _ _ _ _ hok) hc hn
  · rw [hheap, hcur, swapWin_win, if_pos rfl]
  · rw [hheap, hcur, swapWin_win]
    by_cases e : s.current = n
    · rw [if_pos e, e]
    · rw [if_neg e, if_pos rfl]
  · rw [hcur] at h2
    rw [hheap, swapWin_win, if_neg h2, if_neg h1]

theorem move_down_then_up (cfg : Config) (s : State) (L1 L2 : List Nat) (c : Nat)
    (hok : RingOK s.heap s.brk s.head (L1 ++ c :: L2)) (hcur : s.current = c)
    (hlen : 2 ≤ (L1 ++ c :: L2).length) (hcd : 0 ≤ s.current_desktop) :
    ∃ t u, move_down cfg s = some t ∧ move_up cfg t = some u ∧ u.current = s.current ∧
      (∀ x, u.heap x = s.heap x) ∧ u.head = s.head := by
  obtain ⟨t, e1, hh, hc, hhd, hb, hd⟩ := move_down_ring cfg s L1 L2 c hok hcur hlen hcd
  obtain ⟨M1, M2, hM, hback⟩ := succ_pred L1 L2 c hlen
  have hokt : RingOK t.heap t.brk t.head (M1 ++ (L2 ++ L1 ++ [c]).headD 0 :: M2) := by
    rw [hh, hhd, hb, ← hM]; exact ringOK_swapWin _ _ _ _ _ _ hok
  obtain ⟨u, e2, hh2, hc2, hhd2, _, _⟩ := move_up_ring cfg t M1 M2 _ hokt hc
    (by rw [← hM]; exact hlen) (by rw [hd]; exact hcd)
  refine ⟨t, u, e1, e2, by rw [hc2, hback, hcur], fun x => ?_, hhd2.trans hhd⟩
  rw [hh2, hback, hh]
  exact swapWin_swapWin _ _ _ _

theorem move_up_then_down (cfg : Config) (s : State) (L1 L2 : List Nat) (c : Nat)
    (hok : RingOK s.heap s.brk s.head (L1 ++ c :: L2)) (hcur : s.current = c)
    (hlen : 2 ≤ (L1 ++ c :: L2).length) (hcd : 0 ≤ s.current_desktop) :
    ∃ t u, move_up cfg s = some t ∧ move_down cfg t = some u ∧ u.current = s.current ∧
      (∀ x, u.heap x = s.heap x) ∧ u.head = s.head := by
  obtain ⟨t, e1, hh, hc, hhd, hb, hd⟩ := move_up_ring cfg s L1 L2 c hok hcur hlen hcd
  obtain ⟨M1, M2, hM, hback⟩ := pred_succ L1 L2 c hlen
  have hokt : RingOK t.heap t.brk t.head (M1 ++ lastOr (lastOr c L2) L1 :: M2) := by
    rw [hh, hhd, hb, ← hM]; exact ringOK_swapWin _ _ _ _ _ _ hok
  obtain ⟨u, e2, hh2, hc2, hhd2, _, _⟩ := move_down_ring cfg t M1 M2 _ hokt hc
    (by rw [← hM]; exact hlen) (by rw [hd]; exact hcd)
  refine ⟨t, u, e1, e2, by rw [hc2, hback, hcur], fun x => ?_, hhd2.trans hhd⟩
  rw [hh2, hback, hh]
  exact swapWin_swapWin _ _ _ _

theorem lastOr_getLastD : ∀ (T : List Nat) (d : Nat), lastOr d T = T.getLastD d := by
  intro T
  induction T with
  | nil => intro d; rfl
  | cons y T ih => intro d; rw [lastOr_cons, List.getLastD_cons]; exact ih y

/-- C25. Reordering by content swap: on a well-formed ring `L` of at least two
clients with `current` on it (and a valid active index), `move_down` and
`move_up` each return a state that is the old one with two window handles
exchanged: no `next` or `prev` link differs and the ring of cells is the same,
the handles on the ring are the same handles in another order, the handle of
`current` is the one it was, and `current` has moved to the next cell
(`move_down`, from the last cell to the first) or to the previous cell
(`move_up`, from the first cell to the last); `move_down` followed by
`move_up`, and `move_up` followed by `move_down`, return and give back every
cell, hence the handle order, and `current`. -/
theorem move_content_swap (cfg : Config) (s : State) (L : List Nat)
    (hok : RingOK s.heap s.brk s.head L) (hcur : CurOK s.current L) (hlen : 2 ≤ L.length)
    (hcd : 0 ≤ s.current_desktop) :
    (∃ t, move_down cfg s = some t ∧ ContentSwap s t L ∧
      (∀ L1 n L2, L = L1 ++ s.current :: n :: L2 → t.current = n) ∧
      (∀ I, L = I ++ [s.current] → t.current = s.head)) ∧
    (∃ t, move_up cfg s = some t ∧ ContentSwap s t L ∧
      (∀ L1 p L2, L = L1 ++ p :: s.current :: L2 → t.current = p) ∧
      (∀ T, L = s.current :: T → t.current = L.getLastD 0)) ∧
    (∃ t u, move_down cfg s = some t ∧ move_up cfg t = some u ∧ u.current = s.current ∧
      wins u.heap L = wins s.heap L ∧ (∀ x, u.heap x = s.heap x) ∧ u.head = s.head) ∧
    (∃ t u, move_up cfg s = some t ∧ move_down cfg t = some u ∧ u.current = s.current ∧
      wins u.heap L = wins s.heap L ∧ (∀ x, u.heap x = s.heap x) ∧ u.head = s.head) := by
  have hne : L ≠ [] := by intro e; subst e; simp at hlen
  have hc0 : s.current ≠ 0 := fun e => hne (hcur.1.1 e)
  have hcL : s.current ∈ L := hcur.2 hc0
  obtain ⟨L1, L2, hsplit⟩ := List.append_of_mem hcL
  subst hsplit
  refine ⟨?_, ?_, ?_, ?_⟩
  · obtain ⟨t, e, hh, hc, hhd, hb, _⟩ := move_down_ring cfg s L1 L2 _ hok rfl hlen hcd
    obtain ⟨M1, M2, hM, _⟩ := succ_pred L1 L2 s.current hlen
    have hn : (L2 ++ L1 ++ [s.current]).headD 0 ∈ L1 ++ s.current :: L2 := by
      rw [hM]; exact List.mem_append_right _ (List.mem_cons_self _ _)
    refine ⟨t, e, contentSwap_of_swapWin s t _ _ hok hcL hn hh hc hhd hb, ?_, ?_⟩
    · intro N1 n N2 hN
      rw [hN] at hok hlen
      obtain ⟨t1, e1, _, hc1, _⟩ := move_down_ring cfg s N1 (n :: N2) _ hok rfl hlen hcd
      rw [e] at e1
      cases Option.some.inj e1
      exact hc1
    · intro I hI
      have hhead : s.head = (I ++ [s.current]).headD 0 := by
        rw [hI] at hok
        cases hL : I ++ [s.current] with
        | nil => simp at hL
        | cons x T => rw [hL] at hok; exact hok.1.1
      rw [hI] at hok hlen
      obtain ⟨t1, e1, _, hc1, _⟩ := move_down_ring cfg s I [] _ hok rfl hlen hcd
      rw [e] at e1
      cases Option.some.inj e1
      rw [hc1, hhead]; rfl
  · obtain ⟨t, e, hh, hc, hhd, hb, _⟩ := move_up_ring cfg s L1 L2 _ hok rfl hlen hcd
    obtain ⟨M1, M2, hM, _⟩ := pred_succ L1 L2 s.current hlen
    have hn : lastOr (lastOr s.current L2) L1 ∈ L1 ++ s.current :: L2 := by
      rw [hM]; exact List.mem_append_right _ (List.mem_cons_self _ _)
    refine ⟨t, e, contentSwap_of_swapWin s t _ _ hok hcL hn hh hc hhd hb, ?_, ?_⟩
    · intro N1 p N2 hN
      have hN2 : L1 ++ s.current :: L2 = (N1 ++ [p]) ++ s.current :: N2 := by
        rw [hN, List.append_assoc]; rfl
      rw [hN2] at hok hlen
      obtain ⟨t1, e1, _, hc1, _⟩ := move_up_ring cfg s (N1 ++ [p]) N2 _ hok rfl hlen hcd
      rw [e] at e1
      cases Option.some.inj e1
      rw [hc1, lastOr_append_cons]; rfl
    · intro T hT
      have hT2 : L1 ++ s.current :: L2 = [] ++ s.current :: T := hT
      rw [hT2] at hok hlen
      obtain ⟨t1, e1, _, hc1, _⟩ := move_up_ring cfg s [] T _ hok rfl hlen hcd
      rw [e] at e1
      cases Option.some.inj e1
      rw [hc1, hT, lastOr_nil, List.getLastD_cons]
      exact lastOr_getLastD T s.current
  · obtain ⟨t, u, e1, e2, hc, hheap, hhd⟩ := move_down_then_up cfg s L1 L2 _ hok rfl hlen hcd
    exact ⟨t, u, e1, e2, hc, wins_congr _ _ _ (fun a _ => by rw [hheap a]), hheap, hhd⟩
  · obtain ⟨t, u, e1, e2, hc, hheap, hhd⟩ := move_up_then_down cfg s L1 L2 _ hok rfl hlen hcd
    exact ⟨t, u, e1, e2, hc, wins_congr _ _ _ (fun a _ => by rw [hheap a]), hheap, hhd⟩

theorem move_content_swap_witness :
    RingOK stateABC.heap stateABC.brk stateABC.head [1, 2, 3] ∧
    CurOK stateABC.current [1, 2, 3] ∧ 2 ≤ [1, 2, 3].length ∧ 0 ≤ stateABC.current_desktop ∧
    ((∃ t, move_down defaultConfig stateABC = some t ∧ ContentSwap stateABC t [1, 2, 3] ∧
      (∀ L1 n L2, [1, 2, 3] = L1 ++ stateABC.current :: n :: L2 → t.current = n) ∧
      (∀ I, [1, 2, 3] = I ++ [stateABC.current] → t.current = stateABC.head)) ∧
    (∃ t, move_up defaultConfig stateABC = some t ∧ ContentSwap stateABC t [1, 2, 3] ∧
      (∀ L1 p L2, [1, 2, 3] = L1 ++ p :: stateABC.current :: L2 → t.current = p) ∧
      (∀ T, [1, 2, 3] = stateABC.current :: T → t.current = [1, 2, 3].getLastD 0)) ∧
    (∃ t u, move_down defaultConfig stateABC = some t ∧ move_up defaultConfig t = some u ∧
      u.current = stateABC.current ∧
      wins u.heap [1, 2, 3] = wins stateABC.heap [1, 2, 3] ∧
      (∀ x, u.heap x = stateABC.heap x) ∧ u.head = stateABC.head) ∧
    (∃ t u, move_up defaultConfig stateABC = some t ∧ move_down defaultConfig t = some u ∧
      u.current = stateABC.current ∧
      wins u.heap [1, 2, 3] = wins stateABC.heap [1, 2, 3] ∧
      (∀ x, u.heap x = stateABC.heap x) ∧ u.head = stateABC.head)) ∧
    wins stateABC.heap [1, 2, 3] = [100, 200, 300] ∧ stateABC.current = 3 ∧
    (move_down defaultConfig stateABC).map (fun t => (t.current, wins t.heap [1, 2, 3])) =
      some (1, [300, 200, 100]) ∧
    (move_up defaultConfig stateABC).map (fun t => (t.current, wins t.heap [1, 2, 3])) =
      some (2, [100, 300, 200]) :=
  ⟨by decide, by decide, by decide, by decide,
    move_content_swap defaultConfig stateABC [1, 2, 3] (by decide) (by decide) (by decide)
      (by decide), by decide, by decide, by decide, by decide⟩

/-! ## C21: the cells of `GRID` -/

theorem div_mod_of_form (q cn rn : Nat) (h : rn < q) :
    (cn * q + rn) / q = cn ∧ (cn * q + rn) % q = rn := by
  have hq : 0 < q := by omega
  constructor
  · rw [Nat.mul_comm, Nat.mul_add_div hq, Nat.div_eq_of_lt h]; rfl
  · rw [Nat.mul_comm, Nat.mul_add_mod, Nat.mod_eq_of_lt h]

theorem gridCell_low (m q cn rn : Nat) (hrn : rn < q) (hcn : cn < m) :
    cn * q + rn < m * q ∧ gridCell m q (cn * q + rn) = (cn, rn, q) := by
  have h1 : (cn + 1) * q ≤ m * q := Nat.mul_le_mul_right q hcn
  rw [Nat.add_mul, Nat.one_mul] at h1
  have hlt : cn * q + rn < m * q := by omega
  refine ⟨hlt, ?_⟩
  unfold gridCell
  rw [if_pos hlt, (div_mod_of_form q cn rn hrn).1, (div_mod_of_form q cn rn hrn).2]

theorem gridCell_high (m q k rn : Nat) (hrn : rn < q + 1) :
    gridCell m q (m * q + k * (q + 1) + rn) = (m + k, rn, q + 1) := by
  unfold gridCell
  have hge : ¬ m * q + k * (q + 1) + rn < m * q := by omega
  have hsub : m * q + k * (q + 1) + rn - m * q = k * (q + 1) + rn := by omega
  rw [if_neg hge, hsub, (div_mod_of_form (q + 1) k rn hrn).1,
    (div_mod_of_form (q + 1) k rn hrn).2]

theorem gridCell_of_inv (m q rows cn rn i : Nat) (hq : 1 ≤ q) (hinv : GridInv m q rows cn rn i) :
    gridCell m q i = (cn, rn, if decide (i / rows + 1 > m) then q + 1 else rows) ∧
    (if decide (i / rows + 1 > m) then q + 1 else rows) ≠ 0 ∧ rows ≠ 0 := by
  rcases hinv with ⟨hr, hi, hrn, hcn | ⟨hcn, hrn0⟩⟩ | ⟨hr, hcn, hi, hrn⟩
  · subst hr hi
    have hd := (div_mod_of_form rows cn rn hrn).1
    have hc : ¬ (cn * rows + rn) / rows + 1 > m := by rw [hd]; omega
    simp only [hc, decide_False, Bool.false_eq_true, if_false]
    exact ⟨(gridCell_low m rows cn rn hrn hcn).2, by omega, by omega⟩
  · subst hr hcn hrn0 hi
    have hd := (div_mod_of_form rows cn 0 (by omega)).1
    have hc : (cn * rows + 0) / rows + 1 > cn := by rw [hd]; omega
    simp only [hc, decide_True, if_true]
    have := gridCell_high cn rows 0 0 (by omega)
    simp only [Nat.zero_mul, Nat.add_zero] at this ⊢
    exact ⟨this, by omega, by omega⟩
  · subst hr hi
    have h2 : (if decide ((m * q + (cn - m) * (q + 1) + rn) / (q + 1) + 1 > m) then q + 1
        else q + 1) = q + 1 := by split <;> rfl
    rw [h2]
    have := gridCell_high m q (cn - m) rn hrn
    rw [this]
    refine ⟨?_, by omega, by omega⟩
    have : m + (cn - m) = cn := by omega
    rw [this]

theorem gridInv_next (m q rows cn rn i : Nat) (hq : 1 ≤ q) (hinv : GridInv m q rows cn rn i) :
    (rn + 1 ≥ (if decide (i / rows + 1 > m) then q + 1 else rows) →
      GridInv m q (if decide (i / rows + 1 > m) then q + 1 else rows) (cn + 1) 0 (i + 1)) ∧
    (¬ rn + 1 ≥ (if decide (i / rows + 1 > m) then q + 1 else rows) →
      GridInv m q (if decide (i / rows + 1 > m) then q + 1 else rows) cn (rn + 1) (i + 1)) := by
  rcases hinv with ⟨hr, hi, hrn, hcn | ⟨hcn, hrn0⟩⟩ | ⟨hr, hcn, hi, hrn⟩
  · subst hr hi
    have hd := (div_mod_of_form rows cn rn hrn).1
    have hc : ¬ (cn * rows + rn) / rows + 1 > m := by rw [hd]; omega
    simp only [hc, decide_False, Bool.false_eq_true, if_false]
    have hmul : (cn + 1) * rows = cn * rows + rows := by rw [Nat.add_mul, Nat.one_mul]
    constructor
    · intro hge
      left
      refine ⟨rfl, by omega, by omega, by omega⟩
    · intro hlt
      left
      exact ⟨rfl, by omega, by omega, Or.inl hcn⟩
  · subst hr hcn hrn0 hi
    have hd := (div_mod_of_form rows cn 0 (by omega)).1
    have hc : (cn * rows + 0) / rows + 1 > cn := by rw [hd]; omega
    simp only [hc, decide_True, if_true]
    constructor
    · intro hge; omega
    · intro _
      right
      refine ⟨rfl, Nat.le_refl _, ?_, by omega⟩
      rw [Nat.sub_self, Nat.zero_mul]
  · subst hr hi
    have h2 : (if decide ((m * q + (cn - m) * (q + 1) + rn) / (q + 1) + 1 > m) then q + 1
        else q + 1) = q + 1 := by split <;> rfl
    rw [h2]
    have hmul : (cn + 1 - m) * (q + 1) = (cn - m) * (q + 1) + (q + 1) := by
      have : cn + 1 - m = (cn - m) + 1 := by omega
      rw [this, Nat.add_mul, Nat.one_mul]
    constructor
    · intro hge
      right
      exact ⟨rfl, by omega, by omega, by omega⟩
    · intro hlt
      right
      exact ⟨rfl, hcn, by omega, by omega⟩

theorem tileGrid_cells (cfg : Config) (h : Heap) (panel hh n cols cw : Int) (m q : Nat)
    (hq : 1 ≤ q) (hm : cols - n.tmod cols = (m : Int)) (hqq : n.tdiv cols = (q : Int)) :
    ∀ (L : List Nat) (rows cn rn i : Nat), GridInv m q rows cn rn i →
      tileGrid cfg h panel hh n cols cw (rows : Int) (cn : Int) (rn : Int) (i : Int) L =
        some (gridCalls cfg h panel hh cw m q i L) := by
  intro L
  induction L with
  | nil => intro rows cn rn i _; rfl
  | cons c cs ih =>
    intro rows cn rn i hinv
    obtain ⟨hcell, hR0, hrows0⟩ := gridCell_of_inv m q rows cn rn i hq hinv
    obtain ⟨hn1, hn2⟩ := gridInv_next m q rows cn rn i hq hinv
    have hrows1 : (if (i : Int).tdiv (rows : Int) + 1 > cols - n.tmod cols then n.tdiv cols + 1
        else (rows : Int)) =
        (((if decide (i / rows + 1 > m) then q + 1 else rows : Nat)) : Int) := by
      rw [hm, hqq, ← Int.ofNat_tdiv]
      by_cases hc : i / rows + 1 > m
      · have hc2 : ((i / rows : Nat) : Int) + 1 > (m : Int) := by exact_mod_cast hc
        simp only [hc, hc2, decide_True, if_true]
        push_cast; rfl
      · have hc2 : ¬ ((i / rows : Nat) : Int) + 1 > (m : Int) := by exact_mod_cast hc
        simp only [hc, hc2, decide_False, Bool.false_eq_true, if_false]
    generalize (if decide (i / rows + 1 > m) then q + 1 else rows) = R at hcell hR0 hn1 hn2 hrows1
    have hrowsI : ¬ (rows : Int) = 0 := by exact_mod_cast hrows0
    have hRI : ¬ (R : Int) = 0 := by exact_mod_cast hR0
    unfold tileGrid
    simp only [hrowsI, if_false, hrows1, hRI]
    by_cases hge : rn + 1 ≥ R
    · have hgeI : (rn : Int) + 1 ≥ (R : Int) := by exact_mod_cast hge
      have ih1 := ih R (cn + 1) 0 (i + 1) (hn1 hge)
      push_cast at ih1
      simp only [hgeI, if_true, ih1]
      simp only [gridCalls, gridCall, hcell, zero_add]
    · have hgeI : ¬ (rn : Int) + 1 ≥ (R : Int) := by exact_mod_cast hge
      have ih1 := ih R cn (rn + 1) (i + 1) (hn2 hge)
      push_cast at ih1
      simp only [hgeI, if_false, ih1]
      simp only [gridCalls, gridCall, hcell, zero_add]

theorem gridColumns_bounds (n : Int) (hn : 2 ≤ n) : 1 ≤ gridColumns n ∧ gridColumns n ≤ n := by
  unfold gridColumns
  by_cases h5 : n = 5
  · rw [if_pos h5]; omega
  · rw [if_neg h5]
    have h1 := gridCols_pos n (by omega) (n.tdiv 2).toNat
    have h2 := gridCols_le n (n.tdiv 2).toNat.succ 0
    have h3 : n.tdiv 2 = n / 2 := Int.tdiv_eq_ediv (by omega) (by omega)
    rw [h3] at h1 h2 ⊢
    refine ⟨h1, ?_⟩
    have h4 : max (0 : Int) (n / 2 + 1) ≤ n := by
      apply max_le <;> omega
    exact le_trans h2 h4

theorem grid_count (n cols : Nat) (hc : 1 ≤ cols) :
    n % cols < cols ∧ (cols - n % cols) * (n / cols) + n % cols * (n / cols + 1) = n := by
  have hr : n % cols < cols := Nat.mod_lt _ (by omega)
  refine ⟨hr, ?_⟩
  have h1 := Nat.div_add_mod n cols
  have h2 : cols * (n / cols) = (cols - n % cols) * (n / cols) + n % cols * (n / cols) := by
    rw [← Nat.add_mul]
    congr 1
    omega
  rw [Nat.mul_add, Nat.mul_one]
  omega

theorem gridCell_spec (m q r n i : Nat) (hn : m * q + r * (q + 1) = n) (hq : 1 ≤ q)
    (hi : i < n) :
    (gridCell m q i).1 < m + r ∧ (gridCell m q i).2.1 < (gridCell m q i).2.2 ∧
    (gridCell m q i).2.2 = (if (gridCell m q i).1 < m then q else q + 1) ∧
    i = (if (gridCell m q i).1 < m then (gridCell m q i).1 * q + (gridCell m q i).2.1
      else m * q + ((gridCell m q i).1 - m) * (q + 1) + (gridCell m q i).2.1) := by
  unfold gridCell
  by_cases hlo : i < m * q
  · simp only [hlo, if_true]
    have hcol : i / q < m := (Nat.div_lt_iff_lt_mul (by omega)).2 hlo
    have hrow : i % q < q := Nat.mod_lt _ (by omega)
    have hdm := Nat.div_add_mod i q
    rw [Nat.mul_comm] at hdm
    generalize i / q = col at hcol hdm ⊢
    generalize i % q = row at hrow hdm ⊢
    rw [if_pos hcol, if_pos hcol]
    exact ⟨by omega, hrow, rfl, hdm.symm⟩
  · simp only [hlo, if_false]
    have hj : i - m * q < r * (q + 1) := by omega
    have hcol : (i - m * q) / (q + 1) < r := (Nat.div_lt_iff_lt_mul (by omega)).2 hj
    have hrow : (i - m * q) % (q + 1) < q + 1 := Nat.mod_lt _ (by omega)
    have hdm := Nat.div_add_mod (i - m * q) (q + 1)
    rw [Nat.mul_comm] at hdm
    generalize (i - m * q) / (q + 1) = col at hcol hdm ⊢
    generalize (i - m * q) % (q + 1) = row at hrow hdm ⊢
    have hnot : ¬ m + col < m := by omega
    have hsub : m + col - m = col := by omega
    rw [if_neg hnot, if_neg hnot, hsub]
    exact ⟨by omega, hrow, rfl, by omega⟩

theorem gridCell_injective (m q r n i j : Nat) (hn : m * q + r * (q + 1) = n) (hq : 1 ≤ q)
    (hi : i < n) (hj : j < n) (h1 : (gridCell m q i).1 = (gridCell m q j).1)
    (h2 : (gridCell m q i).2.1 = (gridCell m q j).2.1) : i = j := by
  have ei := (gridCell_spec m q r n i hn hq hi).2.2.2
  have ej := (gridCell_spec m q r n j hn hq hj).2.2.2
  rw [ei, ej, h1, h2]

theorem gridCalls_get (cfg : Config) (h : Heap) (panel hh cw : Int) (m q : Nat) :
    ∀ (L : List Nat) (i0 k c : Nat), L[k]? = some c →
      (gridCalls cfg h panel hh cw m q i0 L)[k]? =
        some (gridCall cfg panel hh cw (h c).win (gridCell m q (i0 + k))) := by
  intro L
  induction L with
  | nil => intro i0 k c hk; simp at hk
  | cons x xs ih =>
    intro i0 k c hk
    cases k with
    | zero =>
      simp only [List.getElem?_cons_zero, Option.some.injEq] at hk
      subst hk
      simp only [gridCalls, List.getElem?_cons_zero, Nat.add_zero]
    | succ k =>
      simp only [List.getElem?_cons_succ] at hk
      simp only [gridCalls, List.getElem?_cons_succ]
      rw [ih (i0 + 1) k c hk]
      have : i0 + 1 + k = i0 + (k + 1) := by omega
      rw [this]

/-- C21. `GRID` cell assignment: on a ring of `n ≥ 2` clients in `GRID` mode,
with `cols` the column count that `tile` computes, `q = n / cols` and
`r = n mod cols`, `tile` returns and issues one geometry call per client in
ring order; the client at ring index `i` is given the cell `gridCell` names:
the columns are filled one after the other, the first `cols - r` columns
receive `q` clients each and the last `r` columns receive `q + 1` each; every
column index is below `cols` and every row index below the row count of its
column, and no two clients share a cell; the client in column `cn`, row `rn`
of a column of `R` rows gets `x = cn * (ww / cols)`,
`y = panel offset + rn * (h / R)`, width `ww / cols - 2 * BORDER_WIDTH` and
height `h / R - 2 * BORDER_WIDTH`; the two sizes are passed as
`unsigned int`, which leaves them as they are when they are not negative and
below `2^32`. -/
theorem grid_cell_assignment (cfg : Config) (s : State) (a b : Nat) (T : List Nat)
    (n cols q r : Nat) (hring : ring s = some (a :: b :: T)) (hmode : s.mode = GRID)
    (hn : n = (a :: b :: T).length) (hcols : (cols : Int) = gridColumns (n : Int))
    (hq : q = n / cols) (hr : r = n % cols) :
    tile cfg s = some (emit s (gridCalls cfg s.heap (panelY cfg s) (layoutH cfg s)
      (s.ww.tdiv cols) (cols - r) q 0 (a :: b :: T))) ∧
    (∀ i c, (a :: b :: T)[i]? = some c →
      (gridCalls cfg s.heap (panelY cfg s) (layoutH cfg s)
          (s.ww.tdiv cols) (cols - r) q 0 (a :: b :: T))[i]? =
        some (xMoveResizeWindow (s.heap c).win
          (((gridCell (cols - r) q i).1 : Int) * s.ww.tdiv cols)
          (panelY cfg s + ((gridCell (cols - r) q i).2.1 : Int) *
            (layoutH cfg s).tdiv ((gridCell (cols - r) q i).2.2 : Int))
          (s.ww.tdiv cols - 2 * cfg.BORDER_WIDTH)
          ((layoutH cfg s).tdiv ((gridCell (cols - r) q i).2.2 : Int) -
            2 * cfg.BORDER_WIDTH))) ∧
    1 ≤ cols ∧ 1 ≤ q ∧ r < cols ∧ (cols - r) * q + r * (q + 1) = n ∧
    (∀ k j, k < cols - r → j < q →
      k * q + j < n ∧ gridCell (cols - r) q (k * q + j) = (k, j, q)) ∧
    (∀ k j, k < r → j < q + 1 →
      (cols - r) * q + k * (q + 1) + j < n ∧
      gridCell (cols - r) q ((cols - r) * q + k * (q + 1) + j) = (cols - r + k, j, q + 1)) ∧
    (∀ i, i < n →
      (gridCell (cols - r) q i).1 < cols ∧
      (gridCell (cols - r) q i).2.1 < (gridCell (cols - r) q i).2.2 ∧
      (gridCell (cols - r) q i).2.2 =
        (if (gridCell (cols - r) q i).1 < cols - r then q else q + 1)) ∧
    (∀ i j, i < n → j < n → (gridCell (cols - r) q i).1 = (gridCell (cols - r) q j).1 →
      (gridCell (cols - r) q i).2.1 = (gridCell (cols - r) q j).2.1 → i = j) ∧
    (∀ (w : Nat) (x y width height : Int), 0 ≤ width → width < 4294967296 → 0 ≤ height →
      height < 4294967296 →
      xMoveResizeWindow w x y width height = XCall.XMoveResizeWindow w x y width height) := by
  have hn2 : 2 ≤ n := by rw [hn]; simp
  obtain ⟨hb1, hb2⟩ := gridColumns_bounds (n : Int) (by exact_mod_cast hn2)
  rw [← hcols] at hb1 hb2
  have hc1 : 1 ≤ cols := by exact_mod_cast hb1
  have hcn : cols ≤ n := by exact_mod_cast hb2
  have hq1 : 1 ≤ q := by rw [hq]; exact Nat.div_pos hcn (by omega)
  obtain ⟨hrc, hcount⟩ := grid_count n cols hc1
  rw [← hq, ← hr] at hcount
  rw [← hr] at hrc
  have hmr : cols - r + r = cols := by omega
  have hm : (cols : Int) - (n : Int).tmod (cols : Int) = ((cols - r : Nat) : Int) := by
    rw [← Int.ofNat_tmod, ← hr]
    omega
  have hqq : (n : Int).tdiv (cols : Int) = (q : Int) := by
    rw [← Int.ofNat_tdiv, ← hq]
  have hloop := tileGrid_cells cfg s.heap (panelY cfg s) (layoutH cfg s) (n : Int) (cols : Int)
    (s.ww.tdiv cols) (cols - r) q hq1 hm hqq (a :: b :: T) q 0 0 0
    (Or.inl ⟨rfl, by simp, by omega, Or.inl (by omega)⟩)
  simp only [Nat.cast_zero] at hloop
  refine ⟨?_, ?_, hc1, hq1, hrc, hcount, ?_, ?_, ?_, ?_, xMoveResizeWindow_of_range⟩
  · rw [tile_form_GRID cfg s a b T hring hmode, ← hn, ← hcols, hqq, hloop]
  · intro i c hi
    have := gridCalls_get cfg s.heap (panelY cfg s) (layoutH cfg s) (s.ww.tdiv cols)
      (cols - r) q (a :: b :: T) 0 i c hi
    rw [Nat.zero_add] at this
    exact this
  · intro k j hk hj
    obtain ⟨h1, h2⟩ := gridCell_low (cols - r) q k j hj hk
    exact ⟨by omega, h2⟩
  · intro k j hk hj
    refine ⟨?_, gridCell_high (cols - r) q k j hj⟩
    have h1 : (k + 1) * (q + 1) ≤ r * (q + 1) := Nat.mul_le_mul_right (q + 1) hk
    rw [Nat.add_mul, Nat.one_mul] at h1
    omega
  · intro i hi
    obtain ⟨h1, h2, h3, _⟩ := gridCell_spec (cols - r) q r n i hcount hq1 hi
    exact ⟨by omega, h2, h3⟩
  · intro i j hi hj h1 h2
    exact gridCell_injective (cols - r) q r n i j hcount hq1 hi hj h1 h2

theorem grid_cell_assignment_witness :
    ring stateABCgrid = some (1 :: 2 :: [3]) ∧ stateABCgrid.mode = GRID ∧
    3 = (1 :: 2 :: [3]).length ∧ ((2 : Nat) : Int) = gridColumns ((3 : Nat) : Int) ∧
    1 = 3 / 2 ∧ 1 = 3 % 2 ∧
    (tile defaultConfig stateABCgrid = some (emit stateABCgrid (gridCalls defaultConfig
      stateABCgrid.heap (panelY defaultConfig stateABCgrid) (layoutH defaultConfig stateABCgrid)
      (stateABCgrid.ww.tdiv ((2 : Nat) : Int)) (2 - 1) 1 0 (1 :: 2 :: [3]))) ∧
    (∀ i c, (1 :: 2 :: [3])[i]? = some c →
      (gridCalls defaultConfig stateABCgrid.heap (panelY defaultConfig stateABCgrid)
          (layoutH defaultConfig stateABCgrid)
          (stateABCgrid.ww.tdiv ((2 : Nat) : Int)) (2 - 1) 1 0 (1 :: 2 :: [3]))[i]? =
        some (xMoveResizeWindow (stateABCgrid.heap c).win
          (((gridCell (2 - 1) 1 i).1 : Int) * stateABCgrid.ww.tdiv ((2 : Nat) : Int))
          (panelY defaultConfig stateABCgrid + ((gridCell (2 - 1) 1 i).2.1 : Int) *
            (layoutH defaultConfig stateABCgrid).tdiv ((gridCell (2 - 1) 1 i).2.2 : Int))
          (stateABCgrid.ww.tdiv ((2 : Nat) : Int) - 2 * defaultConfig.BORDER_WIDTH)
          ((layoutH defaultConfig stateABCgrid).tdiv ((gridCell (2 - 1) 1 i).2.2 : Int) -
            2 * defaultConfig.BORDER_WIDTH))) ∧
    1 ≤ 2 ∧ 1 ≤ 1 ∧ 1 < 2 ∧ (2 - 1) * 1 + 1 * (1 + 1) = 3 ∧
    (∀ k j, k < 2 - 1 → j < 1 →
      k * 1 + j < 3 ∧ gridCell (2 - 1) 1 (k * 1 + j) = (k, j, 1)) ∧
    (∀ k j, k < 1 → j < 1 + 1 →
      (2 - 1) * 1 + k * (1 + 1) + j < 3 ∧
      gridCell (2 - 1) 1 ((2 - 1) * 1 + k * (1 + 1) + j) = (2 - 1 + k, j, 1 + 1)) ∧
    (∀ i, i < 3 →
      (gridCell (2 - 1) 1 i).1 < 2 ∧
      (gridCell (2 - 1) 1 i).2.1 < (gridCell (2 - 1) 1 i).2.2 ∧
      (gridCell (2 - 1) 1 i).2.2 =
        (if (gridCell (2 - 1) 1 i).1 < 2 - 1 then 1 else 1 + 1)) ∧
    (∀ i j, i < 3 → j < 3 → (gridCell (2 - 1) 1 i).1 = (gridCell (2 - 1) 1 j).1 →
      (gridCell (2 - 1) 1 i).2.1 = (gridCell (2 - 1) 1 j).2.1 → i = j) ∧
    (∀ (w : Nat) (x y width height : Int), 0 ≤ width → width < 4294967296 → 0 ≤ height →
      height < 4294967296 →
      xMoveResizeWindow w x y width height = XCall.XMoveResizeWindow w x y width height)) ∧
    (tile defaultConfig stateABCgrid).map (fun t => t.out.drop stateABCgrid.out.length) =
      some [XCall.XMoveResizeWindow 100 0 18 495 594, XCall.XMoveResizeWindow 200 499 18 495 295,
        XCall.XMoveResizeWindow 300 499 317 495 295] :=
  ⟨by decide, by decide, by decide, by decide, by decide, by decide,
    grid_cell_assignment defaultConfig stateABCgrid 1 2 [3] 3 2 1 1 (by decide) (by decide)
      (by decide) (by decide) (by decide) (by decide), by decide⟩

end Monsterwm
